import Mathlib

/-!
# WorkLog Settlement System — verification development

A shallow embedding of `backend/app/api/routes/worklog/service.py` (together
with the data model of `models.py`), and proofs of the settlement properties
stated in the specification.

Modelling conventions:
* Monetary amounts are integers counting cents.  The Python code works with
  `Decimal` values quantized to two fraction digits (`quantize(Decimal("0.01"))`
  with `ROUND_HALF_UP` for segment pricing); on such values every operation the
  code performs is exact, so integer cents are a faithful representation.
* Timestamps are integers counting seconds; `timedelta.total_seconds()` becomes
  integer subtraction.
* Database rows are records in explicit lists inside a `State`; primary keys
  are natural numbers, and fresh remittance ids come from a `nextId` counter
  (the model of `uuid4` freshness plus `session.flush()`).
* Fallible code (`HTTPException`) returns `Except String`.
-/

namespace WorklogSettlement

/-- `TimeSegmentStatus` from `models.py`. -/
inductive TimeSegmentStatus
  | ACTIVE
  | REMOVED
  | DISPUTED
deriving DecidableEq, Repr

/-- `SettlementStatus` from `models.py`. -/
inductive SettlementStatus
  | UNREMITTED
  | REMITTED
deriving DecidableEq, Repr

/-- `AdjustmentType` from `models.py`. -/
inductive AdjustmentType
  | DEDUCTION
  | BONUS
  | CORRECTION
deriving DecidableEq, Repr

/-- `RemittanceStatus` from `models.py`. -/
inductive RemittanceStatus
  | PENDING
  | PROCESSING
  | COMPLETED
  | FAILED
  | CANCELLED
deriving DecidableEq, Repr

/-- The `.value` string of a `RemittanceStatus` member. -/
def RemittanceStatus.value : RemittanceStatus → String
  | .PENDING => "PENDING"
  | .PROCESSING => "PROCESSING"
  | .COMPLETED => "COMPLETED"
  | .FAILED => "FAILED"
  | .CANCELLED => "CANCELLED"

/-- `TimeSegment` row (`models.py`).  Times are in seconds. -/
structure TimeSegment where
  id : Nat
  worklogId : Nat
  startTime : Int
  endTime : Int
  status : TimeSegmentStatus
  settlementStatus : SettlementStatus
  remittanceId : Option Nat
deriving DecidableEq, Repr

/-- `Adjustment` row (`models.py`).  `amount` is signed cents. -/
structure Adjustment where
  id : Nat
  worklogId : Nat
  amount : Int
  reason : String
  type : AdjustmentType
  settlementStatus : SettlementStatus
  remittanceId : Option Nat
deriving DecidableEq, Repr

/-- `WorkLog` row (`models.py`).  `hourlyRate` is cents per hour. -/
structure WorkLog where
  id : Nat
  taskId : Nat
  workerId : Nat
  hourlyRate : Int
  totalRemittedAmount : Int
  remittanceId : Option Nat
deriving DecidableEq, Repr

/-- `Remittance` row (`models.py`). -/
structure Remittance where
  id : Nat
  workerId : Nat
  grossAmount : Int
  netAmount : Int
  status : RemittanceStatus
  failureReason : Option String
  periodStart : Int
  periodEnd : Int
  processedAt : Option Int
deriving DecidableEq, Repr

/-- The storage state seen by the service layer: the four tables, plus a
counter supplying fresh remittance primary keys. -/
structure State where
  worklogs : List WorkLog
  segments : List TimeSegment
  adjustments : List Adjustment
  remittances : List Remittance
  nextId : Nat
deriving DecidableEq, Repr

/-- Round the exact rational `n / d` (for `0 < d`) to an integer with ties away
from zero: the result of `Decimal.quantize(Decimal("0.01"), ROUND_HALF_UP)` on
an exactly computed quotient of cents.  Written with integer floor division;
`halfUp_eq_roundHalfUpRat` proves it equal to rounding the exact rational. -/
def halfUp (n d : Int) : Int :=
  if 0 ≤ n then (2 * n + d) / (2 * d) else -((2 * -n + d) / (2 * d))

/-- Round-half-up (ties away from zero) on exact rationals, as §4.1 of the
specification describes the money arithmetic. -/
def roundHalfUpRat (q : ℚ) : Int :=
  if 0 ≤ q then ⌊q + 1 / 2⌋ else -⌊-q + 1 / 2⌋

/-- `WorkLogService._calculate_segment_amount`: non-ACTIVE segments price to 0;
an ACTIVE segment with negative duration raises; otherwise
`round2(seconds / 3600 * hourly_rate)` with ROUND_HALF_UP, in cents. -/
def calculateSegmentAmount (seg : TimeSegment) (hourlyRate : Int) : Except String Int :=
  if seg.status ≠ TimeSegmentStatus.ACTIVE then .ok 0
  else if seg.endTime - seg.startTime < 0 then
    .error "segment has negative duration"
  else
    .ok (halfUp ((seg.endTime - seg.startTime) * hourlyRate) 3600)

/-- The time-segment half of `_calculate_worklog_amounts`: bucket each ACTIVE
segment's amount into (remitted, unremitted) according to its settlement
status; non-ACTIVE segments are skipped. -/
def segBuckets (rate : Int) : List TimeSegment → Except String (Int × Int)
  | [] => .ok (0, 0)
  | sg :: rest =>
    if sg.status ≠ TimeSegmentStatus.ACTIVE then segBuckets rate rest
    else
      match calculateSegmentAmount sg rate with
      | .error e => .error e
      | .ok amt =>
        match segBuckets rate rest with
        | .error e => .error e
        | .ok (r, u) =>
          if sg.settlementStatus = SettlementStatus.REMITTED then .ok (r + amt, u)
          else .ok (r, u + amt)

/-- The adjustment half of `_calculate_worklog_amounts`. -/
def adjBuckets : List Adjustment → Int × Int
  | [] => (0, 0)
  | a :: rest =>
    let p := adjBuckets rest
    if a.settlementStatus = SettlementStatus.REMITTED then (p.1 + a.amount, p.2)
    else (p.1, p.2 + a.amount)

/-- `WorkLogService._calculate_worklog_amounts`: returns
(remitted, unremitted, total) with `total = remitted + unremitted`. -/
def calculateWorklogAmounts (wl : WorkLog) (segs : List TimeSegment)
    (adjs : List Adjustment) : Except String (Int × Int × Int) :=
  match segBuckets wl.hourlyRate segs with
  | .error e => .error e
  | .ok (rs, us) =>
    let p := adjBuckets adjs
    let remitted := rs + p.1
    let unremitted := us + p.2
    .ok (remitted, unremitted, remitted + unremitted)

/-- The segments belonging to a worklog (the `worklog.time_segments`
relationship). -/
def segsOf (s : State) (wlid : Nat) : List TimeSegment :=
  s.segments.filter (fun sg => sg.worklogId = wlid)

/-- The adjustments belonging to a worklog (the `worklog.adjustments`
relationship). -/
def adjsOf (s : State) (wlid : Nat) : List Adjustment :=
  s.adjustments.filter (fun a => a.worklogId = wlid)

/-- The amounts block plus overall classification computed per worklog by
`list_all_worklogs`. -/
structure WorkLogView where
  remittedAmount : Int
  unremittedAmount : Int
  totalAmount : Int
  remittanceStatusLabel : String
deriving DecidableEq, Repr

/-- The per-worklog body of `WorkLogService.list_all_worklogs`: amounts via
`_calculate_worklog_amounts` and the classification rule
`UNREMITTED if unremitted > 0 or total == 0 else REMITTED`. -/
def worklogView (s : State) (wl : WorkLog) : Except String WorkLogView :=
  match calculateWorklogAmounts wl (segsOf s wl.id) (adjsOf s wl.id) with
  | .error e => .error e
  | .ok (r, u, t) =>
    .ok ⟨r, u, t, if 0 < u ∨ t = 0 then "UNREMITTED" else "REMITTED"⟩

/-- `WorkLogService.list_all_worklogs`: validate the filter, compute every
worklog's view, and keep the ones matching the filter. -/
def listAllWorklogs (s : State) (remittanceStatusFilter : Option String) :
    Except String (List (WorkLog × WorkLogView)) :=
  if remittanceStatusFilter ≠ none ∧ remittanceStatusFilter ≠ some "REMITTED" ∧
      remittanceStatusFilter ≠ some "UNREMITTED" then
    .error "remittanceStatus must be REMITTED or UNREMITTED"
  else
    match s.worklogs.mapM (fun wl => (worklogView s wl).map (fun v => (wl, v))) with
    | .error e => .error e
    | .ok views =>
      .ok (views.filter (fun p =>
        match remittanceStatusFilter with
        | none => true
        | some f => p.2.remittanceStatusLabel = f))

/-- Point lookup of a worklog row by primary key (the `select(WorkLog).where(
WorkLog.id == ...)` / `.first()` pattern used by `generate_remittances`). -/
def findWorkLog (s : State) (wlid : Nat) : Option WorkLog :=
  s.worklogs.find? (fun wl => wl.id = wlid)

/-- The `unremitted_segments` query: ACTIVE segments with settlement status
UNREMITTED, system-wide. -/
def selSegs (s : State) : List TimeSegment :=
  s.segments.filter (fun sg =>
    sg.status = TimeSegmentStatus.ACTIVE ∧
    sg.settlementStatus = SettlementStatus.UNREMITTED)

/-- The `unremitted_adjustments` query. -/
def selAdjs (s : State) : List Adjustment :=
  s.adjustments.filter (fun a => a.settlementStatus = SettlementStatus.UNREMITTED)

/-- Each selected segment paired with its resolved worklog; segments whose
worklog cannot be found are skipped (the `if wl:` guard). -/
def segPairs (s : State) : List (TimeSegment × WorkLog) :=
  (selSegs s).filterMap (fun sg => (findWorkLog s sg.worklogId).map (fun wl => (sg, wl)))

/-- Each selected adjustment paired with its resolved worklog. -/
def adjPairs (s : State) : List (Adjustment × WorkLog) :=
  (selAdjs s).filterMap (fun a => (findWorkLog s a.worklogId).map (fun wl => (a, wl)))

/-- Price a list of (segment, worklog) pairs in order; the first pricing
error aborts. -/
def priceList : List (TimeSegment × WorkLog) →
    Except String (List (TimeSegment × WorkLog × Int))
  | [] => .ok []
  | p :: rest =>
    match calculateSegmentAmount p.1 p.2.hourlyRate with
    | .error e => .error e
    | .ok amt =>
      match priceList rest with
      | .error e => .error e
      | .ok P => .ok ((p.1, p.2, amt) :: P)

/-- Every selected segment priced with its worklog's hourly rate; pricing a
negative-duration ACTIVE segment aborts the whole invocation. -/
def pricedSegPairs (s : State) : Except String (List (TimeSegment × WorkLog × Int)) :=
  priceList (segPairs s)

/-- Deduplicate a list of ids keeping first occurrences (the
`all_worker_ids` set; iteration order is irrelevant to every property). -/
def firstDedup (l : List Nat) : List Nat :=
  l.foldl (fun acc x => if x ∈ acc then acc else acc ++ [x]) []

/-- The distinct worker ids owning at least one selected unit. -/
def workers (s : State) : List Nat :=
  firstDedup ((segPairs s).map (fun p => p.2.workerId) ++
    (adjPairs s).map (fun p => p.2.workerId))

/-- One worker's priced selected segments (`worker_segments[worker_id]`). -/
def wSegs (P : List (TimeSegment × WorkLog × Int)) (w : Nat) :
    List (TimeSegment × WorkLog × Int) :=
  P.filter (fun t => t.2.1.workerId = w)

/-- One worker's selected adjustments (`worker_adjustments[worker_id]`). -/
def wAdjs (A : List (Adjustment × WorkLog)) (w : Nat) : List (Adjustment × WorkLog) :=
  A.filter (fun p => p.2.workerId = w)

/-- `gross_amount` for one worker: sum of the positive priced amounts. -/
def grossOf (P : List (TimeSegment × WorkLog × Int)) (A : List (Adjustment × WorkLog))
    (w : Nat) : Int :=
  ((wSegs P w).map (fun t => if 0 < t.2.2 then t.2.2 else 0)).sum +
    ((wAdjs A w).map (fun p => if 0 < p.1.amount then p.1.amount else 0)).sum

/-- `net_amount` for one worker: sum of all priced amounts, signs included. -/
def netOf (P : List (TimeSegment × WorkLog × Int)) (A : List (Adjustment × WorkLog))
    (w : Nat) : Int :=
  ((wSegs P w).map (fun t => t.2.2)).sum + ((wAdjs A w).map (fun p => p.1.amount)).sum

/-- The number of distinct worklogs contributing to one worker's remittance
(`len(worklog_ids)`). -/
def wlCount (P : List (TimeSegment × WorkLog × Int)) (A : List (Adjustment × WorkLog))
    (w : Nat) : Nat :=
  (firstDedup ((wSegs P w).map (fun t => t.2.1.id) ++
    (wAdjs A w).map (fun p => p.2.id))).length

/-- The `if gross_amount == 0 and net_amount == 0: continue` guard. -/
def skipOf (P : List (TimeSegment × WorkLog × Int)) (A : List (Adjustment × WorkLog))
    (w : Nat) : Prop :=
  grossOf P A w = 0 ∧ netOf P A w = 0

instance (P : List (TimeSegment × WorkLog × Int)) (A : List (Adjustment × WorkLog))
    (w : Nat) : Decidable (skipOf P A w) := by
  unfold skipOf
  infer_instance

/-- Mark a segment as settled by remittance `rid`. -/
def remitSeg (rid : Nat) (sg : TimeSegment) : TimeSegment :=
  { sg with settlementStatus := SettlementStatus.REMITTED, remittanceId := some rid }

/-- Mark an adjustment as settled by remittance `rid`. -/
def remitAdj (rid : Nat) (a : Adjustment) : Adjustment :=
  { a with settlementStatus := SettlementStatus.REMITTED, remittanceId := some rid }

/-- The cumulative effect on one worklog row of the COMPLETED branch of
`generate_remittances`: its running total grows by the priced amounts of its
newly settled segments and adjustments, and its remittance reference is set
only when at least one time segment was settled (the adjustment loop in the
source does not touch `wl.remittance_id`). -/
def payWorklog (sw : List (TimeSegment × WorkLog × Int)) (aw : List (Adjustment × WorkLog))
    (rid : Nat) (wl : WorkLog) : WorkLog :=
  let segAmt := ((sw.filter (fun t => t.2.1.id = wl.id)).map (fun t => t.2.2)).sum
  let adjAmt := ((aw.filter (fun p => p.2.id = wl.id)).map (fun p => p.1.amount)).sum
  { wl with
    totalRemittedAmount := wl.totalRemittedAmount + segAmt + adjAmt,
    remittanceId :=
      if sw.any (fun t => t.2.1.id = wl.id) then some rid else wl.remittanceId }

/-- `RemittancePublic` from `schemas.py`. -/
structure RemittancePublic where
  id : Nat
  workerId : Nat
  grossAmount : Int
  netAmount : Int
  status : RemittanceStatus
  worklogsCount : Nat
  periodStart : Int
  periodEnd : Int
deriving DecidableEq, Repr

/-- `GenerateRemittancesRequest` from `schemas.py`. -/
structure GenerateRequest where
  periodStart : Option Int
  periodEnd : Option Int
  dryRun : Bool
  payoutStatus : Option RemittanceStatus
deriving DecidableEq, Repr

/-- `GenerateRemittancesResponse` from `schemas.py`. -/
structure GenerateResponse where
  remittancesCreated : Nat
  totalGrossAmount : Int
  totalNetAmount : Int
  remittances : List RemittancePublic
  dryRun : Bool
  periodStart : Int
  periodEnd : Int
deriving DecidableEq, Repr

/-- `WorkLogService._resolve_period`: default the bounds (the calendar-month
defaults are abstracted as the `defStart`/`defEnd` parameters) and reject
`end < start`. -/
def resolvePeriod (ps pe : Option Int) (defStart defEnd : Int) :
    Except String (Int × Int) :=
  let a := ps.getD defStart
  let b := pe.getD defEnd
  if b < a then .error "period_end must be on or after period_start" else .ok (a, b)

/-- The outcome status: the request override, else COMPLETED. -/
def statusOf (req : GenerateRequest) : RemittanceStatus :=
  req.payoutStatus.getD RemittanceStatus.COMPLETED

/-- The synthesized failure reason attached for FAILED/CANCELLED outcomes. -/
def failureReasonOf (st : RemittanceStatus) : Option String :=
  if st = RemittanceStatus.FAILED ∨ st = RemittanceStatus.CANCELLED then
    some ("Payout marked as " ++ st.value ++ " by request")
  else none

/-- The in-flight accumulator of the per-worker loop of
`generate_remittances`: the four (uncommitted) tables, the fresh-id counter,
and the response aggregates. -/
structure GenAcc where
  worklogs : List WorkLog
  segments : List TimeSegment
  adjustments : List Adjustment
  remittances : List Remittance
  nextId : Nat
  created : List RemittancePublic
  totalGross : Int
  totalNet : Int
deriving DecidableEq, Repr

/-- One iteration of the `for worker_id in all_worker_ids` loop of
`generate_remittances`. -/
def procWorker (P : List (TimeSegment × WorkLog × Int)) (A : List (Adjustment × WorkLog))
    (dry : Bool) (status : RemittanceStatus) (failureReason : Option String)
    (pStart pEnd now : Int) (acc : GenAcc) (w : Nat) : GenAcc :=
  let sw := wSegs P w
  let aw := wAdjs A w
  let gross := grossOf P A w
  let net := netOf P A w
  if skipOf P A w then acc
  else if dry then
    { acc with
      created := acc.created ++
        [⟨acc.nextId + acc.created.length, w, gross, net, status, wlCount P A w, pStart, pEnd⟩],
      totalGross := acc.totalGross + gross,
      totalNet := acc.totalNet + net }
  else
    let rid := acc.nextId
    let rem : Remittance :=
      ⟨rid, w, gross, net, status, failureReason, pStart, pEnd,
        if status = RemittanceStatus.COMPLETED then some now else none⟩
    let acc' :=
      if status = RemittanceStatus.COMPLETED then
        { acc with
          segments := acc.segments.map (fun sg =>
            if sw.any (fun t => t.1.id = sg.id) then remitSeg rid sg else sg),
          adjustments := acc.adjustments.map (fun a =>
            if aw.any (fun p => p.1.id = a.id) then remitAdj rid a else a),
          worklogs := acc.worklogs.map (fun wl =>
            if sw.any (fun t => t.2.1.id = wl.id) ∨ aw.any (fun p => p.2.id = wl.id) then
              payWorklog sw aw rid wl
            else wl) }
      else acc
    { acc' with
      remittances := acc'.remittances ++ [rem],
      nextId := rid + 1,
      created := acc'.created ++
        [⟨rid, w, gross, net, status, wlCount P A w, pStart, pEnd⟩],
      totalGross := acc'.totalGross + gross,
      totalNet := acc'.totalNet + net }

/-- `WorkLogService.generate_remittances`: resolve the period, select and
price the unpaid units, group by worker, and run the per-worker loop; the
returned `State` is the committed storage (identical to the input when
`dry_run`, since the dry branch touches no table). -/
def generate (s : State) (req : GenerateRequest) (defStart defEnd now : Int) :
    Except String (State × GenerateResponse) :=
  match resolvePeriod req.periodStart req.periodEnd defStart defEnd with
  | .error e => .error e
  | .ok pp =>
    match pricedSegPairs s with
    | .error e => .error e
    | .ok P =>
      let acc0 : GenAcc :=
        ⟨s.worklogs, s.segments, s.adjustments, s.remittances, s.nextId, [], 0, 0⟩
      let acc := (workers s).foldl
        (procWorker P (adjPairs s) req.dryRun (statusOf req)
          (failureReasonOf (statusOf req)) pp.1 pp.2 now) acc0
      .ok (⟨acc.worklogs, acc.segments, acc.adjustments, acc.remittances, acc.nextId⟩,
        ⟨acc.created.length, acc.totalGross, acc.totalNet, acc.created,
          req.dryRun, pp.1, pp.2⟩)

section Char

variable (P : List (TimeSegment × WorkLog × Int)) (A : List (Adjustment × WorkLog))
variable (dry : Bool) (status : RemittanceStatus) (failureReason : Option String)
variable (pStart pEnd now : Int)

/-- Closed form of the effect of the per-worker loop on one segment row:
walking the (remaining) worker list with the fresh-id counter at `n`. -/
def segUpdF : List Nat → Nat → TimeSegment → TimeSegment
  | [], _, sg => sg
  | w :: ws, n, sg =>
    if skipOf P A w then segUpdF ws n sg
    else if dry then segUpdF ws n sg
    else if status = RemittanceStatus.COMPLETED then
      segUpdF ws (n + 1)
        (if (wSegs P w).any (fun t => t.1.id = sg.id) then remitSeg n sg else sg)
    else segUpdF ws (n + 1) sg

/-- Closed form of the effect of the per-worker loop on one adjustment row. -/
def adjUpdF : List Nat → Nat → Adjustment → Adjustment
  | [], _, a => a
  | w :: ws, n, a =>
    if skipOf P A w then adjUpdF ws n a
    else if dry then adjUpdF ws n a
    else if status = RemittanceStatus.COMPLETED then
      adjUpdF ws (n + 1)
        (if (wAdjs A w).any (fun p => p.1.id = a.id) then remitAdj n a else a)
    else adjUpdF ws (n + 1) a

/-- Closed form of the effect of the per-worker loop on one worklog row. -/
def wlUpdF : List Nat → Nat → WorkLog → WorkLog
  | [], _, wl => wl
  | w :: ws, n, wl =>
    if skipOf P A w then wlUpdF ws n wl
    else if dry then wlUpdF ws n wl
    else if status = RemittanceStatus.COMPLETED then
      wlUpdF ws (n + 1)
        (if (wSegs P w).any (fun t => t.2.1.id = wl.id) ∨
            (wAdjs A w).any (fun p => p.2.id = wl.id) then
          payWorklog (wSegs P w) (wAdjs A w) n wl
        else wl)
    else wlUpdF ws (n + 1) wl

/-- The `Remittance` row persisted for worker `w` with fresh id `n`. -/
def mkRem (w : Nat) (n : Nat) : Remittance :=
  ⟨n, w, grossOf P A w, netOf P A w, status, failureReason, pStart, pEnd,
    if status = RemittanceStatus.COMPLETED then some now else none⟩

/-- The `RemittancePublic` summary for worker `w` with id `i`. -/
def mkPub (w : Nat) (i : Nat) : RemittancePublic :=
  ⟨i, w, grossOf P A w, netOf P A w, status, wlCount P A w, pStart, pEnd⟩

/-- Closed form of the remittance rows appended by the per-worker loop. -/
def remsF : List Nat → Nat → List Remittance
  | [], _ => []
  | w :: ws, n =>
    if skipOf P A w then remsF ws n
    else if dry then remsF ws n
    else mkRem P A status failureReason pStart pEnd now w n :: remsF ws (n + 1)

/-- Closed form of the response summaries appended by the per-worker loop
(`n` = fresh-id counter, `k` = number of summaries already emitted, used for
the non-durable preview ids of dry runs). -/
def createdF : List Nat → Nat → Nat → List RemittancePublic
  | [], _, _ => []
  | w :: ws, n, k =>
    if skipOf P A w then createdF ws n k
    else if dry then mkPub P A status pStart pEnd w (n + k) :: createdF ws n (k + 1)
    else mkPub P A status pStart pEnd w n :: createdF ws (n + 1) (k + 1)

/-- Closed form of the fresh-id counter after the per-worker loop. -/
def nextIdF : List Nat → Nat → Nat
  | [], n => n
  | w :: ws, n =>
    if skipOf P A w then nextIdF ws n
    else if dry then nextIdF ws n
    else nextIdF ws (n + 1)

/-- Closed form of `total_gross`. -/
def grossTotF : List Nat → Int
  | [] => 0
  | w :: ws => (if skipOf P A w then 0 else grossOf P A w) + grossTotF ws

/-- Closed form of `total_net`. -/
def netTotF : List Nat → Int
  | [] => 0
  | w :: ws => (if skipOf P A w then 0 else netOf P A w) + netTotF ws

end Char

/-- The data of a response summary other than its (possibly non-durable) id. -/
def pubData (r : RemittancePublic) :
    Nat × Int × Int × RemittanceStatus × Nat × Int × Int :=
  (r.workerId, r.grossAmount, r.netAmount, r.status, r.worklogsCount,
    r.periodStart, r.periodEnd)

/-- The id-independent content of the response summaries: one entry per
non-skipped worker. -/
def pubDataF (P : List (TimeSegment × WorkLog × Int)) (A : List (Adjustment × WorkLog))
    (status : RemittanceStatus) (pS pE : Int) :
    List Nat → List (Nat × Int × Int × RemittanceStatus × Nat × Int × Int)
  | [] => []
  | w :: ws =>
    if skipOf P A w then pubDataF P A status pS pE ws
    else (w, grossOf P A w, netOf P A w, status, wlCount P A w, pS, pE) ::
      pubDataF P A status pS pE ws

/-- A concrete storage state: worker 7 with one worklog at rate 20.00/h, one
ACTIVE unpaid 1.5 h segment and one unpaid −5.00 deduction. -/
def exState : State :=
  ⟨[⟨1, 1, 7, 2000, 0, none⟩],
   [⟨1, 1, 0, 5400, .ACTIVE, .UNREMITTED, none⟩],
   [⟨1, 1, -500, "quality", .DEDUCTION, .UNREMITTED, none⟩], [], 0⟩

/-- A real (non-dry) request with default period and status. -/
def exReqReal : GenerateRequest := ⟨none, none, false, none⟩

/-- The dry-run variant of `exReqReal`. -/
def exReqDry : GenerateRequest := ⟨none, none, true, none⟩

/-- The storage state after a real COMPLETED run on `exState`. -/
def exStateAfter : State :=
  ⟨[⟨1, 1, 7, 2000, 2500, some 0⟩],
   [⟨1, 1, 0, 5400, .ACTIVE, .REMITTED, some 0⟩],
   [⟨1, 1, -500, "quality", .DEDUCTION, .REMITTED, some 0⟩],
   [⟨0, 7, 3000, 2500, .COMPLETED, none, 100, 200, some 42⟩], 1⟩

/-- The response of a real COMPLETED run on `exState`. -/
def exRespReal : GenerateResponse :=
  ⟨1, 3000, 2500, [⟨0, 7, 3000, 2500, .COMPLETED, 1, 100, 200⟩], false, 100, 200⟩

/-- The response of a dry run on `exState`. -/
def exRespDry : GenerateResponse :=
  ⟨1, 3000, 2500, [⟨0, 7, 3000, 2500, .COMPLETED, 1, 100, 200⟩], true, 100, 200⟩

/-- The FAILED-override request on `exState`. -/
def exReqFailed : GenerateRequest := ⟨none, none, false, some .FAILED⟩

/-- The storage state after the FAILED run on `exState`: a FAILED remittance
row is persisted but no unit or worklog is mutated. -/
def exStateFailedAfter : State :=
  ⟨[⟨1, 1, 7, 2000, 0, none⟩],
   [⟨1, 1, 0, 5400, .ACTIVE, .UNREMITTED, none⟩],
   [⟨1, 1, -500, "quality", .DEDUCTION, .UNREMITTED, none⟩],
   [⟨0, 7, 3000, 2500, .FAILED, some "Payout marked as FAILED by request",
      100, 200, none⟩], 1⟩

/-- The response of the FAILED run on `exState`. -/
def exRespFailed : GenerateResponse :=
  ⟨1, 3000, 2500, [⟨0, 7, 3000, 2500, .FAILED, 1, 100, 200⟩], false, 100, 200⟩

/-- The priced selected pairs of `exState`. -/
def exP : List (TimeSegment × WorkLog × Int) :=
  [(⟨1, 1, 0, 5400, .ACTIVE, .UNREMITTED, none⟩, ⟨1, 1, 7, 2000, 0, none⟩, 3000)]

/-- Well-formedness of a storage state: primary keys are unique per table and
every remittance id in use is below the fresh-id counter. -/
structure WF (s : State) : Prop where
  wlIds : (s.worklogs.map WorkLog.id).Nodup
  segIds : (s.segments.map TimeSegment.id).Nodup
  adjIds : (s.adjustments.map Adjustment.id).Nodup
  remIds : (s.remittances.map Remittance.id).Nodup
  remLt : ∀ r ∈ s.remittances, r.id < s.nextId
  segLink : ∀ sg ∈ s.segments, ∀ j, sg.remittanceId = some j → j < s.nextId
  adjLink : ∀ a ∈ s.adjustments, ∀ j, a.remittanceId = some j → j < s.nextId

/-- Storage states reachable from a given state by (any number of) successful
`generate` invocations — the only mutator in the modelled service. -/
inductive Reachable : State → State → Prop
  | refl (s : State) : Reachable s s
  | step {s₁ s₂ s₃ : State} (req : GenerateRequest) (dS dE now : Int)
      (resp : GenerateResponse) :
      Reachable s₁ s₂ → generate s₂ req dS dE now = .ok (s₃, resp) → Reachable s₁ s₃

/-- The remittance id the loop assigns to worker `w0`, walking workers `ws`
with the fresh-id counter at `n` (real runs only); `none` when `w0` is absent
or skipped. -/
def ridOfF (P : List (TimeSegment × WorkLog × Int)) (A : List (Adjustment × WorkLog)) :
    List Nat → Nat → Nat → Option Nat
  | [], _, _ => none
  | w :: ws, n, w0 =>
    if skipOf P A w then ridOfF P A ws n w0
    else if w = w0 then some n
    else ridOfF P A ws (n + 1) w0

/-- The priced amounts of the selected segments of one worklog. -/
def segContrib (P : List (TimeSegment × WorkLog × Int)) (wlid : Nat) : Int :=
  ((P.filter (fun t => t.2.1.id = wlid)).map (fun t => t.2.2)).sum

/-- The amounts of the selected adjustments of one worklog. -/
def adjContrib (A : List (Adjustment × WorkLog)) (wlid : Nat) : Int :=
  ((A.filter (fun p => p.2.id = wlid)).map (fun p => p.1.amount)).sum

/-- The price of a resolved pair, defaulting to 0 on the error branch. -/
def pairAmt (p : TimeSegment × WorkLog) : Int :=
  match calculateSegmentAmount p.1 p.2.hourlyRate with
  | .ok amt => amt
  | .error _ => 0

/-- A worklog settled only through an adjustment: worker 7 logged no time
segment, but carries one unremitted 500-cent bonus. -/
def c9State : State :=
  ⟨[⟨1, 1, 7, 2000, 0, none⟩], [],
   [⟨1, 1, 500, "bonus", .BONUS, .UNREMITTED, none⟩], [], 0⟩

/-- The storage state after a real COMPLETED run on `c9State`. -/
def c9StateAfter : State :=
  ⟨[⟨1, 1, 7, 2000, 500, none⟩], [],
   [⟨1, 1, 500, "bonus", .BONUS, .REMITTED, some 0⟩],
   [⟨0, 7, 500, 500, .COMPLETED, none, 100, 200, some 42⟩], 1⟩

/-- The response of a real COMPLETED run on `c9State`. -/
def c9Resp : GenerateResponse :=
  ⟨1, 500, 500, [⟨0, 7, 500, 500, .COMPLETED, 1, 100, 200⟩], false, 100, 200⟩

/-- The settled one-worklog state with a signed (negative) retroactive
adjustment appended. -/
def c6NegState : State :=
  ⟨[⟨1, 1, 7, 2000, 2500, some 0⟩],
   [⟨1, 1, 0, 5400, .ACTIVE, .REMITTED, some 0⟩],
   [⟨1, 1, -500, "quality", .DEDUCTION, .REMITTED, some 0⟩,
    ⟨2, 1, -300, "clawback", .CORRECTION, .UNREMITTED, none⟩],
   [⟨0, 7, 3000, 2500, .COMPLETED, none, 100, 200, some 42⟩], 1⟩

/-- `exStateAfter` with a fresh positive retroactive bonus adjustment. -/
def c6Mid : State :=
  ⟨[⟨1, 1, 7, 2000, 2500, some 0⟩],
   [⟨1, 1, 0, 5400, .ACTIVE, .REMITTED, some 0⟩],
   [⟨1, 1, -500, "quality", .DEDUCTION, .REMITTED, some 0⟩,
    ⟨2, 1, 800, "bonus", .BONUS, .UNREMITTED, none⟩],
   [⟨0, 7, 3000, 2500, .COMPLETED, none, 100, 200, some 42⟩], 1⟩

/-- The storage state after a real COMPLETED run on `c6Mid`. -/
def c6After : State :=
  ⟨[⟨1, 1, 7, 2000, 3300, some 0⟩],
   [⟨1, 1, 0, 5400, .ACTIVE, .REMITTED, some 0⟩],
   [⟨1, 1, -500, "quality", .DEDUCTION, .REMITTED, some 0⟩,
    ⟨2, 1, 800, "bonus", .BONUS, .REMITTED, some 1⟩],
   [⟨0, 7, 3000, 2500, .COMPLETED, none, 100, 200, some 42⟩,
    ⟨1, 7, 800, 800, .COMPLETED, none, 100, 200, some 43⟩], 2⟩

/-- The response of a real COMPLETED run on `c6Mid`. -/
def c6Resp : GenerateResponse :=
  ⟨1, 800, 800, [⟨1, 7, 800, 800, .COMPLETED, 1, 100, 200⟩], false, 100, 200⟩

/-- The priced amounts of the segments settled by (linked to) remittance
`rid`, each priced through its worklog's hourly rate as §4.2 prices units. -/
def linkedSegSum (s : State) (rid : Nat) : Int :=
  ((s.segments.filter (fun sg =>
      sg.settlementStatus = SettlementStatus.REMITTED ∧
      sg.remittanceId = some rid)).map
    (fun sg => match findWorkLog s sg.worklogId with
      | some wl => pairAmt (sg, wl)
      | none => 0)).sum

/-- The amounts of the adjustments settled by remittance `rid`. -/
def linkedAdjSum (s : State) (rid : Nat) : Int :=
  ((s.adjustments.filter (fun a =>
      a.settlementStatus = SettlementStatus.REMITTED ∧
      a.remittanceId = some rid)).map (fun a => a.amount)).sum

/-- The total priced amount of all units linked to remittance `rid`. -/
def linkedSum (s : State) (rid : Nat) : Int :=
  linkedSegSum s rid + linkedAdjSum s rid

section Char

variable (P : List (TimeSegment × WorkLog × Int)) (A : List (Adjustment × WorkLog))
variable (dry : Bool) (status : RemittanceStatus) (failureReason : Option String)
variable (pStart pEnd now : Int)

/-- The per-worker loop of `generate_remittances` in closed form: each table
is mapped pointwise, remittances and summaries are appended, and the totals
accumulate per non-skipped worker. -/
theorem foldl_procWorker (ws : List Nat) (acc : GenAcc) :
    ws.foldl (procWorker P A dry status failureReason pStart pEnd now) acc =
      { worklogs := acc.worklogs.map (wlUpdF P A dry status ws acc.nextId)
        segments := acc.segments.map (segUpdF P A dry status ws acc.nextId)
        adjustments := acc.adjustments.map (adjUpdF P A dry status ws acc.nextId)
        remittances := acc.remittances ++
          remsF P A dry status failureReason pStart pEnd now ws acc.nextId
        nextId := nextIdF P A dry ws acc.nextId
        created := acc.created ++
          createdF P A dry status pStart pEnd ws acc.nextId acc.created.length
        totalGross := acc.totalGross + grossTotF P A ws
        totalNet := acc.totalNet + netTotF P A ws } := by
  induction ws generalizing acc with
  | nil =>
    cases acc
    simp [segUpdF, adjUpdF, wlUpdF, remsF, nextIdF, createdF, grossTotF, netTotF]
  | cons w ws ih =>
    rw [List.foldl_cons, ih]
    by_cases hskip : skipOf P A w
    · simp only [procWorker, hskip, if_true, segUpdF, adjUpdF, wlUpdF, remsF, nextIdF,
        createdF, grossTotF, netTotF, if_pos]
      simp [hskip]
    · by_cases hdry : dry = true
      · subst hdry
        simp only [procWorker, hskip, if_false, segUpdF, adjUpdF, wlUpdF, remsF,
          nextIdF, createdF, grossTotF, netTotF]
        simp [hskip, mkPub, List.append_assoc, add_assoc]
      · simp only [Bool.not_eq_true] at hdry
        subst hdry
        by_cases hst : status = RemittanceStatus.COMPLETED
        · subst hst
          simp only [procWorker, hskip, segUpdF, adjUpdF, wlUpdF, remsF, nextIdF,
            createdF, grossTotF, netTotF]
          simp [hskip, mkPub, mkRem, List.append_assoc, add_assoc, List.map_map,
            Function.comp_def]
        · simp only [procWorker, hskip, segUpdF, adjUpdF, wlUpdF, remsF, nextIdF,
            createdF, grossTotF, netTotF]
          simp [hskip, hst, mkPub, mkRem, List.append_assoc, add_assoc]

end Char

/-- `generate` in closed form, given a valid period and successful pricing. -/
theorem generate_eq (s : State) (req : GenerateRequest) (dS dE now pS pE : Int)
    (P : List (TimeSegment × WorkLog × Int))
    (hper : resolvePeriod req.periodStart req.periodEnd dS dE = .ok (pS, pE))
    (hP : pricedSegPairs s = .ok P) :
    generate s req dS dE now = .ok
      (⟨s.worklogs.map (wlUpdF P (adjPairs s) req.dryRun (statusOf req) (workers s) s.nextId),
        s.segments.map (segUpdF P (adjPairs s) req.dryRun (statusOf req) (workers s) s.nextId),
        s.adjustments.map
          (adjUpdF P (adjPairs s) req.dryRun (statusOf req) (workers s) s.nextId),
        s.remittances ++ remsF P (adjPairs s) req.dryRun (statusOf req)
          (failureReasonOf (statusOf req)) pS pE now (workers s) s.nextId,
        nextIdF P (adjPairs s) req.dryRun (workers s) s.nextId⟩,
       ⟨(createdF P (adjPairs s) req.dryRun (statusOf req) pS pE (workers s) s.nextId 0).length,
        grossTotF P (adjPairs s) (workers s),
        netTotF P (adjPairs s) (workers s),
        createdF P (adjPairs s) req.dryRun (statusOf req) pS pE (workers s) s.nextId 0,
        req.dryRun, pS, pE⟩) := by
  unfold generate
  rw [hper, hP]
  simp only [foldl_procWorker]
  simp [statusOf]

/-- A dry run's closed-form update functions are the identity. -/
theorem segUpdF_dry (P : List (TimeSegment × WorkLog × Int))
    (A : List (Adjustment × WorkLog)) (status : RemittanceStatus)
    (ws : List Nat) (n : Nat) :
    segUpdF P A true status ws n = id := by
  funext sg
  induction ws generalizing n sg with
  | nil => rfl
  | cons w ws ih =>
    by_cases h : skipOf P A w <;> simp [segUpdF, h, ih]

theorem adjUpdF_dry (P : List (TimeSegment × WorkLog × Int))
    (A : List (Adjustment × WorkLog)) (status : RemittanceStatus)
    (ws : List Nat) (n : Nat) :
    adjUpdF P A true status ws n = id := by
  funext a
  induction ws generalizing n a with
  | nil => rfl
  | cons w ws ih =>
    by_cases h : skipOf P A w <;> simp [adjUpdF, h, ih]

theorem wlUpdF_dry (P : List (TimeSegment × WorkLog × Int))
    (A : List (Adjustment × WorkLog)) (status : RemittanceStatus)
    (ws : List Nat) (n : Nat) :
    wlUpdF P A true status ws n = id := by
  funext wl
  induction ws generalizing n wl with
  | nil => rfl
  | cons w ws ih =>
    by_cases h : skipOf P A w <;> simp [wlUpdF, h, ih]

theorem remsF_dry (P : List (TimeSegment × WorkLog × Int))
    (A : List (Adjustment × WorkLog)) (status : RemittanceStatus)
    (failureReason : Option String) (pS pE now : Int) (ws : List Nat) (n : Nat) :
    remsF P A true status failureReason pS pE now ws n = [] := by
  induction ws generalizing n with
  | nil => rfl
  | cons w ws ih =>
    by_cases h : skipOf P A w <;> simp [remsF, h, ih]

theorem nextIdF_dry (P : List (TimeSegment × WorkLog × Int))
    (A : List (Adjustment × WorkLog)) (ws : List Nat) (n : Nat) :
    nextIdF P A true ws n = n := by
  induction ws generalizing n with
  | nil => rfl
  | cons w ws ih =>
    by_cases h : skipOf P A w <;> simp [nextIdF, h, ih]

/-- A dry run leaves the committed state exactly as it was. -/
theorem generate_dry_state (s : State) (req : GenerateRequest) (dS dE now : Int)
    (s' : State) (resp : GenerateResponse) (hdry : req.dryRun = true)
    (h : generate s req dS dE now = .ok (s', resp)) : s' = s := by
  obtain ⟨pS, pE, hper⟩ : ∃ pS pE,
      resolvePeriod req.periodStart req.periodEnd dS dE = .ok (pS, pE) := by
    unfold generate at h
    cases hr : resolvePeriod req.periodStart req.periodEnd dS dE with
    | error e => rw [hr] at h; exact absurd h (by simp)
    | ok pp => exact ⟨pp.1, pp.2, rfl⟩
  obtain ⟨P, hP⟩ : ∃ P, pricedSegPairs s = .ok P := by
    unfold generate at h
    rw [hper] at h
    cases hq : pricedSegPairs s with
    | error e => rw [hq] at h; exact absurd h (by simp)
    | ok P => exact ⟨P, rfl⟩
  have h2 := Except.ok.inj (h.symm.trans (generate_eq s req dS dE now pS pE P hper hP))
  have hs1 : s' = _ := congrArg Prod.fst h2
  rw [hs1, hdry]
  cases s
  simp [segUpdF_dry, adjUpdF_dry, wlUpdF_dry, remsF_dry, nextIdF_dry]

/-- A successful `generate` presupposes a valid period and successful pricing. -/
theorem generate_ok_inv (s : State) (req : GenerateRequest) (dS dE now : Int)
    (s' : State) (resp : GenerateResponse)
    (h : generate s req dS dE now = .ok (s', resp)) :
    ∃ pS pE P, resolvePeriod req.periodStart req.periodEnd dS dE = .ok (pS, pE) ∧
      pricedSegPairs s = .ok P := by
  unfold generate at h
  cases hr : resolvePeriod req.periodStart req.periodEnd dS dE with
  | error e => rw [hr] at h; exact absurd h (by simp)
  | ok pp =>
    rw [hr] at h
    cases hq : pricedSegPairs s with
    | error e => rw [hq] at h; exact absurd h (by simp)
    | ok P => exact ⟨pp.1, pp.2, P, rfl, rfl⟩

/-- The response summaries' id-independent content does not depend on the
dry-run flag or the id counters. -/
theorem createdF_pubData (P : List (TimeSegment × WorkLog × Int))
    (A : List (Adjustment × WorkLog)) (dry : Bool) (status : RemittanceStatus)
    (pS pE : Int) (ws : List Nat) (n k : Nat) :
    (createdF P A dry status pS pE ws n k).map pubData = pubDataF P A status pS pE ws := by
  induction ws generalizing n k with
  | nil => cases dry <;> rfl
  | cons w ws ih =>
    by_cases h : skipOf P A w
    · cases dry <;> simp [createdF, pubDataF, h, ih]
    · cases dry <;> simp [createdF, pubDataF, h, ih, mkPub, pubData]

/-- Worker gross totals are sums of nonnegative clamps, hence nonnegative. -/
theorem grossOf_nonneg (P : List (TimeSegment × WorkLog × Int))
    (A : List (Adjustment × WorkLog)) (w : Nat) : 0 ≤ grossOf P A w := by
  unfold grossOf
  have h1 : (0 : Int) ≤ ((wSegs P w).map (fun t => if 0 < t.2.2 then t.2.2 else 0)).sum := by
    apply List.sum_nonneg
    intro x hx
    obtain ⟨t, _, rfl⟩ := List.mem_map.mp hx
    by_cases h : 0 < t.2.2 <;> simp [h] <;> omega
  have h2 : (0 : Int) ≤ ((wAdjs A w).map (fun p => if 0 < p.1.amount then p.1.amount else 0)).sum := by
    apply List.sum_nonneg
    intro x hx
    obtain ⟨p, _, rfl⟩ := List.mem_map.mp hx
    by_cases h : 0 < p.1.amount <;> simp [h] <;> omega
  omega

/-- Net never exceeds gross: each amount is at most its positive clamp. -/
theorem netOf_le_grossOf (P : List (TimeSegment × WorkLog × Int))
    (A : List (Adjustment × WorkLog)) (w : Nat) : netOf P A w ≤ grossOf P A w := by
  unfold netOf grossOf
  have h1 : ((wSegs P w).map (fun t => t.2.2)).sum ≤
      ((wSegs P w).map (fun t => if 0 < t.2.2 then t.2.2 else 0)).sum := by
    apply List.sum_le_sum
    intro t _
    by_cases h : 0 < t.2.2 <;> simp [h] <;> omega
  have h2 : ((wAdjs A w).map (fun p => p.1.amount)).sum ≤
      ((wAdjs A w).map (fun p => if 0 < p.1.amount then p.1.amount else 0)).sum := by
    apply List.sum_le_sum
    intro p _
    by_cases h : 0 < p.1.amount <;> simp [h] <;> omega
  omega

/-- The aggregate gross total is nonnegative. -/
theorem grossTotF_nonneg (P : List (TimeSegment × WorkLog × Int))
    (A : List (Adjustment × WorkLog)) (ws : List Nat) : 0 ≤ grossTotF P A ws := by
  induction ws with
  | nil => simp [grossTotF]
  | cons w ws ih =>
    have := grossOf_nonneg P A w
    by_cases h : skipOf P A w <;> simp [grossTotF, h] <;> omega

/-- The aggregate net total never exceeds the aggregate gross total. -/
theorem netTotF_le_grossTotF (P : List (TimeSegment × WorkLog × Int))
    (A : List (Adjustment × WorkLog)) (ws : List Nat) :
    netTotF P A ws ≤ grossTotF P A ws := by
  induction ws with
  | nil => simp [grossTotF, netTotF]
  | cons w ws ih =>
    have := netOf_le_grossOf P A w
    by_cases h : skipOf P A w <;> simp [grossTotF, netTotF, h] <;> omega

/-- Every response summary carries its worker's gross and net. -/
theorem createdF_mem (P : List (TimeSegment × WorkLog × Int))
    (A : List (Adjustment × WorkLog)) (dry : Bool) (status : RemittanceStatus)
    (pS pE : Int) (ws : List Nat) (n k : Nat) (r : RemittancePublic)
    (hr : r ∈ createdF P A dry status pS pE ws n k) :
    r.grossAmount = grossOf P A r.workerId ∧ r.netAmount = netOf P A r.workerId ∧
      r.status = status ∧ ¬ skipOf P A r.workerId ∧ r.workerId ∈ ws := by
  induction ws generalizing n k with
  | nil => cases dry <;> simp [createdF] at hr
  | cons w ws ih =>
    by_cases h : skipOf P A w
    · rw [createdF, if_pos h] at hr
      obtain ⟨h1, h2, h3, h4, h5⟩ := ih n k hr
      exact ⟨h1, h2, h3, h4, List.mem_cons_of_mem _ h5⟩
    · rw [createdF, if_neg h] at hr
      cases dry with
      | true =>
        simp only [if_true] at hr
        rcases List.mem_cons.mp hr with h0 | h0
        · subst h0
          exact ⟨rfl, rfl, rfl, h, List.mem_cons_self _ _⟩
        · obtain ⟨h1, h2, h3, h4, h5⟩ := ih n (k + 1) h0
          exact ⟨h1, h2, h3, h4, List.mem_cons_of_mem _ h5⟩
      | false =>
        simp only [Bool.false_eq_true, if_false] at hr
        rcases List.mem_cons.mp hr with h0 | h0
        · subst h0
          exact ⟨rfl, rfl, rfl, h, List.mem_cons_self _ _⟩
        · obtain ⟨h1, h2, h3, h4, h5⟩ := ih (n + 1) (k + 1) h0
          exact ⟨h1, h2, h3, h4, List.mem_cons_of_mem _ h5⟩

/-- Every persisted remittance row carries its worker's gross and net, the
outcome status and the synthesized failure reason, and a fresh id. -/
theorem remsF_mem (P : List (TimeSegment × WorkLog × Int))
    (A : List (Adjustment × WorkLog)) (dry : Bool) (status : RemittanceStatus)
    (failureReason : Option String) (pS pE now : Int) (ws : List Nat) (n : Nat)
    (r : Remittance) (hr : r ∈ remsF P A dry status failureReason pS pE now ws n) :
    r.grossAmount = grossOf P A r.workerId ∧ r.netAmount = netOf P A r.workerId ∧
      r.status = status ∧ r.failureReason = failureReason ∧
      r.periodStart = pS ∧ r.periodEnd = pE ∧
      r.processedAt = (if status = RemittanceStatus.COMPLETED then some now else none) ∧
      ¬ skipOf P A r.workerId ∧ r.workerId ∈ ws ∧ n ≤ r.id := by
  induction ws generalizing n with
  | nil => simp [remsF] at hr
  | cons w ws ih =>
    by_cases h : skipOf P A w
    · rw [remsF, if_pos h] at hr
      obtain ⟨h1, h2, h3, h4, h5, h6, h7, h8, h9, h10⟩ := ih n hr
      exact ⟨h1, h2, h3, h4, h5, h6, h7, h8, List.mem_cons_of_mem _ h9, h10⟩
    · rw [remsF, if_neg h] at hr
      cases dry with
      | true =>
        simp only [if_true] at hr
        obtain ⟨h1, h2, h3, h4, h5, h6, h7, h8, h9, h10⟩ := ih n hr
        exact ⟨h1, h2, h3, h4, h5, h6, h7, h8, List.mem_cons_of_mem _ h9, h10⟩
      | false =>
        simp only [Bool.false_eq_true, if_false] at hr
        rcases List.mem_cons.mp hr with h0 | h0
        · subst h0
          exact ⟨rfl, rfl, rfl, rfl, rfl, rfl, rfl, h, List.mem_cons_self _ _, le_refl _⟩
        · obtain ⟨h1, h2, h3, h4, h5, h6, h7, h8, h9, h10⟩ := ih (n + 1) h0
          exact ⟨h1, h2, h3, h4, h5, h6, h7, h8, List.mem_cons_of_mem _ h9, by omega⟩

/-- Rounding `n / d` half-up equals the integer formula, nonnegative case. -/
theorem floor_half_formula (n d : Int) (hn : 0 ≤ n) (hd : 0 < d) :
    ⌊(n : ℚ) / (d : ℚ) + 1 / 2⌋ = (2 * n + d) / (2 * d) := by
  have hD : ((d.toNat : ℕ) : ℚ) = (d : ℚ) := by
    exact_mod_cast congrArg (fun z : ℤ => (z : ℚ)) (Int.toNat_of_nonneg hd.le)
  have h2D : ((2 * d.toNat : ℕ) : ℚ) = 2 * (d : ℚ) := by
    push_cast
    rw [hD]
  have hdq : (d : ℚ) ≠ 0 := by
    exact_mod_cast hd.ne'
  have key : (n : ℚ) / (d : ℚ) + 1 / 2 = ((2 * n + d : ℤ) : ℚ) / ((2 * d.toNat : ℕ) : ℚ) := by
    rw [h2D]
    push_cast
    field_simp
    ring
  rw [key, Rat.floor_intCast_div_natCast]
  congr 1
  push_cast
  rw [Int.toNat_of_nonneg hd.le]

/-- `halfUp` computes exactly the round-half-up (ties away from zero) of the
exact rational `n / d`. -/
theorem halfUp_eq_roundHalfUpRat (n d : Int) (hd : 0 < d) :
    halfUp n d = roundHalfUpRat ((n : ℚ) / (d : ℚ)) := by
  unfold halfUp roundHalfUpRat
  have hdq : (0 : ℚ) < (d : ℚ) := by exact_mod_cast hd
  by_cases hn : 0 ≤ n
  · have hq : 0 ≤ (n : ℚ) / (d : ℚ) :=
      div_nonneg (by exact_mod_cast hn) hdq.le
    rw [if_pos hn, if_pos hq, floor_half_formula n d hn hd]
  · have hq : ¬ 0 ≤ (n : ℚ) / (d : ℚ) := by
      push_neg at hn ⊢
      exact div_neg_of_neg_of_pos (by exact_mod_cast hn) hdq
    rw [if_neg hn, if_neg hq]
    have : -((n : ℚ) / (d : ℚ)) = ((-n : ℤ) : ℚ) / (d : ℚ) := by
      push_cast
      ring
    rw [this, floor_half_formula (-n) d (by omega) hd]

/-- C7: for every WorkLog the ledger view reports amounts with
`total = remitted + unremitted`, classifies it UNREMITTED exactly when
`unremitted > 0` or `total = 0` and REMITTED otherwise, and a WorkLog with no
segments and no adjustments is classified UNREMITTED with all amounts 0. -/
theorem C7_ledger_view (s : State) (wl : WorkLog) (v : WorkLogView)
    (h : worklogView s wl = .ok v) :
    v.totalAmount = v.remittedAmount + v.unremittedAmount ∧
    (v.remittanceStatusLabel = "UNREMITTED" ↔
      0 < v.unremittedAmount ∨ v.totalAmount = 0) ∧
    (v.remittanceStatusLabel = "REMITTED" ↔
      ¬(0 < v.unremittedAmount ∨ v.totalAmount = 0)) ∧
    (segsOf s wl.id = [] → adjsOf s wl.id = [] → v = ⟨0, 0, 0, "UNREMITTED"⟩) := by
  unfold worklogView at h
  cases hc : calculateWorklogAmounts wl (segsOf s wl.id) (adjsOf s wl.id) with
  | error e => rw [hc] at h; exact absurd h (by simp)
  | ok tri =>
    obtain ⟨r, u, t⟩ := tri
    rw [hc] at h
    simp only [] at h
    have hv := Except.ok.inj h
    subst hv
    have htri : t = r + u := by
      unfold calculateWorklogAmounts at hc
      cases hsb : segBuckets wl.hourlyRate (segsOf s wl.id) with
      | error e => rw [hsb] at hc; exact absurd hc (by simp)
      | ok ru =>
        obtain ⟨rs, us⟩ := ru
        rw [hsb] at hc
        simp only [] at hc
        have h3 := Except.ok.inj hc
        obtain ⟨h4, h5, h6⟩ := Prod.mk.injEq .. ▸ h3
        simp only [Prod.mk.injEq] at h3
        omega
    refine ⟨htri, ?_, ?_, ?_⟩
    · by_cases hcond : 0 < u ∨ t = 0 <;> simp [hcond]
    · by_cases hcond : 0 < u ∨ t = 0 <;> simp [hcond]
    · intro hsegs hadjs
      rw [hsegs, hadjs] at hc
      have h0 : calculateWorklogAmounts wl [] [] =
          .ok ((0 : Int), (0 : Int), (0 : Int)) := rfl
      have h1 := Except.ok.inj (h0.symm.trans hc)
      simp only [Prod.mk.injEq] at h1
      obtain ⟨h2, h3, h4⟩ := h1
      subst h2
      subst h3
      subst h4
      simp

/-- C7 witness: the ledger view at a concrete one-worklog state. -/
theorem C7_ledger_view_witness :
    ((⟨0, 2500, 2500, "UNREMITTED"⟩ : WorkLogView).totalAmount =
      (⟨0, 2500, 2500, "UNREMITTED"⟩ : WorkLogView).remittedAmount +
        (⟨0, 2500, 2500, "UNREMITTED"⟩ : WorkLogView).unremittedAmount) ∧
    (((⟨0, 2500, 2500, "UNREMITTED"⟩ : WorkLogView).remittanceStatusLabel = "UNREMITTED") ↔
      0 < (⟨0, 2500, 2500, "UNREMITTED"⟩ : WorkLogView).unremittedAmount ∨
        (⟨0, 2500, 2500, "UNREMITTED"⟩ : WorkLogView).totalAmount = 0) ∧
    (((⟨0, 2500, 2500, "UNREMITTED"⟩ : WorkLogView).remittanceStatusLabel = "REMITTED") ↔
      ¬(0 < (⟨0, 2500, 2500, "UNREMITTED"⟩ : WorkLogView).unremittedAmount ∨
        (⟨0, 2500, 2500, "UNREMITTED"⟩ : WorkLogView).totalAmount = 0)) ∧
    (segsOf ⟨[⟨1, 1, 7, 2000, 0, none⟩],
        [⟨1, 1, 0, 5400, .ACTIVE, .UNREMITTED, none⟩],
        [⟨1, 1, -500, "quality", .DEDUCTION, .UNREMITTED, none⟩], [], 0⟩ 1 = [] →
      adjsOf ⟨[⟨1, 1, 7, 2000, 0, none⟩],
        [⟨1, 1, 0, 5400, .ACTIVE, .UNREMITTED, none⟩],
        [⟨1, 1, -500, "quality", .DEDUCTION, .UNREMITTED, none⟩], [], 0⟩ 1 = [] →
      (⟨0, 2500, 2500, "UNREMITTED"⟩ : WorkLogView) = ⟨0, 0, 0, "UNREMITTED"⟩) :=
  C7_ledger_view
    ⟨[⟨1, 1, 7, 2000, 0, none⟩],
      [⟨1, 1, 0, 5400, .ACTIVE, .UNREMITTED, none⟩],
      [⟨1, 1, -500, "quality", .DEDUCTION, .UNREMITTED, none⟩], [], 0⟩
    ⟨1, 1, 7, 2000, 0, none⟩ ⟨0, 2500, 2500, "UNREMITTED"⟩ rfl

/-- C8: pricing a segment returns 0 whenever its work status is not ACTIVE;
for an ACTIVE segment with `end ≥ start` it returns the exact rational
`seconds / 3600 × hourly_rate` rounded half-up to cents (so exactly 1.5 hours
at rate 20.00 prices to exactly 30.00, and being a pure function the result is
identical across repeated evaluation); and an ACTIVE segment with
`end < start` raises a validation error. -/
theorem C8_segment_pricing (seg : TimeSegment) (rate : Int) :
    (seg.status ≠ TimeSegmentStatus.ACTIVE → calculateSegmentAmount seg rate = .ok 0) ∧
    (seg.status = TimeSegmentStatus.ACTIVE → seg.startTime ≤ seg.endTime →
      calculateSegmentAmount seg rate =
        .ok (roundHalfUpRat
          (((seg.endTime - seg.startTime : Int) : ℚ) / 3600 * (rate : ℚ)))) ∧
    (seg.status = TimeSegmentStatus.ACTIVE → seg.endTime - seg.startTime = 5400 →
      rate = 2000 → calculateSegmentAmount seg rate = .ok 3000) ∧
    (seg.status = TimeSegmentStatus.ACTIVE → seg.endTime < seg.startTime →
      ∃ msg, calculateSegmentAmount seg rate = .error msg) := by
  refine ⟨?_, ?_, ?_, ?_⟩
  · intro hne
    unfold calculateSegmentAmount
    rw [if_pos hne]
  · intro hact hle
    unfold calculateSegmentAmount
    rw [if_neg (by simp [hact]), if_neg (by omega)]
    rw [halfUp_eq_roundHalfUpRat _ 3600 (by norm_num)]
    congr 1
    congr 1
    push_cast
    ring
  · intro hact hdur hrate
    unfold calculateSegmentAmount
    rw [if_neg (by simp [hact]), if_neg (by omega), hdur, hrate]
    rfl
  · intro hact hlt
    refine ⟨"segment has negative duration", ?_⟩
    unfold calculateSegmentAmount
    rw [if_neg (by simp [hact]), if_pos (by omega)]

/-- C8 witness: concrete segments exercising all three pricing branches. -/
theorem C8_segment_pricing_witness :
    (calculateSegmentAmount ⟨1, 1, 0, 5400, .ACTIVE, .UNREMITTED, none⟩ 2000 =
      .ok 3000) ∧
    (calculateSegmentAmount ⟨2, 1, 5400, 0, .REMOVED, .UNREMITTED, none⟩ 2000 =
      .ok 0) ∧
    (∃ msg, calculateSegmentAmount ⟨3, 1, 5400, 0, .ACTIVE, .UNREMITTED, none⟩ 2000 =
      .error msg) :=
  ⟨(C8_segment_pricing ⟨1, 1, 0, 5400, .ACTIVE, .UNREMITTED, none⟩ 2000).2.2.1
      rfl rfl rfl,
   (C8_segment_pricing ⟨2, 1, 5400, 0, .REMOVED, .UNREMITTED, none⟩ 2000).1
      (by decide),
   (C8_segment_pricing ⟨3, 1, 5400, 0, .ACTIVE, .UNREMITTED, none⟩ 2000).2.2.2
      rfl (by decide)⟩

/-- Componentwise closed form of a successful `generate`. -/
theorem generate_components (s : State) (req : GenerateRequest) (dS dE now : Int)
    (s' : State) (resp : GenerateResponse) (pS pE : Int)
    (P : List (TimeSegment × WorkLog × Int))
    (hper : resolvePeriod req.periodStart req.periodEnd dS dE = .ok (pS, pE))
    (hP : pricedSegPairs s = .ok P)
    (h : generate s req dS dE now = .ok (s', resp)) :
    s'.worklogs =
      s.worklogs.map (wlUpdF P (adjPairs s) req.dryRun (statusOf req) (workers s) s.nextId) ∧
    s'.segments =
      s.segments.map (segUpdF P (adjPairs s) req.dryRun (statusOf req) (workers s) s.nextId) ∧
    s'.adjustments =
      s.adjustments.map
        (adjUpdF P (adjPairs s) req.dryRun (statusOf req) (workers s) s.nextId) ∧
    s'.remittances = s.remittances ++
      remsF P (adjPairs s) req.dryRun (statusOf req) (failureReasonOf (statusOf req))
        pS pE now (workers s) s.nextId ∧
    s'.nextId = nextIdF P (adjPairs s) req.dryRun (workers s) s.nextId ∧
    resp =
      ⟨(createdF P (adjPairs s) req.dryRun (statusOf req) pS pE (workers s) s.nextId 0).length,
        grossTotF P (adjPairs s) (workers s),
        netTotF P (adjPairs s) (workers s),
        createdF P (adjPairs s) req.dryRun (statusOf req) pS pE (workers s) s.nextId 0,
        req.dryRun, pS, pE⟩ := by
  have hpair := Except.ok.inj ((generate_eq s req dS dE now pS pE P hper hP).symm.trans h)
  have h1 := congrArg Prod.fst hpair
  have h2 := congrArg Prod.snd hpair
  exact ⟨(congrArg State.worklogs h1).symm, (congrArg State.segments h1).symm,
    (congrArg State.adjustments h1).symm, (congrArg State.remittances h1).symm,
    (congrArg State.nextId h1).symm, h2.symm⟩

/-- C10: every remittance produced by `generate` — any outcome status,
dry-run or real — has nonnegative gross and net not exceeding gross, and the
same two inequalities hold for the aggregate totals of the invocation. -/
theorem C10_gross_net_bounds (s : State) (req : GenerateRequest) (dS dE now : Int)
    (s' : State) (resp : GenerateResponse)
    (h : generate s req dS dE now = .ok (s', resp)) :
    (∀ r ∈ resp.remittances, 0 ≤ r.grossAmount ∧ r.netAmount ≤ r.grossAmount) ∧
    (∀ r ∈ s'.remittances,
      r ∈ s.remittances ∨ (0 ≤ r.grossAmount ∧ r.netAmount ≤ r.grossAmount)) ∧
    0 ≤ resp.totalGrossAmount ∧ resp.totalNetAmount ≤ resp.totalGrossAmount := by
  obtain ⟨pS, pE, P, hper, hP⟩ := generate_ok_inv s req dS dE now s' resp h
  obtain ⟨hwl, hsg, had, hrm, hni, hresp⟩ :=
    generate_components s req dS dE now s' resp pS pE P hper hP h
  subst hresp
  refine ⟨?_, ?_, grossTotF_nonneg P (adjPairs s) (workers s),
    netTotF_le_grossTotF P (adjPairs s) (workers s)⟩
  · intro r hrmem
    obtain ⟨hg, hn, -, -, -⟩ :=
      createdF_mem P (adjPairs s) req.dryRun (statusOf req) pS pE (workers s)
        s.nextId 0 r hrmem
    rw [hg, hn]
    exact ⟨grossOf_nonneg _ _ _, netOf_le_grossOf _ _ _⟩
  · intro r hrmem
    rw [hrm] at hrmem
    rcases List.mem_append.mp hrmem with hold | hnew
    · exact Or.inl hold
    · right
      obtain ⟨hg, hn, -⟩ :=
        remsF_mem P (adjPairs s) req.dryRun (statusOf req)
          (failureReasonOf (statusOf req)) pS pE now (workers s) s.nextId r hnew
      rw [hg, hn]
      exact ⟨grossOf_nonneg _ _ _, netOf_le_grossOf _ _ _⟩

/-- C4: a dry run returns the same id-independent per-worker summaries
(worker, gross, net, status, worklog count, period) and the same aggregate
totals and count that the identical real call returns, and leaves storage
completely unchanged. -/
theorem C4_dry_run_isolation (s : State) (req reqR : GenerateRequest)
    (dS dE now nowR : Int) (sD : State) (rD : GenerateResponse)
    (hps : reqR.periodStart = req.periodStart) (hpe : reqR.periodEnd = req.periodEnd)
    (hpay : reqR.payoutStatus = req.payoutStatus)
    (hd : req.dryRun = true) (hdR : reqR.dryRun = false)
    (h : generate s req dS dE now = .ok (sD, rD)) :
    sD = s ∧ ∃ sR rR, generate s reqR dS dE nowR = .ok (sR, rR) ∧
      rD.remittances.map pubData = rR.remittances.map pubData ∧
      rD.totalGrossAmount = rR.totalGrossAmount ∧
      rD.totalNetAmount = rR.totalNetAmount ∧
      rD.remittancesCreated = rR.remittancesCreated := by
  obtain ⟨pS, pE, P, hper, hP⟩ := generate_ok_inv s req dS dE now sD rD h
  have hperR : resolvePeriod reqR.periodStart reqR.periodEnd dS dE = .ok (pS, pE) := by
    rw [hps, hpe]
    exact hper
  have hgR := generate_eq s reqR dS dE nowR pS pE P hperR hP
  have hst : statusOf reqR = statusOf req := by
    unfold statusOf
    rw [hpay]
  obtain ⟨-, -, -, -, -, hresp⟩ :=
    generate_components s req dS dE now sD rD pS pE P hper hP h
  subst hresp
  refine ⟨generate_dry_state s req dS dE now sD _ hd h, _, _, hgR, ?_, rfl, rfl, ?_⟩
  · show (createdF P (adjPairs s) req.dryRun (statusOf req) pS pE
        (workers s) s.nextId 0).map pubData =
      (createdF P (adjPairs s) reqR.dryRun (statusOf reqR) pS pE
        (workers s) s.nextId 0).map pubData
    rw [createdF_pubData, createdF_pubData, hst]
  · show (createdF P (adjPairs s) req.dryRun (statusOf req) pS pE
        (workers s) s.nextId 0).length =
      (createdF P (adjPairs s) reqR.dryRun (statusOf reqR) pS pE
        (workers s) s.nextId 0).length
    rw [← List.length_map _ pubData, ← List.length_map _ pubData,
      createdF_pubData, createdF_pubData, hst]

/-- C10 witness: the bounds at the concrete state `exState`. -/
theorem C10_gross_net_bounds_witness :
    (∀ r ∈ exRespReal.remittances, 0 ≤ r.grossAmount ∧ r.netAmount ≤ r.grossAmount) ∧
    (∀ r ∈ exStateAfter.remittances,
      r ∈ exState.remittances ∨ (0 ≤ r.grossAmount ∧ r.netAmount ≤ r.grossAmount)) ∧
    0 ≤ exRespReal.totalGrossAmount ∧
      exRespReal.totalNetAmount ≤ exRespReal.totalGrossAmount :=
  C10_gross_net_bounds exState exReqReal 100 200 42 exStateAfter exRespReal rfl

/-- C4 witness: dry-run isolation at the concrete state `exState`. -/
theorem C4_dry_run_isolation_witness :
    exState = exState ∧ ∃ sR rR, generate exState exReqReal 100 200 43 = .ok (sR, rR) ∧
      exRespDry.remittances.map pubData = rR.remittances.map pubData ∧
      exRespDry.totalGrossAmount = rR.totalGrossAmount ∧
      exRespDry.totalNetAmount = rR.totalNetAmount ∧
      exRespDry.remittancesCreated = rR.remittancesCreated :=
  C4_dry_run_isolation exState exReqDry exReqReal 100 200 42 43 exState exRespDry
    rfl rfl rfl rfl rfl rfl

/-- A non-COMPLETED outcome leaves every segment row untouched. -/
theorem segUpdF_nonCompleted (P : List (TimeSegment × WorkLog × Int))
    (A : List (Adjustment × WorkLog)) (dry : Bool) (status : RemittanceStatus)
    (hst : status ≠ RemittanceStatus.COMPLETED) (ws : List Nat) (n : Nat) :
    segUpdF P A dry status ws n = id := by
  funext sg
  induction ws generalizing n sg with
  | nil => rfl
  | cons w ws ih =>
    by_cases h : skipOf P A w
    · simp [segUpdF, h, ih]
    · cases dry <;> simp [segUpdF, h, hst, ih]

/-- A non-COMPLETED outcome leaves every adjustment row untouched. -/
theorem adjUpdF_nonCompleted (P : List (TimeSegment × WorkLog × Int))
    (A : List (Adjustment × WorkLog)) (dry : Bool) (status : RemittanceStatus)
    (hst : status ≠ RemittanceStatus.COMPLETED) (ws : List Nat) (n : Nat) :
    adjUpdF P A dry status ws n = id := by
  funext a
  induction ws generalizing n a with
  | nil => rfl
  | cons w ws ih =>
    by_cases h : skipOf P A w
    · simp [adjUpdF, h, ih]
    · cases dry <;> simp [adjUpdF, h, hst, ih]

/-- A non-COMPLETED outcome leaves every worklog row untouched. -/
theorem wlUpdF_nonCompleted (P : List (TimeSegment × WorkLog × Int))
    (A : List (Adjustment × WorkLog)) (dry : Bool) (status : RemittanceStatus)
    (hst : status ≠ RemittanceStatus.COMPLETED) (ws : List Nat) (n : Nat) :
    wlUpdF P A dry status ws n = id := by
  funext wl
  induction ws generalizing n wl with
  | nil => rfl
  | cons w ws ih =>
    by_cases h : skipOf P A w
    · simp [wlUpdF, h, ih]
    · cases dry <;> simp [wlUpdF, h, hst, ih]

/-- A real run persists one remittance for every non-skipped worker. -/
theorem remsF_exists_worker (P : List (TimeSegment × WorkLog × Int))
    (A : List (Adjustment × WorkLog)) (status : RemittanceStatus)
    (failureReason : Option String) (pS pE now : Int) (ws : List Nat) (n : Nat)
    (w : Nat) (hw : w ∈ ws) (hns : ¬ skipOf P A w) :
    ∃ r ∈ remsF P A false status failureReason pS pE now ws n, r.workerId = w := by
  induction ws generalizing n with
  | nil => simp at hw
  | cons w0 ws ih =>
    rcases List.mem_cons.mp hw with h0 | h0
    · subst h0
      rw [remsF, if_neg hns]
      simp only [Bool.false_eq_true, if_false]
      exact ⟨mkRem P A status failureReason pS pE now w n, List.mem_cons_self _ _, rfl⟩
    · by_cases hsk : skipOf P A w0
      · rw [remsF, if_pos hsk]
        exact ih n h0
      · rw [remsF, if_neg hsk]
        simp only [Bool.false_eq_true, if_false]
        obtain ⟨r, hr, hrw⟩ := ih (n + 1) h0
        exact ⟨r, List.mem_cons_of_mem _ hr, hrw⟩

/-- C3: a real run with a payout-status override other than COMPLETED
(FAILED, CANCELLED, PENDING, PROCESSING) creates a remittance row per worker
with outstanding units, carrying that status — with the synthesized failure
reason when FAILED — while every segment, adjustment, and worklog row is left
completely unchanged. -/
theorem C3_failed_outcome_safety (s : State) (req : GenerateRequest) (dS dE now : Int)
    (st : RemittanceStatus) (s' : State) (resp : GenerateResponse)
    (pS pE : Int) (P : List (TimeSegment × WorkLog × Int))
    (hdry : req.dryRun = false) (hpay : req.payoutStatus = some st)
    (hne : st ≠ RemittanceStatus.COMPLETED)
    (hper : resolvePeriod req.periodStart req.periodEnd dS dE = .ok (pS, pE))
    (hP : pricedSegPairs s = .ok P)
    (h : generate s req dS dE now = .ok (s', resp)) :
    s'.segments = s.segments ∧ s'.adjustments = s.adjustments ∧
    s'.worklogs = s.worklogs ∧
    ∃ new, s'.remittances = s.remittances ++ new ∧
      (∀ r ∈ new, r.status = st ∧
        (st = RemittanceStatus.FAILED →
          r.failureReason = some "Payout marked as FAILED by request")) ∧
      (∀ w ∈ workers s, ¬ skipOf P (adjPairs s) w → ∃ r ∈ new, r.workerId = w) := by
  have hst : statusOf req = st := by
    unfold statusOf
    rw [hpay]
    rfl
  obtain ⟨hwl, hsg, had, hrm, hni, hresp⟩ :=
    generate_components s req dS dE now s' resp pS pE P hper hP h
  rw [hst] at hwl hsg had hrm
  refine ⟨?_, ?_, ?_, ?_⟩
  · rw [hsg, segUpdF_nonCompleted P (adjPairs s) req.dryRun st hne, List.map_id]
  · rw [had, adjUpdF_nonCompleted P (adjPairs s) req.dryRun st hne, List.map_id]
  · rw [hwl, wlUpdF_nonCompleted P (adjPairs s) req.dryRun st hne, List.map_id]
  · refine ⟨_, hrm, ?_, ?_⟩
    · intro r hr
      obtain ⟨-, -, h3, h4, -⟩ :=
        remsF_mem P (adjPairs s) req.dryRun st (failureReasonOf st) pS pE now
          (workers s) s.nextId r hr
      refine ⟨h3, ?_⟩
      intro hF
      rw [h4, hF]
      rfl
    · intro w hw hns
      rw [hdry] at hrm ⊢
      exact remsF_exists_worker P (adjPairs s) st (failureReasonOf st) pS pE now
        (workers s) s.nextId w hw hns

/-- C3 witness: the FAILED run at the concrete state `exState`. -/
theorem C3_failed_outcome_safety_witness :
    exStateFailedAfter.segments = exState.segments ∧
    exStateFailedAfter.adjustments = exState.adjustments ∧
    exStateFailedAfter.worklogs = exState.worklogs ∧
    ∃ new, exStateFailedAfter.remittances = exState.remittances ++ new ∧
      (∀ r ∈ new, r.status = RemittanceStatus.FAILED ∧
        (RemittanceStatus.FAILED = RemittanceStatus.FAILED →
          r.failureReason = some "Payout marked as FAILED by request")) ∧
      (∀ w ∈ workers exState, ¬ skipOf exP (adjPairs exState) w →
        ∃ r ∈ new, r.workerId = w) :=
  C3_failed_outcome_safety exState exReqFailed 100 200 42 RemittanceStatus.FAILED
    exStateFailedAfter exRespFailed 100 200 exP rfl rfl (by decide) rfl rfl rfl

theorem firstDedup_foldl_mem (l : List Nat) (acc : List Nat) (y : Nat) :
    (y ∈ l.foldl (fun acc x => if x ∈ acc then acc else acc ++ [x]) acc) ↔
      y ∈ acc ∨ y ∈ l := by
  induction l generalizing acc with
  | nil => simp
  | cons a l ih =>
    rw [List.foldl_cons, ih]
    by_cases h : a ∈ acc
    · rw [if_pos h]
      constructor
      · rintro (h0 | h0)
        · exact Or.inl h0
        · exact Or.inr (List.mem_cons_of_mem _ h0)
      · rintro (h0 | h0)
        · exact Or.inl h0
        · rcases List.mem_cons.mp h0 with h1 | h1
          · exact Or.inl (h1 ▸ h)
          · exact Or.inr h1
    · rw [if_neg h]
      simp only [List.mem_append, List.mem_singleton, List.mem_cons]
      tauto

/-- Membership in the deduplicated worker list. -/
theorem firstDedup_mem (l : List Nat) (y : Nat) : y ∈ firstDedup l ↔ y ∈ l := by
  unfold firstDedup
  rw [firstDedup_foldl_mem]
  simp

theorem firstDedup_foldl_nodup (l : List Nat) (acc : List Nat) (hacc : acc.Nodup) :
    (l.foldl (fun acc x => if x ∈ acc then acc else acc ++ [x]) acc).Nodup := by
  induction l generalizing acc with
  | nil => exact hacc
  | cons a l ih =>
    rw [List.foldl_cons]
    by_cases h : a ∈ acc
    · rw [if_pos h]
      exact ih acc hacc
    · rw [if_neg h]
      refine ih _ ?_
      rw [List.nodup_append]
      refine ⟨hacc, List.nodup_singleton a, ?_⟩
      intro y hy hy1
      simp only [List.mem_singleton] at hy1
      exact h (hy1 ▸ hy)

/-- The deduplicated worker list has no duplicates. -/
theorem firstDedup_nodup (l : List Nat) : (firstDedup l).Nodup :=
  firstDedup_foldl_nodup l [] List.nodup_nil

/-- Every resolved segment pair's worker appears in the worker list. -/
theorem workers_mem_of_segPair (s : State) (p : TimeSegment × WorkLog)
    (hp : p ∈ segPairs s) : p.2.workerId ∈ workers s := by
  unfold workers
  rw [firstDedup_mem]
  exact List.mem_append_left _ (List.mem_map.mpr ⟨p, hp, rfl⟩)

/-- Every resolved adjustment pair's worker appears in the worker list. -/
theorem workers_mem_of_adjPair (s : State) (p : Adjustment × WorkLog)
    (hp : p ∈ adjPairs s) : p.2.workerId ∈ workers s := by
  unfold workers
  rw [firstDedup_mem]
  exact List.mem_append_right _ (List.mem_map.mpr ⟨p, hp, rfl⟩)

/-- The per-worker loop never changes a segment's identity, times, worklog,
or work status. -/
theorem segUpdF_fields (P : List (TimeSegment × WorkLog × Int))
    (A : List (Adjustment × WorkLog)) (dry : Bool) (status : RemittanceStatus)
    (ws : List Nat) (n : Nat) (sg : TimeSegment) :
    (segUpdF P A dry status ws n sg).id = sg.id ∧
    (segUpdF P A dry status ws n sg).worklogId = sg.worklogId ∧
    (segUpdF P A dry status ws n sg).startTime = sg.startTime ∧
    (segUpdF P A dry status ws n sg).endTime = sg.endTime ∧
    (segUpdF P A dry status ws n sg).status = sg.status := by
  induction ws generalizing n sg with
  | nil => exact ⟨rfl, rfl, rfl, rfl, rfl⟩
  | cons w ws ih =>
    by_cases hsk : skipOf P A w
    · simpa [segUpdF, hsk] using ih n sg
    · cases dry with
      | true => simpa [segUpdF, hsk] using ih n sg
      | false =>
        by_cases hst : status = RemittanceStatus.COMPLETED
        · subst hst
          by_cases hc : (wSegs P w).any (fun t => t.1.id = sg.id)
          · simpa [segUpdF, hsk, hc, remitSeg] using ih (n + 1) (remitSeg n sg)
          · simpa [segUpdF, hsk, hc] using ih (n + 1) sg
        · simpa [segUpdF, hsk, hst] using ih (n + 1) sg

/-- The per-worker loop never changes an adjustment's identity, amount,
worklog, reason, or type. -/
theorem adjUpdF_fields (P : List (TimeSegment × WorkLog × Int))
    (A : List (Adjustment × WorkLog)) (dry : Bool) (status : RemittanceStatus)
    (ws : List Nat) (n : Nat) (a : Adjustment) :
    (adjUpdF P A dry status ws n a).id = a.id ∧
    (adjUpdF P A dry status ws n a).worklogId = a.worklogId ∧
    (adjUpdF P A dry status ws n a).amount = a.amount ∧
    (adjUpdF P A dry status ws n a).reason = a.reason ∧
    (adjUpdF P A dry status ws n a).type = a.type := by
  induction ws generalizing n a with
  | nil => exact ⟨rfl, rfl, rfl, rfl, rfl⟩
  | cons w ws ih =>
    by_cases hsk : skipOf P A w
    · simpa [adjUpdF, hsk] using ih n a
    · cases dry with
      | true => simpa [adjUpdF, hsk] using ih n a
      | false =>
        by_cases hst : status = RemittanceStatus.COMPLETED
        · subst hst
          by_cases hc : (wAdjs A w).any (fun p => p.1.id = a.id)
          · simpa [adjUpdF, hsk, hc, remitAdj] using ih (n + 1) (remitAdj n a)
          · simpa [adjUpdF, hsk, hc] using ih (n + 1) a
        · simpa [adjUpdF, hsk, hst] using ih (n + 1) a

/-- The per-worker loop never changes a worklog's identity, task, worker, or
hourly rate. -/
theorem wlUpdF_fields (P : List (TimeSegment × WorkLog × Int))
    (A : List (Adjustment × WorkLog)) (dry : Bool) (status : RemittanceStatus)
    (ws : List Nat) (n : Nat) (wl : WorkLog) :
    (wlUpdF P A dry status ws n wl).id = wl.id ∧
    (wlUpdF P A dry status ws n wl).taskId = wl.taskId ∧
    (wlUpdF P A dry status ws n wl).workerId = wl.workerId ∧
    (wlUpdF P A dry status ws n wl).hourlyRate = wl.hourlyRate := by
  induction ws generalizing n wl with
  | nil => exact ⟨rfl, rfl, rfl, rfl⟩
  | cons w ws ih =>
    by_cases hsk : skipOf P A w
    · simpa [wlUpdF, hsk] using ih n wl
    · cases dry with
      | true => simpa [wlUpdF, hsk] using ih n wl
      | false =>
        by_cases hst : status = RemittanceStatus.COMPLETED
        · subst hst
          simp only [wlUpdF]
          rw [if_neg hsk]
          simp only [Bool.false_eq_true, if_false, if_pos rfl]
          by_cases hc : ((wSegs P w).any fun t => t.2.1.id = wl.id) = true ∨
              ((wAdjs A w).any fun p => p.2.id = wl.id) = true
          · rw [if_pos hc]
            exact ih (n + 1) (payWorklog (wSegs P w) (wAdjs A w) n wl)
          · rw [if_neg hc]
            exact ih (n + 1) wl
        · simpa [wlUpdF, hsk, hst] using ih (n + 1) wl

/-- The fresh-id counter never decreases. -/
theorem le_nextIdF (P : List (TimeSegment × WorkLog × Int))
    (A : List (Adjustment × WorkLog)) (dry : Bool) (ws : List Nat) (n : Nat) :
    n ≤ nextIdF P A dry ws n := by
  induction ws generalizing n with
  | nil => exact le_refl n
  | cons w ws ih =>
    by_cases hsk : skipOf P A w
    · simpa [nextIdF, hsk] using ih n
    · cases dry with
      | true => simpa [nextIdF, hsk] using ih n
      | false =>
        have := ih (n + 1)
        simp only [nextIdF, hsk, if_neg, Bool.false_eq_true, if_false]
        omega

/-- Every id a run links a segment to is fresh and below the final counter:
each segment row is either left alone or marked REMITTED with such an id. -/
theorem segUpdF_evol (P : List (TimeSegment × WorkLog × Int))
    (A : List (Adjustment × WorkLog)) (dry : Bool) (status : RemittanceStatus)
    (ws : List Nat) (n : Nat) (sg : TimeSegment) :
    segUpdF P A dry status ws n sg = sg ∨
    ((segUpdF P A dry status ws n sg).settlementStatus = SettlementStatus.REMITTED ∧
      ∃ j, n ≤ j ∧ j < nextIdF P A dry ws n ∧
        (segUpdF P A dry status ws n sg).remittanceId = some j) := by
  induction ws generalizing n sg with
  | nil => exact Or.inl rfl
  | cons w ws ih =>
    by_cases hsk : skipOf P A w
    · simpa [segUpdF, nextIdF, hsk] using ih n sg
    · cases dry with
      | true => simpa [segUpdF, nextIdF, hsk] using ih n sg
      | false =>
        by_cases hst : status = RemittanceStatus.COMPLETED
        · subst hst
          simp only [segUpdF, nextIdF]
          rw [if_neg hsk, if_neg hsk]
          simp only [Bool.false_eq_true, if_false, if_true, if_pos rfl]
          by_cases hc : (wSegs P w).any (fun t => t.1.id = sg.id)
          · rw [if_pos hc]
            rcases ih (n + 1) (remitSeg n sg) with h0 | ⟨h1, j, hj1, hj2, hj3⟩
            · right
              rw [h0]
              exact ⟨rfl, n, le_refl n, lt_of_lt_of_le (by omega) (le_nextIdF _ _ _ _ _), rfl⟩
            · right
              exact ⟨h1, j, by omega, hj2, hj3⟩
          · rw [if_neg hc]
            rcases ih (n + 1) sg with h0 | ⟨h1, j, hj1, hj2, hj3⟩
            · exact Or.inl h0
            · exact Or.inr ⟨h1, j, by omega, hj2, hj3⟩
        · simp only [segUpdF, nextIdF]
          rw [if_neg hsk, if_neg hsk]
          simp only [Bool.false_eq_true, if_false, if_neg hst]
          rcases ih (n + 1) sg with h0 | ⟨h1, j, hj1, hj2, hj3⟩
          · exact Or.inl h0
          · exact Or.inr ⟨h1, j, by omega, hj2, hj3⟩

/-- Adjustment counterpart of `segUpdF_evol`. -/
theorem adjUpdF_evol (P : List (TimeSegment × WorkLog × Int))
    (A : List (Adjustment × WorkLog)) (dry : Bool) (status : RemittanceStatus)
    (ws : List Nat) (n : Nat) (a : Adjustment) :
    adjUpdF P A dry status ws n a = a ∨
    ((adjUpdF P A dry status ws n a).settlementStatus = SettlementStatus.REMITTED ∧
      ∃ j, n ≤ j ∧ j < nextIdF P A dry ws n ∧
        (adjUpdF P A dry status ws n a).remittanceId = some j) := by
  induction ws generalizing n a with
  | nil => exact Or.inl rfl
  | cons w ws ih =>
    by_cases hsk : skipOf P A w
    · simpa [adjUpdF, nextIdF, hsk] using ih n a
    · cases dry with
      | true => simpa [adjUpdF, nextIdF, hsk] using ih n a
      | false =>
        by_cases hst : status = RemittanceStatus.COMPLETED
        · subst hst
          simp only [adjUpdF, nextIdF]
          rw [if_neg hsk, if_neg hsk]
          simp only [Bool.false_eq_true, if_false, if_true, if_pos rfl]
          by_cases hc : (wAdjs A w).any (fun p => p.1.id = a.id)
          · rw [if_pos hc]
            rcases ih (n + 1) (remitAdj n a) with h0 | ⟨h1, j, hj1, hj2, hj3⟩
            · right
              rw [h0]
              exact ⟨rfl, n, le_refl n, lt_of_lt_of_le (by omega) (le_nextIdF _ _ _ _ _), rfl⟩
            · right
              exact ⟨h1, j, by omega, hj2, hj3⟩
          · rw [if_neg hc]
            rcases ih (n + 1) a with h0 | ⟨h1, j, hj1, hj2, hj3⟩
            · exact Or.inl h0
            · exact Or.inr ⟨h1, j, by omega, hj2, hj3⟩
        · simp only [adjUpdF, nextIdF]
          rw [if_neg hsk, if_neg hsk]
          simp only [Bool.false_eq_true, if_false, if_neg hst]
          rcases ih (n + 1) a with h0 | ⟨h1, j, hj1, hj2, hj3⟩
          · exact Or.inl h0
          · exact Or.inr ⟨h1, j, by omega, hj2, hj3⟩

/-- Persisted remittance ids stay below the final counter. -/
theorem remsF_id_lt (P : List (TimeSegment × WorkLog × Int))
    (A : List (Adjustment × WorkLog)) (dry : Bool) (status : RemittanceStatus)
    (failureReason : Option String) (pS pE now : Int) (ws : List Nat) (n : Nat)
    (r : Remittance) (hr : r ∈ remsF P A dry status failureReason pS pE now ws n) :
    n ≤ r.id ∧ r.id < nextIdF P A dry ws n := by
  induction ws generalizing n with
  | nil => simp [remsF] at hr
  | cons w ws ih =>
    by_cases hsk : skipOf P A w
    · rw [remsF, if_pos hsk] at hr
      simpa [nextIdF, hsk] using ih n hr
    · cases dry with
      | true =>
        rw [remsF, if_neg hsk, if_pos rfl] at hr
        simpa [nextIdF, hsk] using ih n hr
      | false =>
        rw [remsF, if_neg hsk] at hr
        simp only [Bool.false_eq_true, if_false] at hr
        simp only [nextIdF, hsk, if_neg, Bool.false_eq_true, if_false]
        rcases List.mem_cons.mp hr with h0 | h0
        · subst h0
          refine ⟨le_refl _, ?_⟩
          have h1 : (mkRem P A status failureReason pS pE now w n).id = n := rfl
          have h2 := le_nextIdF P A false ws (n + 1)
          omega
        · have := ih (n + 1) h0
          omega

/-- Persisted remittance ids are distinct within one run. -/
theorem remsF_ids_nodup (P : List (TimeSegment × WorkLog × Int))
    (A : List (Adjustment × WorkLog)) (dry : Bool) (status : RemittanceStatus)
    (failureReason : Option String) (pS pE now : Int) (ws : List Nat) (n : Nat) :
    ((remsF P A dry status failureReason pS pE now ws n).map Remittance.id).Nodup := by
  induction ws generalizing n with
  | nil => simp [remsF]
  | cons w ws ih =>
    by_cases hsk : skipOf P A w
    · rw [remsF, if_pos hsk]
      exact ih n
    · cases dry with
      | true =>
        rw [remsF, if_neg hsk, if_pos rfl]
        exact ih n
      | false =>
        rw [remsF, if_neg hsk]
        simp only [Bool.false_eq_true, if_false, List.map_cons, List.nodup_cons]
        refine ⟨?_, ih (n + 1)⟩
        intro hmem
        obtain ⟨r, hr, hrid⟩ := List.mem_map.mp hmem
        have := (remsF_id_lt P A false status failureReason pS pE now ws (n + 1) r hr).1
        simp only [mkRem] at hrid
        omega

/-- A successful run preserves well-formedness. -/
theorem WF_generate (s : State) (req : GenerateRequest) (dS dE now : Int)
    (s' : State) (resp : GenerateResponse) (hWF : WF s)
    (h : generate s req dS dE now = .ok (s', resp)) : WF s' := by
  obtain ⟨pS, pE, P, hper, hP⟩ := generate_ok_inv s req dS dE now s' resp h
  obtain ⟨hwl, hsg, had, hrm, hni, -⟩ :=
    generate_components s req dS dE now s' resp pS pE P hper hP h
  have hnle : s.nextId ≤ nextIdF P (adjPairs s) req.dryRun (workers s) s.nextId :=
    le_nextIdF _ _ _ _ _
  constructor
  · rw [hwl, List.map_map]
    simp only [Function.comp_def]
    rw [List.map_congr_left (fun a _ =>
      (wlUpdF_fields P (adjPairs s) req.dryRun (statusOf req) (workers s) s.nextId a).1)]
    exact hWF.wlIds
  · rw [hsg, List.map_map]
    simp only [Function.comp_def]
    rw [List.map_congr_left (fun a _ =>
      (segUpdF_fields P (adjPairs s) req.dryRun (statusOf req) (workers s) s.nextId a).1)]
    exact hWF.segIds
  · rw [had, List.map_map]
    simp only [Function.comp_def]
    rw [List.map_congr_left (fun a _ =>
      (adjUpdF_fields P (adjPairs s) req.dryRun (statusOf req) (workers s) s.nextId a).1)]
    exact hWF.adjIds
  · rw [hrm, List.map_append, List.nodup_append]
    refine ⟨hWF.remIds, remsF_ids_nodup _ _ _ _ _ _ _ _ _ _, ?_⟩
    intro x hx1 hx2
    obtain ⟨r1, hr1, hid1⟩ := List.mem_map.mp hx1
    obtain ⟨r2, hr2, hid2⟩ := List.mem_map.mp hx2
    have hb1 := hWF.remLt r1 hr1
    have hb2 := (remsF_id_lt P (adjPairs s) req.dryRun (statusOf req)
      (failureReasonOf (statusOf req)) pS pE now (workers s) s.nextId r2 hr2).1
    omega
  · intro r hr
    rw [hrm] at hr
    rw [hni]
    rcases List.mem_append.mp hr with hold | hnew
    · have := hWF.remLt r hold
      omega
    · exact (remsF_id_lt P (adjPairs s) req.dryRun (statusOf req)
        (failureReasonOf (statusOf req)) pS pE now (workers s) s.nextId r hnew).2
  · intro sg' hsg' j hj
    rw [hsg] at hsg'
    rw [hni]
    obtain ⟨sg, hsgmem, rfl⟩ := List.mem_map.mp hsg'
    rcases segUpdF_evol P (adjPairs s) req.dryRun (statusOf req) (workers s)
        s.nextId sg with heq | ⟨-, j0, hj1, hj2, hj3⟩
    · rw [heq] at hj
      have := hWF.segLink sg hsgmem j hj
      omega
    · rw [hj3] at hj
      have : j0 = j := Option.some.inj hj
      omega
  · intro a' ha' j hj
    rw [had] at ha'
    rw [hni]
    obtain ⟨a, hamem, rfl⟩ := List.mem_map.mp ha'
    rcases adjUpdF_evol P (adjPairs s) req.dryRun (statusOf req) (workers s)
        s.nextId a with heq | ⟨-, j0, hj1, hj2, hj3⟩
    · rw [heq] at hj
      have := hWF.adjLink a hamem j hj
      omega
    · rw [hj3] at hj
      have : j0 = j := Option.some.inj hj
      omega

/-- The fresh-id counter never decreases across a successful run. -/
theorem nextId_mono_generate (s : State) (req : GenerateRequest) (dS dE now : Int)
    (s' : State) (resp : GenerateResponse)
    (h : generate s req dS dE now = .ok (s', resp)) : s.nextId ≤ s'.nextId := by
  obtain ⟨pS, pE, P, hper, hP⟩ := generate_ok_inv s req dS dE now s' resp h
  obtain ⟨-, -, -, -, hni, -⟩ :=
    generate_components s req dS dE now s' resp pS pE P hper hP h
  rw [hni]
  exact le_nextIdF _ _ _ _ _

/-- Well-formedness is preserved along every reachable state. -/
theorem WF_reachable (s s' : State) (hWF : WF s) (h : Reachable s s') : WF s' := by
  induction h with
  | refl => exact hWF
  | step req dS dE now resp hreach hgen ih =>
    exact WF_generate _ req dS dE now _ resp ih hgen

/-- The fresh-id counter never decreases along reachability. -/
theorem nextId_mono_reachable (s s' : State) (h : Reachable s s') :
    s.nextId ≤ s'.nextId := by
  induction h with
  | refl => exact le_refl _
  | step req dS dE now resp hreach hgen ih =>
    exact le_trans ih (nextId_mono_generate _ req dS dE now _ resp hgen)

theorem list_sum_zero_of_nonneg (l : List Int) (hpos : ∀ x ∈ l, 0 ≤ x)
    (hsum : l.sum = 0) : ∀ x ∈ l, x = 0 := by
  induction l with
  | nil => intro x hx; simp at hx
  | cons a l ih =>
    rw [List.sum_cons] at hsum
    have ha := hpos a (List.mem_cons_self _ _)
    have hrest : 0 ≤ l.sum := List.sum_nonneg (fun x hx => hpos x (List.mem_cons_of_mem _ hx))
    have ha0 : a = 0 := by omega
    have hl0 : l.sum = 0 := by omega
    intro x hx
    rcases List.mem_cons.mp hx with h0 | h0
    · exact h0 ▸ ha0
    · exact ih (fun y hy => hpos y (List.mem_cons_of_mem _ hy)) hl0 x h0

theorem list_sum_nonpos (l : List Int) (hneg : ∀ x ∈ l, x ≤ 0) : l.sum ≤ 0 := by
  induction l with
  | nil => simp
  | cons a l ih =>
    rw [List.sum_cons]
    have := hneg a (List.mem_cons_self _ _)
    have := ih (fun x hx => hneg x (List.mem_cons_of_mem _ hx))
    omega

theorem list_sum_zero_of_nonpos (l : List Int) (hneg : ∀ x ∈ l, x ≤ 0)
    (hsum : l.sum = 0) : ∀ x ∈ l, x = 0 := by
  induction l with
  | nil => intro x hx; simp at hx
  | cons a l ih =>
    rw [List.sum_cons] at hsum
    have ha := hneg a (List.mem_cons_self _ _)
    have hrest := list_sum_nonpos l (fun x hx => hneg x (List.mem_cons_of_mem _ hx))
    have ha0 : a = 0 := by omega
    have hl0 : l.sum = 0 := by omega
    intro x hx
    rcases List.mem_cons.mp hx with h0 | h0
    · exact h0 ▸ ha0
    · exact ih (fun y hy => hneg y (List.mem_cons_of_mem _ hy)) hl0 x h0

/-- A skipped worker's units all have priced amount exactly 0. -/
theorem skip_amounts_zero (P : List (TimeSegment × WorkLog × Int))
    (A : List (Adjustment × WorkLog)) (w : Nat) (hsk : skipOf P A w) :
    (∀ t ∈ wSegs P w, t.2.2 = 0) ∧ (∀ p ∈ wAdjs A w, p.1.amount = 0) := by
  obtain ⟨hg, hn⟩ := hsk
  unfold grossOf at hg
  unfold netOf at hn
  have hsegpos : ∀ x ∈ (wSegs P w).map (fun t => if 0 < t.2.2 then t.2.2 else 0), 0 ≤ x := by
    intro x hx
    obtain ⟨t, -, rfl⟩ := List.mem_map.mp hx
    by_cases h0 : 0 < t.2.2 <;> simp [h0] <;> omega
  have hadjpos : ∀ x ∈ (wAdjs A w).map (fun p => if 0 < p.1.amount then p.1.amount else 0),
      0 ≤ x := by
    intro x hx
    obtain ⟨p, -, rfl⟩ := List.mem_map.mp hx
    by_cases h0 : 0 < p.1.amount <;> simp [h0] <;> omega
  have hseg0 : ((wSegs P w).map (fun t => if 0 < t.2.2 then t.2.2 else 0)).sum = 0 := by
    have h1 := List.sum_nonneg hsegpos
    have h2 := List.sum_nonneg hadjpos
    omega
  have hadj0 : ((wAdjs A w).map (fun p => if 0 < p.1.amount then p.1.amount else 0)).sum = 0 := by
    have h1 := List.sum_nonneg hsegpos
    have h2 := List.sum_nonneg hadjpos
    omega
  have hsegle : ∀ t ∈ wSegs P w, t.2.2 ≤ 0 := by
    intro t ht
    have := list_sum_zero_of_nonneg _ hsegpos hseg0 _
      (List.mem_map.mpr ⟨t, ht, rfl⟩)
    by_cases h0 : 0 < t.2.2
    · rw [if_pos h0] at this
      omega
    · omega
  have hadjle : ∀ p ∈ wAdjs A w, p.1.amount ≤ 0 := by
    intro p hp
    have := list_sum_zero_of_nonneg _ hadjpos hadj0 _
      (List.mem_map.mpr ⟨p, hp, rfl⟩)
    by_cases h0 : 0 < p.1.amount
    · rw [if_pos h0] at this
      omega
    · omega
  have hsle : ((wSegs P w).map (fun t => t.2.2)).sum ≤ 0 :=
    list_sum_nonpos _ (by
      intro x hx
      obtain ⟨t, ht, rfl⟩ := List.mem_map.mp hx
      exact hsegle t ht)
  have hale : ((wAdjs A w).map (fun p => p.1.amount)).sum ≤ 0 :=
    list_sum_nonpos _ (by
      intro x hx
      obtain ⟨p, hp, rfl⟩ := List.mem_map.mp hx
      exact hadjle p hp)
  have hs0 : ((wSegs P w).map (fun t => t.2.2)).sum = 0 := by omega
  have ha0 : ((wAdjs A w).map (fun p => p.1.amount)).sum = 0 := by omega
  constructor
  · intro t ht
    exact list_sum_zero_of_nonpos _ (by
        intro x hx
        obtain ⟨t0, ht0, rfl⟩ := List.mem_map.mp hx
        exact hsegle t0 ht0) hs0 _ (List.mem_map.mpr ⟨t, ht, rfl⟩)
  · intro p hp
    exact list_sum_zero_of_nonpos _ (by
        intro x hx
        obtain ⟨p0, hp0, rfl⟩ := List.mem_map.mp hx
        exact hadjle p0 hp0) ha0 _ (List.mem_map.mpr ⟨p, hp, rfl⟩)

/-- Once a segment row reads REMITTED it reads REMITTED after the loop too. -/
theorem segUpdF_remitted_stays (P : List (TimeSegment × WorkLog × Int))
    (A : List (Adjustment × WorkLog)) (dry : Bool) (status : RemittanceStatus)
    (ws : List Nat) (n : Nat) (sg : TimeSegment)
    (hsg : sg.settlementStatus = SettlementStatus.REMITTED) :
    (segUpdF P A dry status ws n sg).settlementStatus = SettlementStatus.REMITTED := by
  induction ws generalizing n sg with
  | nil => exact hsg
  | cons w ws ih =>
    by_cases hsk : skipOf P A w
    · simpa [segUpdF, hsk] using ih n sg hsg
    · cases dry with
      | true => simpa [segUpdF, hsk] using ih n sg hsg
      | false =>
        by_cases hst : status = RemittanceStatus.COMPLETED
        · subst hst
          by_cases hc : (wSegs P w).any (fun t => t.1.id = sg.id)
          · simpa [segUpdF, hsk, hc] using ih (n + 1) (remitSeg n sg) rfl
          · simpa [segUpdF, hsk, hc] using ih (n + 1) sg hsg
        · simpa [segUpdF, hsk, hst] using ih (n + 1) sg hsg

/-- Adjustment counterpart of `segUpdF_remitted_stays`. -/
theorem adjUpdF_remitted_stays (P : List (TimeSegment × WorkLog × Int))
    (A : List (Adjustment × WorkLog)) (dry : Bool) (status : RemittanceStatus)
    (ws : List Nat) (n : Nat) (a : Adjustment)
    (ha : a.settlementStatus = SettlementStatus.REMITTED) :
    (adjUpdF P A dry status ws n a).settlementStatus = SettlementStatus.REMITTED := by
  induction ws generalizing n a with
  | nil => exact ha
  | cons w ws ih =>
    by_cases hsk : skipOf P A w
    · simpa [adjUpdF, hsk] using ih n a ha
    · cases dry with
      | true => simpa [adjUpdF, hsk] using ih n a ha
      | false =>
        by_cases hst : status = RemittanceStatus.COMPLETED
        · subst hst
          by_cases hc : (wAdjs A w).any (fun p => p.1.id = a.id)
          · simpa [adjUpdF, hsk, hc] using ih (n + 1) (remitAdj n a) rfl
          · simpa [adjUpdF, hsk, hc] using ih (n + 1) a ha
        · simpa [adjUpdF, hsk, hst] using ih (n + 1) a ha

/-- A selected segment whose worker is processed and not skipped ends the
COMPLETED run marked REMITTED. -/
theorem segUpdF_remits_status (P : List (TimeSegment × WorkLog × Int))
    (A : List (Adjustment × WorkLog)) (ws : List Nat) (n : Nat)
    (t : TimeSegment × WorkLog × Int) (ht : t ∈ P)
    (hw : t.2.1.workerId ∈ ws) (hns : ¬ skipOf P A t.2.1.workerId) :
    (segUpdF P A false RemittanceStatus.COMPLETED ws n t.1).settlementStatus =
      SettlementStatus.REMITTED := by
  induction ws generalizing n with
  | nil => simp at hw
  | cons w ws ih =>
    by_cases hsk : skipOf P A w
    · have hw0 : t.2.1.workerId ∈ ws := by
        rcases List.mem_cons.mp hw with h0 | h0
        · exact absurd (h0 ▸ hns) (fun hcon => hcon hsk)
        · exact h0
      simpa [segUpdF, hsk] using ih n hw0
    · by_cases hweq : w = t.2.1.workerId
      · have hc : (wSegs P w).any (fun t0 => t0.1.id = t.1.id) = true := by
          rw [List.any_eq_true]
          refine ⟨t, ?_, by simp⟩
          unfold wSegs
          rw [List.mem_filter]
          refine ⟨ht, ?_⟩
          rw [hweq]
          simp
        simp only [segUpdF]
        rw [if_neg hsk]
        simp only [Bool.false_eq_true, if_false, if_pos rfl]
        rw [if_pos hc]
        exact segUpdF_remitted_stays P A false RemittanceStatus.COMPLETED ws (n + 1)
          (remitSeg n t.1) rfl
      · have hw0 : t.2.1.workerId ∈ ws := by
          rcases List.mem_cons.mp hw with h0 | h0
          · exact absurd h0.symm hweq
          · exact h0
        simp only [segUpdF]
        rw [if_neg hsk]
        simp only [Bool.false_eq_true, if_false, if_pos rfl]
        by_cases hc : (wSegs P w).any (fun t0 => t0.1.id = t.1.id)
        · rw [if_pos hc]
          exact segUpdF_remitted_stays P A false RemittanceStatus.COMPLETED ws (n + 1)
            (remitSeg n t.1) rfl
        · rw [if_neg hc]
          exact ih (n + 1) hw0

/-- Adjustment counterpart of `segUpdF_remits_status`. -/
theorem adjUpdF_remits_status (P : List (TimeSegment × WorkLog × Int))
    (A : List (Adjustment × WorkLog)) (ws : List Nat) (n : Nat)
    (p : Adjustment × WorkLog) (hp : p ∈ A)
    (hw : p.2.workerId ∈ ws) (hns : ¬ skipOf P A p.2.workerId) :
    (adjUpdF P A false RemittanceStatus.COMPLETED ws n p.1).settlementStatus =
      SettlementStatus.REMITTED := by
  induction ws generalizing n with
  | nil => simp at hw
  | cons w ws ih =>
    by_cases hsk : skipOf P A w
    · have hw0 : p.2.workerId ∈ ws := by
        rcases List.mem_cons.mp hw with h0 | h0
        · exact absurd (h0 ▸ hns) (fun hcon => hcon hsk)
        · exact h0
      simpa [adjUpdF, hsk] using ih n hw0
    · by_cases hweq : w = p.2.workerId
      · have hc : (wAdjs A w).any (fun p0 => p0.1.id = p.1.id) = true := by
          rw [List.any_eq_true]
          refine ⟨p, ?_, by simp⟩
          unfold wAdjs
          rw [List.mem_filter]
          refine ⟨hp, ?_⟩
          rw [hweq]
          simp
        simp only [adjUpdF]
        rw [if_neg hsk]
        simp only [Bool.false_eq_true, if_false, if_pos rfl]
        rw [if_pos hc]
        exact adjUpdF_remitted_stays P A false RemittanceStatus.COMPLETED ws (n + 1)
          (remitAdj n p.1) rfl
      · have hw0 : p.2.workerId ∈ ws := by
          rcases List.mem_cons.mp hw with h0 | h0
          · exact absurd h0.symm hweq
          · exact h0
        simp only [adjUpdF]
        rw [if_neg hsk]
        simp only [Bool.false_eq_true, if_false, if_pos rfl]
        by_cases hc : (wAdjs A w).any (fun p0 => p0.1.id = p.1.id)
        · rw [if_pos hc]
          exact adjUpdF_remitted_stays P A false RemittanceStatus.COMPLETED ws (n + 1)
            (remitAdj n p.1) rfl
        · rw [if_neg hc]
          exact ih (n + 1) hw0

/-- A segment row whose id is not among the selected units is untouched. -/
theorem segUpdF_not_selected (P : List (TimeSegment × WorkLog × Int))
    (A : List (Adjustment × WorkLog)) (dry : Bool) (status : RemittanceStatus)
    (ws : List Nat) (n : Nat) (sg : TimeSegment)
    (hna : ∀ t ∈ P, t.1.id ≠ sg.id) :
    segUpdF P A dry status ws n sg = sg := by
  induction ws generalizing n with
  | nil => rfl
  | cons w ws ih =>
    have hc : ((wSegs P w).any fun t => t.1.id = sg.id) = false := by
      rw [List.any_eq_false]
      intro t ht
      have := hna t (List.mem_filter.mp ht).1
      simp [this]
    by_cases hsk : skipOf P A w
    · simpa [segUpdF, hsk] using ih n
    · cases dry with
      | true => simpa [segUpdF, hsk] using ih n
      | false =>
        by_cases hst : status = RemittanceStatus.COMPLETED
        · subst hst
          simp only [segUpdF]
          rw [if_neg hsk]
          simp only [Bool.false_eq_true, if_false, if_pos rfl]
          rw [hc]
          simp only [Bool.false_eq_true, if_false]
          exact ih (n + 1)
        · simpa [segUpdF, hsk, hst] using ih (n + 1)

/-- An adjustment row whose id is not among the selected units is untouched. -/
theorem adjUpdF_not_selected (P : List (TimeSegment × WorkLog × Int))
    (A : List (Adjustment × WorkLog)) (dry : Bool) (status : RemittanceStatus)
    (ws : List Nat) (n : Nat) (a : Adjustment)
    (hna : ∀ p ∈ A, p.1.id ≠ a.id) :
    adjUpdF P A dry status ws n a = a := by
  induction ws generalizing n with
  | nil => rfl
  | cons w ws ih =>
    have hc : ((wAdjs A w).any fun p => p.1.id = a.id) = false := by
      rw [List.any_eq_false]
      intro p hp
      have := hna p (List.mem_filter.mp hp).1
      simp [this]
    by_cases hsk : skipOf P A w
    · simpa [adjUpdF, hsk] using ih n
    · cases dry with
      | true => simpa [adjUpdF, hsk] using ih n
      | false =>
        by_cases hst : status = RemittanceStatus.COMPLETED
        · subst hst
          simp only [adjUpdF]
          rw [if_neg hsk]
          simp only [Bool.false_eq_true, if_false, if_pos rfl]
          rw [hc]
          simp only [Bool.false_eq_true, if_false]
          exact ih (n + 1)
        · simpa [adjUpdF, hsk, hst] using ih (n + 1)

/-- A worklog row referenced by no selected unit is untouched. -/
theorem wlUpdF_not_referenced (P : List (TimeSegment × WorkLog × Int))
    (A : List (Adjustment × WorkLog)) (dry : Bool) (status : RemittanceStatus)
    (ws : List Nat) (n : Nat) (wl : WorkLog)
    (hnsg : ∀ t ∈ P, t.2.1.id ≠ wl.id) (hnad : ∀ p ∈ A, p.2.id ≠ wl.id) :
    wlUpdF P A dry status ws n wl = wl := by
  induction ws generalizing n with
  | nil => rfl
  | cons w ws ih =>
    have hc : (((wSegs P w).any fun t => t.2.1.id = wl.id) = true ∨
        ((wAdjs A w).any fun p => p.2.id = wl.id) = true) → False := by
      rintro (h0 | h0)
      · obtain ⟨t, ht, ht2⟩ := List.any_eq_true.mp h0
        exact hnsg t (List.mem_filter.mp ht).1 (by simpa using ht2)
      · obtain ⟨p, hp, hp2⟩ := List.any_eq_true.mp h0
        exact hnad p (List.mem_filter.mp hp).1 (by simpa using hp2)
    by_cases hsk : skipOf P A w
    · simpa [wlUpdF, hsk] using ih n
    · cases dry with
      | true => simpa [wlUpdF, hsk] using ih n
      | false =>
        by_cases hst : status = RemittanceStatus.COMPLETED
        · subst hst
          simp only [wlUpdF]
          rw [if_neg hsk]
          simp only [Bool.false_eq_true, if_false, if_pos rfl]
          rw [if_neg hc]
          exact ih (n + 1)
        · simpa [wlUpdF, hsk, hst] using ih (n + 1)

/-- Lower bound on assigned remittance ids. -/
theorem ridOfF_lower (P : List (TimeSegment × WorkLog × Int))
    (A : List (Adjustment × WorkLog)) (ws : List Nat) (n w0 rid : Nat)
    (h : ridOfF P A ws n w0 = some rid) : n ≤ rid := by
  induction ws generalizing n with
  | nil => simp [ridOfF] at h
  | cons w ws ih =>
    by_cases hsk : skipOf P A w
    · rw [ridOfF, if_pos hsk] at h
      exact ih n h
    · rw [ridOfF, if_neg hsk] at h
      by_cases hw : w = w0
      · rw [if_pos hw] at h
        have := Option.some.inj h
        omega
      · rw [if_neg hw] at h
        have := ih (n + 1) h
        omega

/-- A processed, non-skipped worker is assigned a remittance id. -/
theorem ridOfF_isSome (P : List (TimeSegment × WorkLog × Int))
    (A : List (Adjustment × WorkLog)) (ws : List Nat) (n w0 : Nat)
    (hw : w0 ∈ ws) (hns : ¬ skipOf P A w0) :
    ∃ rid, ridOfF P A ws n w0 = some rid := by
  induction ws generalizing n with
  | nil => simp at hw
  | cons w ws ih =>
    by_cases hsk : skipOf P A w
    · have hw0 : w0 ∈ ws := by
        rcases List.mem_cons.mp hw with h0 | h0
        · exact absurd (h0 ▸ hsk) hns
        · exact h0
      rw [ridOfF, if_pos hsk]
      exact ih n hw0
    · by_cases hweq : w = w0
      · exact ⟨n, by rw [ridOfF, if_neg hsk, if_pos hweq]⟩
      · have hw0 : w0 ∈ ws := by
          rcases List.mem_cons.mp hw with h0 | h0
          · exact absurd h0.symm hweq
          · exact h0
        rw [ridOfF, if_neg hsk, if_neg hweq]
        exact ih (n + 1) hw0

/-- A skipped worker is never assigned a remittance id. -/
theorem ridOfF_skip (P : List (TimeSegment × WorkLog × Int))
    (A : List (Adjustment × WorkLog)) (ws : List Nat) (n w0 : Nat)
    (hsk0 : skipOf P A w0) : ridOfF P A ws n w0 = none := by
  induction ws generalizing n with
  | nil => rfl
  | cons w ws ih =>
    by_cases hsk : skipOf P A w
    · rw [ridOfF, if_pos hsk]
      exact ih n
    · have hweq : w ≠ w0 := fun h0 => hsk (h0 ▸ hsk0)
      rw [ridOfF, if_neg hsk, if_neg hweq]
      exact ih (n + 1)

/-- An absent worker is never assigned a remittance id. -/
theorem ridOfF_notin (P : List (TimeSegment × WorkLog × Int))
    (A : List (Adjustment × WorkLog)) (ws : List Nat) (n w0 : Nat)
    (hw : w0 ∉ ws) : ridOfF P A ws n w0 = none := by
  induction ws generalizing n with
  | nil => rfl
  | cons w ws ih =>
    have hne : w ≠ w0 := fun h0 => hw (h0 ▸ List.mem_cons_self _ _)
    have hw0 : w0 ∉ ws := fun h0 => hw (List.mem_cons_of_mem _ h0)
    by_cases hsk : skipOf P A w
    · rw [ridOfF, if_pos hsk]
      exact ih n hw0
    · rw [ridOfF, if_neg hsk, if_neg hne]
      exact ih (n + 1) hw0

/-- Distinct workers are assigned distinct remittance ids. -/
theorem ridOfF_inj (P : List (TimeSegment × WorkLog × Int))
    (A : List (Adjustment × WorkLog)) (ws : List Nat) (n w0 w1 rid : Nat)
    (h0 : ridOfF P A ws n w0 = some rid) (h1 : ridOfF P A ws n w1 = some rid) :
    w0 = w1 := by
  induction ws generalizing n with
  | nil => simp [ridOfF] at h0
  | cons w ws ih =>
    by_cases hsk : skipOf P A w
    · rw [ridOfF, if_pos hsk] at h0 h1
      exact ih n h0 h1
    · rw [ridOfF, if_neg hsk] at h0 h1
      by_cases hw0 : w = w0
      · rw [if_pos hw0] at h0
        by_cases hw1 : w = w1
        · omega
        · rw [if_neg hw1] at h1
          have := ridOfF_lower P A ws (n + 1) w1 rid h1
          have : rid = n := by
            have := Option.some.inj h0
            omega
          omega
      · rw [if_neg hw0] at h0
        by_cases hw1 : w = w1
        · rw [if_pos hw1] at h1
          have := ridOfF_lower P A ws (n + 1) w0 rid h0
          have : rid = n := by
            have := Option.some.inj h1
            omega
          omega
        · rw [if_neg hw1] at h1
          exact ih (n + 1) h0 h1

/-- The remittance row persisted for a worker carries its assigned id. -/
theorem mkRem_mem_remsF (P : List (TimeSegment × WorkLog × Int))
    (A : List (Adjustment × WorkLog)) (status : RemittanceStatus)
    (failureReason : Option String) (pS pE now : Int) (ws : List Nat) (n w0 rid : Nat)
    (h : ridOfF P A ws n w0 = some rid) :
    mkRem P A status failureReason pS pE now w0 rid ∈
      remsF P A false status failureReason pS pE now ws n := by
  induction ws generalizing n with
  | nil => simp [ridOfF] at h
  | cons w ws ih =>
    by_cases hsk : skipOf P A w
    · rw [ridOfF, if_pos hsk] at h
      rw [remsF, if_pos hsk]
      exact ih n h
    · rw [ridOfF, if_neg hsk] at h
      rw [remsF, if_neg hsk]
      simp only [Bool.false_eq_true, if_false]
      by_cases hweq : w = w0
      · rw [if_pos hweq] at h
        have hrid := Option.some.inj h
        subst hweq
        subst hrid
        exact List.mem_cons_self _ _
      · rw [if_neg hweq] at h
        exact List.mem_cons_of_mem _ (ih (n + 1) h)

/-- Conversely, every persisted remittance row is the one of some processed,
non-skipped worker at its assigned id. -/
theorem remsF_char (P : List (TimeSegment × WorkLog × Int))
    (A : List (Adjustment × WorkLog)) (status : RemittanceStatus)
    (failureReason : Option String) (pS pE now : Int) (ws : List Nat) (n : Nat)
    (hnd : ws.Nodup) (r : Remittance)
    (hr : r ∈ remsF P A false status failureReason pS pE now ws n) :
    ∃ w0 ∈ ws, ¬ skipOf P A w0 ∧ ridOfF P A ws n w0 = some r.id ∧
      r = mkRem P A status failureReason pS pE now w0 r.id := by
  induction ws generalizing n with
  | nil => simp [remsF] at hr
  | cons w ws ih =>
    by_cases hsk : skipOf P A w
    · rw [remsF, if_pos hsk] at hr
      obtain ⟨w0, hw0, hns, hrid, heq⟩ := ih n (List.Nodup.of_cons hnd) hr
      refine ⟨w0, List.mem_cons_of_mem _ hw0, hns, ?_, heq⟩
      rw [ridOfF, if_pos hsk]
      exact hrid
    · rw [remsF, if_neg hsk] at hr
      simp only [Bool.false_eq_true, if_false] at hr
      rcases List.mem_cons.mp hr with h0 | h0
      · refine ⟨w, List.mem_cons_self _ _, hsk, ?_, ?_⟩
        · rw [ridOfF, if_neg hsk, if_pos rfl, h0]
          rfl
        · rw [h0]
          rfl
      · obtain ⟨w0, hw0, hns, hrid, heq⟩ := ih (n + 1) (List.Nodup.of_cons hnd) h0
        have hne : w ≠ w0 := by
          intro hcon
          exact (List.nodup_cons.mp hnd).1 (hcon ▸ hw0)
        refine ⟨w0, List.mem_cons_of_mem _ hw0, hns, ?_, heq⟩
        rw [ridOfF, if_neg hsk, if_neg hne]
        exact hrid

/-- A segment row sharing its id with a selected unit whose worker is not
processed is untouched. -/
theorem segUpdF_untouched_worker (P : List (TimeSegment × WorkLog × Int))
    (A : List (Adjustment × WorkLog)) (ws : List Nat) (n : Nat)
    (t : TimeSegment × WorkLog × Int) (ht : t ∈ P)
    (hu : ∀ t0 ∈ P, t0.1.id = t.1.id → t0 = t)
    (hnotin : t.2.1.workerId ∉ ws) (sg : TimeSegment) (hid : sg.id = t.1.id) :
    segUpdF P A false RemittanceStatus.COMPLETED ws n sg = sg := by
  induction ws generalizing n with
  | nil => rfl
  | cons w ws ih =>
    have hne : t.2.1.workerId ≠ w := fun h0 => hnotin (h0 ▸ List.mem_cons_self _ _)
    have hnotin0 : t.2.1.workerId ∉ ws := fun h0 => hnotin (List.mem_cons_of_mem _ h0)
    have hc : ((wSegs P w).any fun t0 => t0.1.id = sg.id) = false := by
      rw [List.any_eq_false]
      intro t0 ht0
      have ht0P := (List.mem_filter.mp ht0).1
      have ht0w : t0.2.1.workerId = w := by simpa using (List.mem_filter.mp ht0).2
      intro hcon
      have : t0 = t := hu t0 ht0P (by simpa [hid] using hcon)
      exact hne (this ▸ ht0w)
    by_cases hsk : skipOf P A w
    · rw [segUpdF, if_pos hsk]
      exact ih n hnotin0
    · rw [segUpdF, if_neg hsk]
      simp only [Bool.false_eq_true, if_false, if_pos rfl]
      rw [hc]
      simp only [Bool.false_eq_true, if_false]
      exact ih (n + 1) hnotin0

/-- The fate of a selected segment in a real COMPLETED run: it is marked
REMITTED under its worker's assigned remittance id, or left alone when its
worker is skipped (or absent). -/
theorem segUpdF_selected (P : List (TimeSegment × WorkLog × Int))
    (A : List (Adjustment × WorkLog)) (ws : List Nat) (n : Nat)
    (t : TimeSegment × WorkLog × Int) (ht : t ∈ P)
    (hu : ∀ t0 ∈ P, t0.1.id = t.1.id → t0 = t) (hnd : ws.Nodup) :
    segUpdF P A false RemittanceStatus.COMPLETED ws n t.1 =
      (match ridOfF P A ws n t.2.1.workerId with
       | some rid => remitSeg rid t.1
       | none => t.1) := by
  induction ws generalizing n with
  | nil => rfl
  | cons w ws ih =>
    by_cases hsk : skipOf P A w
    · rw [segUpdF, if_pos hsk, ridOfF, if_pos hsk]
      exact ih n (List.Nodup.of_cons hnd)
    · by_cases hweq : w = t.2.1.workerId
      · have hc : ((wSegs P w).any fun t0 => t0.1.id = t.1.id) = true := by
          rw [List.any_eq_true]
          refine ⟨t, ?_, by simp⟩
          unfold wSegs
          rw [List.mem_filter]
          refine ⟨ht, ?_⟩
          rw [hweq]
          simp
        have hnotin : t.2.1.workerId ∉ ws := hweq ▸ (List.nodup_cons.mp hnd).1
        rw [segUpdF, if_neg hsk]
        simp only [Bool.false_eq_true, if_false, if_pos rfl]
        rw [hc]
        simp only [if_true]
        rw [ridOfF, if_neg hsk, if_pos hweq]
        exact segUpdF_untouched_worker P A ws (n + 1) t ht hu hnotin
          (remitSeg n t.1) rfl
      · have hc : ((wSegs P w).any fun t0 => t0.1.id = t.1.id) = false := by
          rw [List.any_eq_false]
          intro t0 ht0
          have ht0P := (List.mem_filter.mp ht0).1
          have ht0w : t0.2.1.workerId = w := by simpa using (List.mem_filter.mp ht0).2
          intro hcon
          have : t0 = t := hu t0 ht0P (by simpa using hcon)
          exact hweq (by rw [← ht0w, this])
        rw [segUpdF, if_neg hsk]
        simp only [Bool.false_eq_true, if_false, if_pos rfl]
        rw [hc]
        simp only [Bool.false_eq_true, if_false]
        rw [ridOfF, if_neg hsk, if_neg hweq]
        exact ih (n + 1) (List.Nodup.of_cons hnd)

/-- Adjustment counterpart of `segUpdF_untouched_worker`. -/
theorem adjUpdF_untouched_worker (P : List (TimeSegment × WorkLog × Int))
    (A : List (Adjustment × WorkLog)) (ws : List Nat) (n : Nat)
    (p : Adjustment × WorkLog) (hp : p ∈ A)
    (hu : ∀ p0 ∈ A, p0.1.id = p.1.id → p0 = p)
    (hnotin : p.2.workerId ∉ ws) (a : Adjustment) (hid : a.id = p.1.id) :
    adjUpdF P A false RemittanceStatus.COMPLETED ws n a = a := by
  induction ws generalizing n with
  | nil => rfl
  | cons w ws ih =>
    have hne : p.2.workerId ≠ w := fun h0 => hnotin (h0 ▸ List.mem_cons_self _ _)
    have hnotin0 : p.2.workerId ∉ ws := fun h0 => hnotin (List.mem_cons_of_mem _ h0)
    have hc : ((wAdjs A w).any fun p0 => p0.1.id = a.id) = false := by
      rw [List.any_eq_false]
      intro p0 hp0
      have hp0A := (List.mem_filter.mp hp0).1
      have hp0w : p0.2.workerId = w := by simpa using (List.mem_filter.mp hp0).2
      intro hcon
      have : p0 = p := hu p0 hp0A (by simpa [hid] using hcon)
      exact hne (this ▸ hp0w)
    by_cases hsk : skipOf P A w
    · rw [adjUpdF, if_pos hsk]
      exact ih n hnotin0
    · rw [adjUpdF, if_neg hsk]
      simp only [Bool.false_eq_true, if_false, if_pos rfl]
      rw [hc]
      simp only [Bool.false_eq_true, if_false]
      exact ih (n + 1) hnotin0

/-- The fate of a selected adjustment in a real COMPLETED run. -/
theorem adjUpdF_selected (P : List (TimeSegment × WorkLog × Int))
    (A : List (Adjustment × WorkLog)) (ws : List Nat) (n : Nat)
    (p : Adjustment × WorkLog) (hp : p ∈ A)
    (hu : ∀ p0 ∈ A, p0.1.id = p.1.id → p0 = p) (hnd : ws.Nodup) :
    adjUpdF P A false RemittanceStatus.COMPLETED ws n p.1 =
      (match ridOfF P A ws n p.2.workerId with
       | some rid => remitAdj rid p.1
       | none => p.1) := by
  induction ws generalizing n with
  | nil => rfl
  | cons w ws ih =>
    by_cases hsk : skipOf P A w
    · rw [adjUpdF, if_pos hsk, ridOfF, if_pos hsk]
      exact ih n (List.Nodup.of_cons hnd)
    · by_cases hweq : w = p.2.workerId
      · have hc : ((wAdjs A w).any fun p0 => p0.1.id = p.1.id) = true := by
          rw [List.any_eq_true]
          refine ⟨p, ?_, by simp⟩
          unfold wAdjs
          rw [List.mem_filter]
          refine ⟨hp, ?_⟩
          rw [hweq]
          simp
        have hnotin : p.2.workerId ∉ ws := hweq ▸ (List.nodup_cons.mp hnd).1
        rw [adjUpdF, if_neg hsk]
        simp only [Bool.false_eq_true, if_false, if_pos rfl]
        rw [hc]
        simp only [if_true]
        rw [ridOfF, if_neg hsk, if_pos hweq]
        exact adjUpdF_untouched_worker P A ws (n + 1) p hp hu hnotin
          (remitAdj n p.1) rfl
      · have hc : ((wAdjs A w).any fun p0 => p0.1.id = p.1.id) = false := by
          rw [List.any_eq_false]
          intro p0 hp0
          have hp0A := (List.mem_filter.mp hp0).1
          have hp0w : p0.2.workerId = w := by simpa using (List.mem_filter.mp hp0).2
          intro hcon
          have : p0 = p := hu p0 hp0A (by simpa using hcon)
          exact hweq (by rw [← hp0w, this])
        rw [adjUpdF, if_neg hsk]
        simp only [Bool.false_eq_true, if_false, if_pos rfl]
        rw [hc]
        simp only [Bool.false_eq_true, if_false]
        rw [ridOfF, if_neg hsk, if_neg hweq]
        exact ih (n + 1) (List.Nodup.of_cons hnd)

/-- One worklog's selected segments all sit in its own worker's group. -/
theorem wSegs_filter_id (P : List (TimeSegment × WorkLog × Int)) (w0 wlid : Nat)
    (huW : ∀ t ∈ P, t.2.1.id = wlid → t.2.1.workerId = w0) :
    (wSegs P w0).filter (fun t => t.2.1.id = wlid) =
      P.filter (fun t => t.2.1.id = wlid) := by
  unfold wSegs
  rw [List.filter_filter]
  apply List.filter_congr
  intro t ht
  by_cases h0 : t.2.1.id = wlid
  · simp [h0, huW t ht h0]
  · simp [h0]

/-- One worklog's selected adjustments all sit in its own worker's group. -/
theorem wAdjs_filter_id (A : List (Adjustment × WorkLog)) (w0 wlid : Nat)
    (huA : ∀ p ∈ A, p.2.id = wlid → p.2.workerId = w0) :
    (wAdjs A w0).filter (fun p => p.2.id = wlid) =
      A.filter (fun p => p.2.id = wlid) := by
  unfold wAdjs
  rw [List.filter_filter]
  apply List.filter_congr
  intro p hp
  by_cases h0 : p.2.id = wlid
  · simp [h0, huA p hp h0]
  · simp [h0]

/-- The running total after a real COMPLETED run: each worklog's cumulative
paid amount grows by exactly the priced amounts of its selected units, once —
and by nothing when its worker is skipped or absent. -/
theorem wlUpdF_total (P : List (TimeSegment × WorkLog × Int))
    (A : List (Adjustment × WorkLog)) (ws : List Nat) (n : Nat) (wl : WorkLog)
    (huW : ∀ t ∈ P, t.2.1.id = wl.id → t.2.1.workerId = wl.workerId)
    (huA : ∀ p ∈ A, p.2.id = wl.id → p.2.workerId = wl.workerId)
    (hnd : ws.Nodup) :
    (wlUpdF P A false RemittanceStatus.COMPLETED ws n wl).totalRemittedAmount =
      wl.totalRemittedAmount +
        (if wl.workerId ∈ ws ∧ ¬ skipOf P A wl.workerId then
          segContrib P wl.id + adjContrib A wl.id else 0) := by
  induction ws generalizing n wl with
  | nil => simp [wlUpdF]
  | cons w ws ih =>
    by_cases hsk : skipOf P A w
    · rw [wlUpdF, if_pos hsk, ih n wl huW huA (List.Nodup.of_cons hnd)]
      congr 1
      by_cases hweq : wl.workerId = w
      · rw [if_neg (fun hcon => hcon.2 (hweq ▸ hsk)),
          if_neg (fun hcon => hcon.2 (hweq ▸ hsk))]
      · have hiff : (wl.workerId ∈ ws ∧ ¬ skipOf P A wl.workerId) ↔
            (wl.workerId ∈ w :: ws ∧ ¬ skipOf P A wl.workerId) := by
          constructor
          · rintro ⟨hm, hns⟩
            exact ⟨List.mem_cons_of_mem _ hm, hns⟩
          · rintro ⟨hm, hns⟩
            rcases List.mem_cons.mp hm with h0 | h0
            · exact absurd h0 hweq
            · exact ⟨h0, hns⟩
        rw [if_congr hiff rfl rfl]
    · by_cases hweq : w = wl.workerId
      · have hnotin : wl.workerId ∉ ws := hweq ▸ (List.nodup_cons.mp hnd).1
        have hsknot : ¬ skipOf P A wl.workerId := hweq ▸ hsk
        have hcondT : wl.workerId ∈ w :: ws ∧ ¬ skipOf P A wl.workerId :=
          ⟨hweq ▸ List.mem_cons_self _ _, hsknot⟩
        rw [wlUpdF, if_neg hsk]
        simp only [Bool.false_eq_true, if_false, if_pos rfl, if_true]
        by_cases hc : ((wSegs P w).any fun t => t.2.1.id = wl.id) = true ∨
            ((wAdjs A w).any fun p => p.2.id = wl.id) = true
        · rw [if_pos hc,
            ih (n + 1) (payWorklog (wSegs P w) (wAdjs A w) n wl) huW huA
              (List.Nodup.of_cons hnd),
            if_neg (fun hcon => hnotin hcon.1), if_pos hcondT]
          have hseg : ((wSegs P w).filter (fun t => t.2.1.id = wl.id)).map
              (fun t => t.2.2) =
              (P.filter (fun t => t.2.1.id = wl.id)).map (fun t => t.2.2) := by
            rw [hweq, wSegs_filter_id P wl.workerId wl.id huW]
          have hadj : ((wAdjs A w).filter (fun p => p.2.id = wl.id)).map
              (fun p => p.1.amount) =
              (A.filter (fun p => p.2.id = wl.id)).map (fun p => p.1.amount) := by
            rw [hweq, wAdjs_filter_id A wl.workerId wl.id huA]
          simp only [payWorklog]
          rw [hseg, hadj]
          unfold segContrib adjContrib
          omega
        · rw [if_neg hc,
            ih (n + 1) wl huW huA (List.Nodup.of_cons hnd),
            if_neg (fun hcon => hnotin hcon.1), if_pos hcondT]
          push_neg at hc
          have h1 : ((wSegs P w).any fun t0 => t0.2.1.id = wl.id) = false := by
            cases h2 : ((wSegs P w).any fun t0 => t0.2.1.id = wl.id) with
            | false => rfl
            | true => exact absurd h2 hc.1
          have h2 : ((wAdjs A w).any fun p0 => p0.2.id = wl.id) = false := by
            cases h3 : ((wAdjs A w).any fun p0 => p0.2.id = wl.id) with
            | false => rfl
            | true => exact absurd h3 hc.2
          have hseg0 : P.filter (fun t => t.2.1.id = wl.id) = [] := by
            rw [← wSegs_filter_id P wl.workerId wl.id huW, ← hweq]
            rw [List.filter_eq_nil_iff]
            intro t ht
            have := List.any_eq_false.mp h1 t ht
            simpa using this
          have hadj0 : A.filter (fun p => p.2.id = wl.id) = [] := by
            rw [← wAdjs_filter_id A wl.workerId wl.id huA, ← hweq]
            rw [List.filter_eq_nil_iff]
            intro p hp
            have := List.any_eq_false.mp h2 p hp
            simpa using this
          unfold segContrib adjContrib
          rw [hseg0, hadj0]
          simp
      · have hcF : ¬ (((wSegs P w).any fun t => t.2.1.id = wl.id) = true ∨
            ((wAdjs A w).any fun p => p.2.id = wl.id) = true) := by
          rintro (h0 | h0)
          · obtain ⟨t, ht, ht2⟩ := List.any_eq_true.mp h0
            have htP := (List.mem_filter.mp ht).1
            have htw : t.2.1.workerId = w := by simpa using (List.mem_filter.mp ht).2
            exact hweq (by rw [← htw, huW t htP (by simpa using ht2)])
          · obtain ⟨p, hp, hp2⟩ := List.any_eq_true.mp h0
            have hpA := (List.mem_filter.mp hp).1
            have hpw : p.2.workerId = w := by simpa using (List.mem_filter.mp hp).2
            exact hweq (by rw [← hpw, huA p hpA (by simpa using hp2)])
        rw [wlUpdF, if_neg hsk]
        simp only [Bool.false_eq_true, if_false, if_pos rfl, if_true]
        rw [if_neg hcF]
        rw [ih (n + 1) wl huW huA (List.Nodup.of_cons hnd)]
        congr 1
        have hiff : (wl.workerId ∈ ws ∧ ¬ skipOf P A wl.workerId) ↔
            (wl.workerId ∈ w :: ws ∧ ¬ skipOf P A wl.workerId) := by
          constructor
          · rintro ⟨hm, hns⟩
            exact ⟨List.mem_cons_of_mem _ hm, hns⟩
          · rintro ⟨hm, hns⟩
            rcases List.mem_cons.mp hm with h0 | h0
            · exact absurd h0.symm hweq
            · exact ⟨h0, hns⟩
        rw [if_congr hiff rfl rfl]

/-- One worklog's selected-segment test can be taken over all of `P`. -/
theorem wSegs_any_id (P : List (TimeSegment × WorkLog × Int)) (w0 : Nat) (wl : WorkLog)
    (hw0 : w0 = wl.workerId)
    (huW : ∀ t ∈ P, t.2.1.id = wl.id → t.2.1.workerId = wl.workerId) :
    ((wSegs P w0).any fun t => t.2.1.id = wl.id) =
      (P.any fun t => t.2.1.id = wl.id) := by
  rw [Bool.eq_iff_iff, List.any_eq_true, List.any_eq_true]
  constructor
  · rintro ⟨t, ht, ht2⟩
    exact ⟨t, (List.mem_filter.mp ht).1, ht2⟩
  · rintro ⟨t, ht, ht2⟩
    refine ⟨t, ?_, ht2⟩
    unfold wSegs
    rw [List.mem_filter]
    refine ⟨ht, ?_⟩
    have := huW t ht (by simpa using ht2)
    simp [this, hw0]

/-- The remittance reference after a real COMPLETED run: a worklog points at
its worker's new remittance exactly when it contributed a time segment;
otherwise (adjustments only, skipped worker, or nothing selected) the
reference is unchanged. -/
theorem wlUpdF_remId (P : List (TimeSegment × WorkLog × Int))
    (A : List (Adjustment × WorkLog)) (ws : List Nat) (n : Nat) (wl : WorkLog)
    (huW : ∀ t ∈ P, t.2.1.id = wl.id → t.2.1.workerId = wl.workerId)
    (huA : ∀ p ∈ A, p.2.id = wl.id → p.2.workerId = wl.workerId)
    (hnd : ws.Nodup) :
    (wlUpdF P A false RemittanceStatus.COMPLETED ws n wl).remittanceId =
      (match ridOfF P A ws n wl.workerId with
       | none => wl.remittanceId
       | some rid =>
          if (P.any fun t => t.2.1.id = wl.id) = true then some rid
          else wl.remittanceId) := by
  induction ws generalizing n wl with
  | nil => rfl
  | cons w ws ih =>
    by_cases hsk : skipOf P A w
    · rw [wlUpdF, if_pos hsk, ridOfF, if_pos hsk]
      exact ih n wl huW huA (List.Nodup.of_cons hnd)
    · by_cases hweq : w = wl.workerId
      · have hnotin : wl.workerId ∉ ws := hweq ▸ (List.nodup_cons.mp hnd).1
        rw [wlUpdF, if_neg hsk]
        simp only [Bool.false_eq_true, if_false, if_pos rfl, if_true]
        rw [ridOfF, if_neg hsk, if_pos hweq]
        by_cases hc : ((wSegs P w).any fun t => t.2.1.id = wl.id) = true ∨
            ((wAdjs A w).any fun p => p.2.id = wl.id) = true
        · rw [if_pos hc,
            ih (n + 1) (payWorklog (wSegs P w) (wAdjs A w) n wl) huW huA
              (List.Nodup.of_cons hnd)]
          have hw9 : (payWorklog (wSegs P w) (wAdjs A w) n wl).workerId =
              wl.workerId := rfl
          rw [hw9, ridOfF_notin P A ws (n + 1) wl.workerId hnotin]
          show (payWorklog (wSegs P w) (wAdjs A w) n wl).remittanceId = _
          simp only [payWorklog]
          rw [wSegs_any_id P w wl hweq huW]
        · rw [if_neg hc,
            ih (n + 1) wl huW huA (List.Nodup.of_cons hnd)]
          rw [ridOfF_notin P A ws (n + 1) wl.workerId hnotin]
          push_neg at hc
          have h1 : ((wSegs P w).any fun t0 => t0.2.1.id = wl.id) = false := by
            cases h2 : ((wSegs P w).any fun t0 => t0.2.1.id = wl.id) with
            | false => rfl
            | true => exact absurd h2 hc.1
          have hP : (P.any fun t => t.2.1.id = wl.id) = false := by
            rw [← wSegs_any_id P w wl hweq huW]
            exact h1
          rw [hP]
          simp
      · have hcF : ¬ (((wSegs P w).any fun t => t.2.1.id = wl.id) = true ∨
            ((wAdjs A w).any fun p => p.2.id = wl.id) = true) := by
          rintro (h0 | h0)
          · obtain ⟨t, ht, ht2⟩ := List.any_eq_true.mp h0
            have htP := (List.mem_filter.mp ht).1
            have htw : t.2.1.workerId = w := by simpa using (List.mem_filter.mp ht).2
            exact hweq (by rw [← htw, huW t htP (by simpa using ht2)])
          · obtain ⟨p, hp, hp2⟩ := List.any_eq_true.mp h0
            have hpA := (List.mem_filter.mp hp).1
            have hpw : p.2.workerId = w := by simpa using (List.mem_filter.mp hp).2
            exact hweq (by rw [← hpw, huA p hpA (by simpa using hp2)])
        rw [wlUpdF, if_neg hsk]
        simp only [Bool.false_eq_true, if_false, if_pos rfl, if_true]
        rw [if_neg hcF]
        rw [ih (n + 1) wl huW huA (List.Nodup.of_cons hnd)]
        rw [ridOfF, if_neg hsk, if_neg hweq]

/-- A successful worklog lookup returns a stored row with the requested id. -/
theorem findWorkLog_mem (s : State) (i : Nat) (wl : WorkLog)
    (h : findWorkLog s i = some wl) : wl ∈ s.worklogs ∧ wl.id = i := by
  unfold findWorkLog at h
  refine ⟨List.mem_of_find?_eq_some h, ?_⟩
  have := List.find?_some h
  simpa using this

/-- Membership in `selSegs`. -/
theorem mem_selSegs (s : State) (sg : TimeSegment) :
    sg ∈ selSegs s ↔ sg ∈ s.segments ∧ sg.status = TimeSegmentStatus.ACTIVE ∧
      sg.settlementStatus = SettlementStatus.UNREMITTED := by
  unfold selSegs
  rw [List.mem_filter]
  simp

/-- Membership in `selAdjs`. -/
theorem mem_selAdjs (s : State) (a : Adjustment) :
    a ∈ selAdjs s ↔ a ∈ s.adjustments ∧
      a.settlementStatus = SettlementStatus.UNREMITTED := by
  unfold selAdjs
  rw [List.mem_filter]
  simp

/-- Unpacking a resolved segment pair. -/
theorem mem_segPairs_elim (s : State) (p : TimeSegment × WorkLog)
    (hp : p ∈ segPairs s) :
    p.1 ∈ selSegs s ∧ findWorkLog s p.1.worklogId = some p.2 := by
  unfold segPairs at hp
  obtain ⟨sg, hsg, hres⟩ := List.mem_filterMap.mp hp
  obtain ⟨wl, hwl, heq⟩ := Option.map_eq_some'.mp hres
  have h1 : sg = p.1 := congrArg Prod.fst heq.symm ▸ rfl
  cases heq
  exact ⟨hsg, hwl⟩

/-- Unpacking a resolved adjustment pair. -/
theorem mem_adjPairs_elim (s : State) (p : Adjustment × WorkLog)
    (hp : p ∈ adjPairs s) :
    p.1 ∈ selAdjs s ∧ findWorkLog s p.1.worklogId = some p.2 := by
  unfold adjPairs at hp
  obtain ⟨a, ha, hres⟩ := List.mem_filterMap.mp hp
  obtain ⟨wl, hwl, heq⟩ := Option.map_eq_some'.mp hres
  cases heq
  exact ⟨ha, hwl⟩

/-- Unpacking a priced pair: its underlying resolved pair and its price. -/
theorem priceList_mem (l : List (TimeSegment × WorkLog))
    (P : List (TimeSegment × WorkLog × Int)) (h : priceList l = .ok P) :
    ∀ t ∈ P, (t.1, t.2.1) ∈ l ∧
      calculateSegmentAmount t.1 t.2.1.hourlyRate = .ok t.2.2 := by
  induction l generalizing P with
  | nil =>
    rw [priceList] at h
    cases h
    intro t ht
    simp at ht
  | cons p rest ih =>
    rw [priceList] at h
    cases hc : calculateSegmentAmount p.1 p.2.hourlyRate with
    | error e => rw [hc] at h; exact absurd h (by simp)
    | ok amt =>
      rw [hc] at h
      cases hr : priceList rest with
      | error e => rw [hr] at h; exact absurd h (by simp)
      | ok P0 =>
        rw [hr] at h
        cases h
        intro t ht
        rcases List.mem_cons.mp ht with h0 | h0
        · subst h0
          exact ⟨List.mem_cons_self _ _, hc⟩
        · obtain ⟨h1, h2⟩ := ih P0 hr t h0
          exact ⟨List.mem_cons_of_mem _ h1, h2⟩

/-- Every resolved pair occurs, priced, in the priced list. -/
theorem priceList_complete (l : List (TimeSegment × WorkLog))
    (P : List (TimeSegment × WorkLog × Int)) (h : priceList l = .ok P) :
    ∀ p ∈ l, ∃ amt, (p.1, p.2, amt) ∈ P ∧
      calculateSegmentAmount p.1 p.2.hourlyRate = .ok amt := by
  induction l generalizing P with
  | nil =>
    intro p hp
    simp at hp
  | cons q rest ih =>
    rw [priceList] at h
    cases hc : calculateSegmentAmount q.1 q.2.hourlyRate with
    | error e => rw [hc] at h; exact absurd h (by simp)
    | ok amt =>
      rw [hc] at h
      cases hr : priceList rest with
      | error e => rw [hr] at h; exact absurd h (by simp)
      | ok P0 =>
        rw [hr] at h
        cases h
        intro p hp
        rcases List.mem_cons.mp hp with h0 | h0
        · subst h0
          exact ⟨amt, List.mem_cons_self _ _, hc⟩
        · obtain ⟨amt0, h1, h2⟩ := ih P0 hr p h0
          exact ⟨amt0, List.mem_cons_of_mem _ h1, h2⟩

/-- Under well-formedness, the pair worklogs are stored rows, so two units
referencing the same worklog id reference the same row and worker. -/
theorem pairs_worklog_eq (s : State) (hWF : WF s) (wl : WorkLog)
    (hwl : wl ∈ s.worklogs) (wl' : WorkLog) (hwl' : wl' ∈ s.worklogs)
    (hid : wl'.id = wl.id) : wl' = wl :=
  List.inj_on_of_nodup_map hWF.wlIds hwl' hwl hid

/-- The `huW` hypothesis of the worklog lemmas, discharged from `WF`. -/
theorem huW_of_WF (s : State) (hWF : WF s) (P : List (TimeSegment × WorkLog × Int))
    (hP : pricedSegPairs s = .ok P) (wl : WorkLog) (hwl : wl ∈ s.worklogs) :
    ∀ t ∈ P, t.2.1.id = wl.id → t.2.1.workerId = wl.workerId := by
  intro t ht hid
  obtain ⟨hpair, -⟩ := priceList_mem (segPairs s) P hP t ht
  obtain ⟨-, hres⟩ := mem_segPairs_elim s (t.1, t.2.1) hpair
  have hmem := (findWorkLog_mem s _ _ hres).1
  rw [pairs_worklog_eq s hWF wl hwl t.2.1 hmem hid]

/-- The `huA` hypothesis of the worklog lemmas, discharged from `WF`. -/
theorem huA_of_WF (s : State) (hWF : WF s) (wl : WorkLog) (hwl : wl ∈ s.worklogs) :
    ∀ p ∈ adjPairs s, p.2.id = wl.id → p.2.workerId = wl.workerId := by
  intro p hp hid
  obtain ⟨-, hres⟩ := mem_adjPairs_elim s p hp
  have hmem := (findWorkLog_mem s _ _ hres).1
  rw [pairs_worklog_eq s hWF wl hwl p.2 hmem hid]

/-- Under well-formedness two priced entries with the same segment id are the
same entry. -/
theorem P_uid (s : State) (hWF : WF s) (P : List (TimeSegment × WorkLog × Int))
    (hP : pricedSegPairs s = .ok P) (t : TimeSegment × WorkLog × Int) (ht : t ∈ P) :
    ∀ t0 ∈ P, t0.1.id = t.1.id → t0 = t := by
  intro t0 ht0 hid
  obtain ⟨hpair0, hc0⟩ := priceList_mem (segPairs s) P hP t0 ht0
  obtain ⟨hpair, hc⟩ := priceList_mem (segPairs s) P hP t ht
  obtain ⟨hsel0, hres0⟩ := mem_segPairs_elim s _ hpair0
  obtain ⟨hsel, hres⟩ := mem_segPairs_elim s _ hpair
  have hm0 : t0.1 ∈ s.segments := ((mem_selSegs s t0.1).mp hsel0).1
  have hm : t.1 ∈ s.segments := ((mem_selSegs s t.1).mp hsel).1
  have hseg : t0.1 = t.1 := List.inj_on_of_nodup_map hWF.segIds hm0 hm hid
  have hwl : t0.2.1 = t.2.1 := by
    rw [hseg] at hres0
    rw [hres0] at hres
    exact Option.some.inj hres
  have hamt : t0.2.2 = t.2.2 := by
    rw [hseg, hwl] at hc0
    rw [hc0] at hc
    exact Except.ok.inj hc
  obtain ⟨a0, b0, c0⟩ := t0
  obtain ⟨a, b, c⟩ := t
  simp only at hseg hwl hamt
  rw [hseg, hwl, hamt]

/-- Adjustment counterpart of `P_uid`. -/
theorem A_uid (s : State) (hWF : WF s) (p : Adjustment × WorkLog)
    (hp : p ∈ adjPairs s) :
    ∀ p0 ∈ adjPairs s, p0.1.id = p.1.id → p0 = p := by
  intro p0 hp0 hid
  obtain ⟨hsel0, hres0⟩ := mem_adjPairs_elim s p0 hp0
  obtain ⟨hsel, hres⟩ := mem_adjPairs_elim s p hp
  have hm0 : p0.1 ∈ s.adjustments := ((mem_selAdjs s p0.1).mp hsel0).1
  have hm : p.1 ∈ s.adjustments := ((mem_selAdjs s p.1).mp hsel).1
  have hadj : p0.1 = p.1 := List.inj_on_of_nodup_map hWF.adjIds hm0 hm hid
  have hwl : p0.2 = p.2 := by
    rw [hadj] at hres0
    rw [hres0] at hres
    exact Option.some.inj hres
  obtain ⟨a0, b0⟩ := p0
  obtain ⟨a, b⟩ := p
  simp only at hadj hwl
  rw [hadj, hwl]

/-- A worklog whose worker is absent or skipped has zero selected
contribution. -/
theorem contribs_zero (s : State) (hWF : WF s)
    (P : List (TimeSegment × WorkLog × Int)) (hP : pricedSegPairs s = .ok P)
    (wl : WorkLog) (hwl : wl ∈ s.worklogs)
    (hcase : wl.workerId ∉ workers s ∨ skipOf P (adjPairs s) wl.workerId) :
    segContrib P wl.id = 0 ∧ adjContrib (adjPairs s) wl.id = 0 := by
  have hseg : ∀ t ∈ P, t.2.1.id = wl.id → t.2.1.workerId = wl.workerId ∧
      (t.1, t.2.1) ∈ segPairs s := by
    intro t ht hid
    obtain ⟨hpair, -⟩ := priceList_mem (segPairs s) P hP t ht
    exact ⟨huW_of_WF s hWF P hP wl hwl t ht hid, hpair⟩
  have hadj : ∀ p ∈ adjPairs s, p.2.id = wl.id → p.2.workerId = wl.workerId :=
    huA_of_WF s hWF wl hwl
  rcases hcase with hnot | hsk
  · constructor
    · unfold segContrib
      rw [List.filter_eq_nil_iff.mpr, List.map_nil, List.sum_nil]
      intro t ht
      intro hcon
      obtain ⟨hworker, hpair⟩ := hseg t ht (by simpa using hcon)
      exact hnot (hworker ▸ workers_mem_of_segPair s (t.1, t.2.1) hpair)
    · unfold adjContrib
      rw [List.filter_eq_nil_iff.mpr, List.map_nil, List.sum_nil]
      intro p hp
      intro hcon
      have hworker := hadj p hp (by simpa using hcon)
      exact hnot (hworker ▸ workers_mem_of_adjPair s p hp)
  · obtain ⟨hz1, hz2⟩ := skip_amounts_zero P (adjPairs s) wl.workerId hsk
    constructor
    · unfold segContrib
      apply List.sum_eq_zero
      intro x hx
      obtain ⟨t, ht, rfl⟩ := List.mem_map.mp hx
      have htP := (List.mem_filter.mp ht).1
      have htid : t.2.1.id = wl.id := by simpa using (List.mem_filter.mp ht).2
      obtain ⟨hworker, -⟩ := hseg t htP htid
      apply hz1
      unfold wSegs
      rw [List.mem_filter]
      exact ⟨htP, by simp [hworker]⟩
    · unfold adjContrib
      apply List.sum_eq_zero
      intro x hx
      obtain ⟨p, hp, rfl⟩ := List.mem_map.mp hx
      have hpA := (List.mem_filter.mp hp).1
      have hpid : p.2.id = wl.id := by simpa using (List.mem_filter.mp hp).2
      have hworker := hadj p hpA hpid
      apply hz2
      unfold wAdjs
      rw [List.mem_filter]
      exact ⟨hpA, by simp [hworker]⟩

/-- A REMITTED segment row survives one further successful run unchanged. -/
theorem remitted_seg_step (s₂ : State) (req : GenerateRequest) (dS dE now : Int)
    (s₃ : State) (resp : GenerateResponse) (hWF₂ : WF s₂)
    (hgen : generate s₂ req dS dE now = .ok (s₃, resp)) (sg : TimeSegment)
    (hmem : sg ∈ s₂.segments)
    (hrm : sg.settlementStatus = SettlementStatus.REMITTED) : sg ∈ s₃.segments := by
  obtain ⟨pS, pE, P, hper, hP⟩ := generate_ok_inv s₂ req dS dE now s₃ resp hgen
  obtain ⟨-, hsg, -, -, -, -⟩ :=
    generate_components s₂ req dS dE now s₃ resp pS pE P hper hP hgen
  rw [hsg]
  have hna : ∀ t ∈ P, t.1.id ≠ sg.id := by
    intro t ht hcon
    obtain ⟨hpair, -⟩ := priceList_mem (segPairs s₂) P hP t ht
    obtain ⟨hsel, -⟩ := mem_segPairs_elim s₂ (t.1, t.2.1) hpair
    obtain ⟨hm, -, hunrem⟩ := (mem_selSegs s₂ t.1).mp hsel
    have : t.1 = sg := List.inj_on_of_nodup_map hWF₂.segIds hm hmem hcon
    rw [this, hrm] at hunrem
    exact absurd hunrem (by simp)
  have himg := List.mem_map_of_mem
    (segUpdF P (adjPairs s₂) req.dryRun (statusOf req) (workers s₂) s₂.nextId) hmem
  rwa [segUpdF_not_selected P (adjPairs s₂) req.dryRun (statusOf req)
    (workers s₂) s₂.nextId sg hna] at himg

/-- A REMITTED adjustment row survives one further successful run unchanged. -/
theorem remitted_adj_step (s₂ : State) (req : GenerateRequest) (dS dE now : Int)
    (s₃ : State) (resp : GenerateResponse) (hWF₂ : WF s₂)
    (hgen : generate s₂ req dS dE now = .ok (s₃, resp)) (a : Adjustment)
    (hmem : a ∈ s₂.adjustments)
    (hrm : a.settlementStatus = SettlementStatus.REMITTED) : a ∈ s₃.adjustments := by
  obtain ⟨pS, pE, P, hper, hP⟩ := generate_ok_inv s₂ req dS dE now s₃ resp hgen
  obtain ⟨-, -, had, -, -, -⟩ :=
    generate_components s₂ req dS dE now s₃ resp pS pE P hper hP hgen
  rw [had]
  have hna : ∀ p ∈ adjPairs s₂, p.1.id ≠ a.id := by
    intro p hp hcon
    obtain ⟨hsel, -⟩ := mem_adjPairs_elim s₂ p hp
    obtain ⟨hm, hunrem⟩ := (mem_selAdjs s₂ p.1).mp hsel
    have : p.1 = a := List.inj_on_of_nodup_map hWF₂.adjIds hm hmem hcon
    rw [this, hrm] at hunrem
    exact absurd hunrem (by simp)
  have himg := List.mem_map_of_mem
    (adjUpdF P (adjPairs s₂) req.dryRun (statusOf req) (workers s₂) s₂.nextId) hmem
  rwa [adjUpdF_not_selected P (adjPairs s₂) req.dryRun (statusOf req)
    (workers s₂) s₂.nextId a hna] at himg

/-- REMITTED units persist, verbatim, across every reachable state. -/
theorem remitted_persistent (s₀ : State) (hWF₀ : WF s₀) (s₂ : State)
    (h : Reachable s₀ s₂) :
    (∀ sg ∈ s₀.segments, sg.settlementStatus = SettlementStatus.REMITTED →
      sg ∈ s₂.segments) ∧
    (∀ a ∈ s₀.adjustments, a.settlementStatus = SettlementStatus.REMITTED →
      a ∈ s₂.adjustments) := by
  induction h with
  | refl => exact ⟨fun sg h1 _ => h1, fun a h1 _ => h1⟩
  | step req dS dE now resp hreach hgen ih =>
    have hWF₂ := WF_reachable _ _ hWF₀ hreach
    constructor
    · intro sg h1 h2
      exact remitted_seg_step _ req dS dE now _ resp hWF₂ hgen sg (ih.1 sg h1 h2) h2
    · intro a h1 h2
      exact remitted_adj_step _ req dS dE now _ resp hWF₂ hgen a (ih.2 a h1 h2) h2

/-- A REMITTED row is never among the selected (UNREMITTED) units. -/
theorem remitted_not_sel (s₂ : State) (sg : TimeSegment)
    (hrm : sg.settlementStatus = SettlementStatus.REMITTED) : sg ∉ selSegs s₂ := by
  intro hcon
  obtain ⟨-, -, h2⟩ := (mem_selSegs s₂ sg).mp hcon
  rw [hrm] at h2
  exact absurd h2 (by simp)

/-- Adjustment counterpart of `remitted_not_sel`. -/
theorem remitted_not_selAdj (s₂ : State) (a : Adjustment)
    (hrm : a.settlementStatus = SettlementStatus.REMITTED) : a ∉ selAdjs s₂ := by
  intro hcon
  obtain ⟨-, h2⟩ := (mem_selAdjs s₂ a).mp hcon
  rw [hrm] at h2
  exact absurd h2 (by simp)

/-- C1: once a COMPLETED real run settles the selected units, (i) each
worklog's cumulative paid total grows by exactly the priced amounts of its
selected units, exactly once, and (ii) in every state reachable afterwards a
REMITTED unit persists verbatim — its settlement status and remittance link
never change — and is never selected by any later run, dry or real. -/
theorem C1_exactly_once (s : State) (req : GenerateRequest) (dS dE now : Int)
    (s' : State) (resp : GenerateResponse) (pS pE : Int)
    (P : List (TimeSegment × WorkLog × Int))
    (hWF : WF s) (hdry : req.dryRun = false)
    (hst : statusOf req = RemittanceStatus.COMPLETED)
    (hper : resolvePeriod req.periodStart req.periodEnd dS dE = .ok (pS, pE))
    (hP : pricedSegPairs s = .ok P)
    (h : generate s req dS dE now = .ok (s', resp)) :
    (∀ wl ∈ s.worklogs, ∃ wl' ∈ s'.worklogs, wl'.id = wl.id ∧
      wl'.workerId = wl.workerId ∧
      wl'.totalRemittedAmount = wl.totalRemittedAmount +
        (segContrib P wl.id + adjContrib (adjPairs s) wl.id)) ∧
    (∀ s₂, Reachable s' s₂ →
      (∀ sg ∈ s'.segments, sg.settlementStatus = SettlementStatus.REMITTED →
        sg ∈ s₂.segments ∧ sg ∉ selSegs s₂) ∧
      (∀ a ∈ s'.adjustments, a.settlementStatus = SettlementStatus.REMITTED →
        a ∈ s₂.adjustments ∧ a ∉ selAdjs s₂)) := by
  obtain ⟨hwl, hsg, had, hrm, hni, -⟩ :=
    generate_components s req dS dE now s' resp pS pE P hper hP h
  have hWF' := WF_generate s req dS dE now s' resp hWF h
  constructor
  · intro wl hwlmem
    refine ⟨wlUpdF P (adjPairs s) req.dryRun (statusOf req) (workers s) s.nextId wl,
      ?_, ?_, ?_, ?_⟩
    · rw [hwl]
      exact List.mem_map_of_mem _ hwlmem
    · exact (wlUpdF_fields P (adjPairs s) req.dryRun (statusOf req)
        (workers s) s.nextId wl).1
    · exact (wlUpdF_fields P (adjPairs s) req.dryRun (statusOf req)
        (workers s) s.nextId wl).2.2.1
    · rw [hdry, hst]
      rw [wlUpdF_total P (adjPairs s) (workers s) s.nextId wl
        (huW_of_WF s hWF P hP wl hwlmem) (huA_of_WF s hWF wl hwlmem)
        (firstDedup_nodup _)]
      by_cases hcond : wl.workerId ∈ workers s ∧ ¬ skipOf P (adjPairs s) wl.workerId
      · rw [if_pos hcond]
      · rw [if_neg hcond]
        have hcase : wl.workerId ∉ workers s ∨ skipOf P (adjPairs s) wl.workerId := by
          by_cases h1 : wl.workerId ∈ workers s
          · right
            by_cases h2 : skipOf P (adjPairs s) wl.workerId
            · exact h2
            · exact absurd ⟨h1, h2⟩ hcond
          · exact Or.inl h1
        obtain ⟨hz1, hz2⟩ := contribs_zero s hWF P hP wl hwlmem hcase
        rw [hz1, hz2]
        omega
  · intro s₂ hreach
    obtain ⟨hps, hpa⟩ := remitted_persistent s' hWF' s₂ hreach
    constructor
    · intro sg h1 h2
      exact ⟨hps sg h1 h2, remitted_not_sel s₂ sg h2⟩
    · intro a h1 h2
      exact ⟨hpa a h1 h2, remitted_not_selAdj s₂ a h2⟩

/-- `exState` is well-formed. -/
theorem exState_WF : WF exState := by
  refine ⟨by decide, by decide, by decide, by decide, ?_, ?_, ?_⟩
  · intro r hr
    simp [exState] at hr
  · intro sg hsg j hj
    rw [show exState.segments = [⟨1, 1, 0, 5400, .ACTIVE, .UNREMITTED, none⟩] from rfl,
      List.mem_singleton] at hsg
    subst hsg
    exact absurd hj (by simp)
  · intro a ha j hj
    rw [show exState.adjustments =
        [⟨1, 1, -500, "quality", .DEDUCTION, .UNREMITTED, none⟩] from rfl,
      List.mem_singleton] at ha
    subst ha
    exact absurd hj (by simp)

/-- C1 witness: exactly-once payment at the concrete state `exState`. -/
theorem C1_exactly_once_witness :
    (∀ wl ∈ exState.worklogs, ∃ wl' ∈ exStateAfter.worklogs, wl'.id = wl.id ∧
      wl'.workerId = wl.workerId ∧
      wl'.totalRemittedAmount = wl.totalRemittedAmount +
        (segContrib exP wl.id + adjContrib (adjPairs exState) wl.id)) ∧
    (∀ s₂, Reachable exStateAfter s₂ →
      (∀ sg ∈ exStateAfter.segments,
        sg.settlementStatus = SettlementStatus.REMITTED →
        sg ∈ s₂.segments ∧ sg ∉ selSegs s₂) ∧
      (∀ a ∈ exStateAfter.adjustments,
        a.settlementStatus = SettlementStatus.REMITTED →
        a ∈ s₂.adjustments ∧ a ∉ selAdjs s₂)) :=
  C1_exactly_once exState exReqReal 100 200 42 exStateAfter exRespReal 100 200 exP
    exState_WF rfl rfl rfl rfl rfl

/-- Find-by-id over a table with distinct ids returns the row itself. -/
theorem find_by_id_nodup (l : List WorkLog) (hnd : (l.map WorkLog.id).Nodup)
    (wl : WorkLog) (hwl : wl ∈ l) :
    l.find? (fun x => x.id = wl.id) = some wl := by
  induction l with
  | nil => simp at hwl
  | cons x l ih =>
    rw [List.map_cons, List.nodup_cons] at hnd
    by_cases hid : x.id = wl.id
    · have hx : x = wl := by
        rcases List.mem_cons.mp hwl with h0 | h0
        · exact h0.symm
        · exact absurd (hid ▸ List.mem_map.mpr ⟨wl, h0, rfl⟩) hnd.1
      rw [hx, List.find?_cons_of_pos]
      simp
    · have h0 : wl ∈ l := by
        rcases List.mem_cons.mp hwl with h1 | h1
        · exact absurd (h1 ▸ rfl) hid
        · exact h1
      rw [List.find?_cons_of_neg]
      · exact ih hnd.2 h0
      · simp [hid]

/-- Looking up a stored worklog by its own id finds exactly that row. -/
theorem findWorkLog_self (s : State) (hnd : (s.worklogs.map WorkLog.id).Nodup)
    (wl : WorkLog) (hwl : wl ∈ s.worklogs) : findWorkLog s wl.id = some wl := by
  unfold findWorkLog
  exact find_by_id_nodup s.worklogs hnd wl hwl

theorem sum_map_filter (l : List α) (p : α → Bool) (f : α → Int) :
    ((l.filter p).map f).sum = (l.map (fun x => if p x then f x else 0)).sum := by
  induction l with
  | nil => rfl
  | cons x l ih =>
    by_cases hx : p x
    · rw [List.filter_cons_of_pos hx, List.map_cons, List.sum_cons, ih,
        List.map_cons, List.sum_cons, if_pos hx]
    · rw [List.filter_cons_of_neg hx, ih, List.map_cons, List.sum_cons,
        if_neg hx]
      omega

theorem sum_map_filterMap (l : List α) (g : α → Option β) (f : β → Int) :
    ((l.filterMap g).map f).sum = (l.map (fun x => ((g x).map f).getD 0)).sum := by
  induction l with
  | nil => rfl
  | cons x l ih =>
    cases hx : g x with
    | none =>
      rw [List.filterMap_cons_none hx, ih, List.map_cons, List.sum_cons, hx]
      simp
    | some b =>
      rw [List.filterMap_cons_some hx, List.map_cons, List.sum_cons, ih,
        List.map_cons, List.sum_cons, hx]
      simp

theorem filter_filterMap_if (l : List α) (q : α → Bool) (r : α → Option β) :
    (l.filter q).filterMap r = l.filterMap (fun x => if q x then r x else none) := by
  induction l with
  | nil => rfl
  | cons x l ih =>
    by_cases hx : q x
    · rw [List.filter_cons_of_pos hx]
      cases hr : r x with
      | none =>
        rw [List.filterMap_cons_none hr, ih, List.filterMap_cons_none]
        rw [if_pos hx]
        exact hr
      | some b =>
        rw [List.filterMap_cons_some hr, ih, List.filterMap_cons_some]
        rw [if_pos hx]
        exact hr
    · rw [List.filter_cons_of_neg hx, ih, List.filterMap_cons_none]
      rw [if_neg hx]

/-- A successfully priced list is the pointwise pricing of its input. -/
theorem priceList_ok_eq (l : List (TimeSegment × WorkLog))
    (P : List (TimeSegment × WorkLog × Int)) (h : priceList l = .ok P) :
    P = l.map (fun p => (p.1, p.2, pairAmt p)) := by
  induction l generalizing P with
  | nil =>
    rw [priceList] at h
    cases h
    rfl
  | cons p rest ih =>
    rw [priceList] at h
    cases hc : calculateSegmentAmount p.1 p.2.hourlyRate with
    | error e => rw [hc] at h; exact absurd h (by simp)
    | ok amt =>
      rw [hc] at h
      cases hr : priceList rest with
      | error e => rw [hr] at h; exact absurd h (by simp)
      | ok P0 =>
        rw [hr] at h
        cases h
        rw [List.map_cons, ih P0 hr]
        have : pairAmt p = amt := by
          unfold pairAmt
          rw [hc]
        rw [this]

/-- `adjPairs` as a single `filterMap` over the adjustment table. -/
theorem adjPairs_eq_filterMap (s : State) :
    adjPairs s = s.adjustments.filterMap (fun a =>
      if a.settlementStatus = SettlementStatus.UNREMITTED then
        (findWorkLog s a.worklogId).map (fun wl => (a, wl))
      else none) := by
  unfold adjPairs selAdjs
  rw [filter_filterMap_if]
  congr 1
  funext x
  by_cases h : x.settlementStatus = SettlementStatus.UNREMITTED
  · simp [h]
  · simp [h]

/-- `segPairs` as a single `filterMap` over the segment table. -/
theorem segPairs_eq_filterMap (s : State) :
    segPairs s = s.segments.filterMap (fun sg =>
      if sg.status = TimeSegmentStatus.ACTIVE ∧
          sg.settlementStatus = SettlementStatus.UNREMITTED then
        (findWorkLog s sg.worklogId).map (fun wl => (sg, wl))
      else none) := by
  unfold segPairs selSegs
  rw [filter_filterMap_if]
  congr 1
  funext x
  by_cases h : x.status = TimeSegmentStatus.ACTIVE ∧
      x.settlementStatus = SettlementStatus.UNREMITTED
  · simp [h]
  · simp [h]

/-- The selected contribution of a stored worklog equals the ledger's
unremitted segment bucket, priced pointwise. -/
theorem segContrib_eq (s : State) (hWF : WF s)
    (P : List (TimeSegment × WorkLog × Int)) (hP : pricedSegPairs s = .ok P)
    (wl : WorkLog) (hwl : wl ∈ s.worklogs) :
    segContrib P wl.id =
      (((segsOf s wl.id).filter (fun sg =>
        sg.status = TimeSegmentStatus.ACTIVE ∧
        sg.settlementStatus = SettlementStatus.UNREMITTED)).map
          (fun sg => pairAmt (sg, wl))).sum := by
  unfold pricedSegPairs at hP
  have hPeq := priceList_ok_eq (segPairs s) P hP
  unfold segContrib
  rw [hPeq, segPairs_eq_filterMap s, sum_map_filter, List.map_map,
    sum_map_filterMap]
  unfold segsOf
  rw [sum_map_filter, sum_map_filter]
  apply congrArg List.sum
  apply List.map_congr_left
  intro sg hsg
  simp only [Function.comp_def]
  by_cases hsel : sg.status = TimeSegmentStatus.ACTIVE ∧
      sg.settlementStatus = SettlementStatus.UNREMITTED
  · rw [if_pos hsel]
    by_cases hid : sg.worklogId = wl.id
    · rw [hid, findWorkLog_self s hWF.wlIds wl hwl]
      simp [hsel, hid]
    · cases hfind : findWorkLog s sg.worklogId with
      | none => simp [hsel, hid]
      | some wl0 =>
        have hwl0 := (findWorkLog_mem s _ _ hfind).2
        have hne : ¬ wl0.id = wl.id := by
          rw [hwl0]
          exact hid
        simp [hsel, hid, hne]
  · rw [if_neg hsel]
    simp [hsel]

/-- The selected contribution of a stored worklog equals the ledger's
unremitted adjustment bucket. -/
theorem adjContrib_eq (s : State) (hWF : WF s) (wl : WorkLog)
    (hwl : wl ∈ s.worklogs) :
    adjContrib (adjPairs s) wl.id =
      (((adjsOf s wl.id).filter (fun a =>
        a.settlementStatus = SettlementStatus.UNREMITTED)).map
          (fun a => a.amount)).sum := by
  unfold adjContrib
  rw [adjPairs_eq_filterMap s, sum_map_filter, sum_map_filterMap]
  unfold adjsOf
  rw [sum_map_filter, sum_map_filter]
  apply congrArg List.sum
  apply List.map_congr_left
  intro a ha
  by_cases hsel : a.settlementStatus = SettlementStatus.UNREMITTED
  · rw [if_pos hsel]
    by_cases hid : a.worklogId = wl.id
    · rw [hid, findWorkLog_self s hWF.wlIds wl hwl]
      simp [hsel, hid]
    · cases hfind : findWorkLog s a.worklogId with
      | none => simp [hsel, hid]
      | some wl0 =>
        have hwl0 := (findWorkLog_mem s _ _ hfind).2
        have hne : ¬ wl0.id = wl.id := by
          rw [hwl0]
          exact hid
        simp [hsel, hid, hne]
  · rw [if_neg hsel]
    simp [hsel]

/-- C9 counterexample: a worklog that contributes only an Adjustment is paid
by a real COMPLETED run (its adjustment is settled and linked, its total
grows, a remittance is created for its worker), yet its most-recent-remittance
reference is NOT set — it stays `none`, because the adjustment loop in the
source never assigns `wl.remittance_id`. -/
theorem C9_counterexample :
    generate c9State exReqReal 100 200 42 = .ok (c9StateAfter, c9Resp) ∧
    (∃ a ∈ c9StateAfter.adjustments, a.worklogId = 1 ∧
      a.settlementStatus = SettlementStatus.REMITTED ∧ a.remittanceId = some 0) ∧
    (∃ r ∈ c9StateAfter.remittances, r.workerId = 7 ∧
      r.status = RemittanceStatus.COMPLETED) ∧
    (∀ wl ∈ c9StateAfter.worklogs,
      wl.totalRemittedAmount = 500 ∧ wl.remittanceId = none) :=
  ⟨rfl, by decide, by decide, by decide⟩

/-- C9 (amended): after a real COMPLETED run, a worklog's most-recent-
remittance reference is set to its worker's new remittance exactly when the
worklog contributed at least one included TimeSegment; a worklog whose only
included units are Adjustments keeps its previous reference. -/
theorem C9_worklog_reference (s : State) (req : GenerateRequest) (dS dE now : Int)
    (s' : State) (resp : GenerateResponse) (pS pE : Int)
    (P : List (TimeSegment × WorkLog × Int))
    (hWF : WF s) (hdry : req.dryRun = false)
    (hst : statusOf req = RemittanceStatus.COMPLETED)
    (hper : resolvePeriod req.periodStart req.periodEnd dS dE = .ok (pS, pE))
    (hP : pricedSegPairs s = .ok P)
    (h : generate s req dS dE now = .ok (s', resp)) :
    ∀ wl ∈ s.worklogs, ∃ wl' ∈ s'.worklogs, wl'.id = wl.id ∧
      ((∃ t ∈ P, t.2.1.id = wl.id) → ¬ skipOf P (adjPairs s) wl.workerId →
        ∃ r ∈ s'.remittances, r ∉ s.remittances ∧ r.workerId = wl.workerId ∧
          wl'.remittanceId = some r.id) ∧
      ((∀ t ∈ P, t.2.1.id ≠ wl.id) → wl'.remittanceId = wl.remittanceId) := by
  obtain ⟨hwl, hsg, had, hrm, hni, -⟩ :=
    generate_components s req dS dE now s' resp pS pE P hper hP h
  rw [hdry, hst] at hwl hrm
  intro wl hwlmem
  have hrid := wlUpdF_remId P (adjPairs s) (workers s) s.nextId wl
    (huW_of_WF s hWF P hP wl hwlmem) (huA_of_WF s hWF wl hwlmem)
    (firstDedup_nodup _)
  refine ⟨wlUpdF P (adjPairs s) false RemittanceStatus.COMPLETED
    (workers s) s.nextId wl, ?_, ?_, ?_, ?_⟩
  · rw [hwl]
    exact List.mem_map_of_mem _ hwlmem
  · exact (wlUpdF_fields P (adjPairs s) false RemittanceStatus.COMPLETED
      (workers s) s.nextId wl).1
  · rintro ⟨t, ht, htid⟩ hns
    have hwmem : wl.workerId ∈ workers s := by
      have h1 := (priceList_mem (segPairs s) P hP t ht).1
      have h2 := workers_mem_of_segPair s (t.1, t.2.1) h1
      have h3 := huW_of_WF s hWF P hP wl hwlmem t ht htid
      rw [← h3]
      exact h2
    obtain ⟨rid, hsome⟩ :=
      ridOfF_isSome P (adjPairs s) (workers s) s.nextId wl.workerId hwmem hns
    have hany : (P.any fun t0 => t0.2.1.id = wl.id) = true :=
      List.any_eq_true.mpr ⟨t, ht, by simp [htid]⟩
    refine ⟨mkRem P (adjPairs s) RemittanceStatus.COMPLETED
      (failureReasonOf RemittanceStatus.COMPLETED) pS pE now wl.workerId rid,
      ?_, ?_, rfl, ?_⟩
    · rw [hrm]
      exact List.mem_append_right _
        (mkRem_mem_remsF P (adjPairs s) RemittanceStatus.COMPLETED
          (failureReasonOf RemittanceStatus.COMPLETED) pS pE now
          (workers s) s.nextId wl.workerId rid hsome)
    · intro hcon
      have hlt := hWF.remLt _ hcon
      have hid9 : (mkRem P (adjPairs s) RemittanceStatus.COMPLETED
          (failureReasonOf RemittanceStatus.COMPLETED) pS pE now
          wl.workerId rid).id = rid := rfl
      have hlow := ridOfF_lower P (adjPairs s) (workers s) s.nextId
        wl.workerId rid hsome
      omega
    · rw [hrid, hsome]
      simp only [hany, if_pos rfl, if_true]
      rfl
  · intro hnone
    have hany0 : (P.any fun t0 => t0.2.1.id = wl.id) = false := by
      rw [List.any_eq_false]
      intro t ht
      simpa using hnone t ht
    rw [hrid]
    cases hcase : ridOfF P (adjPairs s) (workers s) s.nextId wl.workerId with
    | none => rfl
    | some rid =>
      simp only [hany0]
      rfl

/-- C9 witness: the amended reference rule at the concrete state `exState`,
for its single worklog. -/
theorem C9_worklog_reference_witness :
    ∃ wl' ∈ exStateAfter.worklogs, wl'.id = 1 ∧
      ((∃ t ∈ exP, t.2.1.id = 1) → ¬ skipOf exP (adjPairs exState) 7 →
        ∃ r ∈ exStateAfter.remittances, r ∉ exState.remittances ∧
          r.workerId = 7 ∧ wl'.remittanceId = some r.id) ∧
      ((∀ t ∈ exP, t.2.1.id ≠ 1) → wl'.remittanceId = none) :=
  C9_worklog_reference exState exReqReal 100 200 42 exStateAfter exRespReal
    100 200 exP exState_WF rfl rfl rfl rfl rfl ⟨1, 1, 7, 2000, 0, none⟩
    (by decide)

theorem list_sum_pos_of_mem (l : List Int) (hnn : ∀ x ∈ l, 0 ≤ x) (x : Int)
    (hx : x ∈ l) (hpos : 0 < x) : 0 < l.sum := by
  induction l with
  | nil => simp at hx
  | cons y l ih =>
    rw [List.sum_cons]
    rcases List.mem_cons.mp hx with h0 | h0
    · have h1 : 0 ≤ l.sum :=
        List.sum_nonneg (fun z hz => hnn z (List.mem_cons_of_mem _ hz))
      omega
    · have h1 := ih (fun z hz => hnn z (List.mem_cons_of_mem _ hz)) h0
      have h2 := hnn y (List.mem_cons_self _ _)
      omega

/-- `adjBuckets` distributes over list concatenation, componentwise. -/
theorem adjBuckets_append (l1 l2 : List Adjustment) :
    (adjBuckets (l1 ++ l2)).1 = (adjBuckets l1).1 + (adjBuckets l2).1 ∧
    (adjBuckets (l1 ++ l2)).2 = (adjBuckets l1).2 + (adjBuckets l2).2 := by
  induction l1 with
  | nil =>
    constructor
    · show (adjBuckets l2).1 = (0 : Int) + (adjBuckets l2).1
      omega
    · show (adjBuckets l2).2 = (0 : Int) + (adjBuckets l2).2
      omega
  | cons x l ih =>
    obtain ⟨ih1, ih2⟩ := ih
    rw [List.cons_append]
    by_cases hx : x.settlementStatus = SettlementStatus.REMITTED
    · constructor
      · simp only [adjBuckets, if_pos hx]
        omega
      · simp only [adjBuckets, if_pos hx]
        omega
    · constructor
      · simp only [adjBuckets, if_neg hx]
        omega
      · simp only [adjBuckets, if_neg hx]
        omega

/-- The unremitted adjustment bucket is the sum of the unremitted
adjustments' amounts. -/
theorem adjBuckets_unremitted (adjs : List Adjustment) :
    ((adjs.filter (fun x => x.settlementStatus = SettlementStatus.UNREMITTED)).map
      (fun x => x.amount)).sum = (adjBuckets adjs).2 := by
  induction adjs with
  | nil => rfl
  | cons x rest ih =>
    by_cases hx : x.settlementStatus = SettlementStatus.REMITTED
    · rw [List.filter_cons_of_neg (by simp [hx])]
      simp only [adjBuckets, if_pos hx]
      exact ih
    · have hu : x.settlementStatus = SettlementStatus.UNREMITTED := by
        cases hs : x.settlementStatus with
        | UNREMITTED => rfl
        | REMITTED => exact absurd hs hx
      rw [List.filter_cons_of_pos (by simp [hu]), List.map_cons, List.sum_cons, ih]
      simp only [adjBuckets, if_neg hx]
      omega

/-- When the segment buckets compute, the unremitted bucket is the sum of the
ACTIVE unremitted segments' priced amounts. -/
theorem segBuckets_ok_unremitted (wl : WorkLog) (segs : List TimeSegment)
    (rs us : Int) (h : segBuckets wl.hourlyRate segs = .ok (rs, us)) :
    ((segs.filter (fun sg => sg.status = TimeSegmentStatus.ACTIVE ∧
        sg.settlementStatus = SettlementStatus.UNREMITTED)).map
      (fun sg => pairAmt (sg, wl))).sum = us := by
  induction segs generalizing rs us with
  | nil =>
    rw [segBuckets] at h
    have h1 := Except.ok.inj h
    have h2 : us = 0 := by
      have h3 := congrArg Prod.snd h1
      simp at h3
      omega
    rw [h2]
    rfl
  | cons sg rest ih =>
    rw [segBuckets] at h
    by_cases hact : sg.status = TimeSegmentStatus.ACTIVE
    · rw [if_neg (not_not_intro hact)] at h
      cases hc : calculateSegmentAmount sg wl.hourlyRate with
      | error e => rw [hc] at h; exact absurd h (by simp)
      | ok amt =>
        rw [hc] at h
        cases hrec : segBuckets wl.hourlyRate rest with
        | error e => rw [hrec] at h; exact absurd h (by simp)
        | ok ru0 =>
          obtain ⟨r0, u0⟩ := ru0
          rw [hrec] at h
          dsimp only at h
          by_cases hsr : sg.settlementStatus = SettlementStatus.REMITTED
          · rw [if_pos hsr] at h
            have h1 := Except.ok.inj h
            have hus : us = u0 := by
              have h3 := congrArg Prod.snd h1
              simp at h3
              omega
            rw [List.filter_cons_of_neg (by simp [hsr]), hus]
            exact ih r0 u0 hrec
          · rw [if_neg hsr] at h
            have h1 := Except.ok.inj h
            have hus : us = u0 + amt := by
              have h3 := congrArg Prod.snd h1
              simp at h3
              omega
            have hu : sg.settlementStatus = SettlementStatus.UNREMITTED := by
              cases hs : sg.settlementStatus with
              | UNREMITTED => rfl
              | REMITTED => exact absurd hs hsr
            rw [List.filter_cons_of_pos (by simp [hact, hu]), List.map_cons,
              List.sum_cons, ih r0 u0 hrec]
            have hpa : pairAmt (sg, wl) = amt := by
              unfold pairAmt
              rw [hc]
            rw [hpa]
            omega
    · rw [if_pos hact] at h
      rw [List.filter_cons_of_neg (by simp [hact])]
      exact ih rs us h

/-- Computing the ledger view from the segment buckets. -/
theorem worklogView_of_buckets (s : State) (wl : WorkLog) (rs us : Int)
    (h : segBuckets wl.hourlyRate (segsOf s wl.id) = .ok (rs, us)) :
    worklogView s wl = .ok
      ⟨rs + (adjBuckets (adjsOf s wl.id)).1,
       us + (adjBuckets (adjsOf s wl.id)).2,
       rs + (adjBuckets (adjsOf s wl.id)).1 + (us + (adjBuckets (adjsOf s wl.id)).2),
       if 0 < us + (adjBuckets (adjsOf s wl.id)).2 ∨
           rs + (adjBuckets (adjsOf s wl.id)).1 +
             (us + (adjBuckets (adjsOf s wl.id)).2) = 0
         then "UNREMITTED" else "REMITTED"⟩ := by
  unfold worklogView calculateWorklogAmounts
  rw [h]

/-- Dissecting a successful ledger view into its bucket components. -/
theorem worklogView_eq (s : State) (wl : WorkLog) (v : WorkLogView)
    (h : worklogView s wl = .ok v) :
    ∃ rs us, segBuckets wl.hourlyRate (segsOf s wl.id) = .ok (rs, us) ∧
      v.remittedAmount = rs + (adjBuckets (adjsOf s wl.id)).1 ∧
      v.unremittedAmount = us + (adjBuckets (adjsOf s wl.id)).2 ∧
      v.totalAmount = rs + (adjBuckets (adjsOf s wl.id)).1 +
        (us + (adjBuckets (adjsOf s wl.id)).2) := by
  cases hsb : segBuckets wl.hourlyRate (segsOf s wl.id) with
  | error e =>
    unfold worklogView calculateWorklogAmounts at h
    rw [hsb] at h
    exact absurd h (by simp)
  | ok ru =>
    obtain ⟨rs, us⟩ := ru
    have h2 := (worklogView_of_buckets s wl rs us hsb).symm.trans h
    have h3 := Except.ok.inj h2
    refine ⟨rs, us, rfl, ?_, ?_, ?_⟩
    · rw [← h3]
    · rw [← h3]
    · rw [← h3]

/-- C6 counterexample: on a fully settled worklog (unremitted 0, classified
REMITTED), creating an Adjustment with a negative signed amount does NOT
change the reported classification to UNREMITTED — the view's label rule
`0 < unremitted or total == 0` ignores negative unremitted balances, so the
worklog stays classified REMITTED. -/
theorem C6_counterexample :
    worklogView exStateAfter ⟨1, 1, 7, 2000, 2500, some 0⟩ =
      .ok ⟨2500, 0, 2500, "REMITTED"⟩ ∧
    c6NegState = { exStateAfter with adjustments := exStateAfter.adjustments ++
        [⟨2, 1, -300, "clawback", .CORRECTION, .UNREMITTED, none⟩] } ∧
    worklogView c6NegState ⟨1, 1, 7, 2000, 2500, some 0⟩ =
      .ok ⟨2500, -300, 2200, "REMITTED"⟩ :=
  ⟨rfl, rfl, rfl⟩

/-- C6 (amended): on a worklog whose unremitted amount is 0, creating a new
UNREMITTED Adjustment with a positive amount (fresh id, no remittance link)
moves the reported classification to UNREMITTED with exactly that amount
outstanding, and a subsequent real COMPLETED batch pays exactly that
adjustment's amount into the worklog's cumulative total while leaving every
previously-settled unit untouched. -/
theorem C6_retroactive_adjustment (s : State) (hWF : WF s)
    (wl : WorkLog) (hwl : wl ∈ s.worklogs)
    (r t : Int) (lbl : String)
    (hv : worklogView s wl = .ok ⟨r, 0, t, lbl⟩)
    (a : Adjustment) (haw : a.worklogId = wl.id)
    (hastat : a.settlementStatus = SettlementStatus.UNREMITTED)
    (hapos : 0 < a.amount) (haid : a.id ∉ s.adjustments.map Adjustment.id)
    (harem : a.remittanceId = none)
    (s₂ : State) (hs₂ : s₂ = { s with adjustments := s.adjustments ++ [a] })
    (req : GenerateRequest) (dS dE now : Int) (s₃ : State)
    (resp : GenerateResponse) (pS pE : Int)
    (P : List (TimeSegment × WorkLog × Int))
    (hdry : req.dryRun = false) (hst : statusOf req = RemittanceStatus.COMPLETED)
    (hper : resolvePeriod req.periodStart req.periodEnd dS dE = .ok (pS, pE))
    (hP : pricedSegPairs s₂ = .ok P)
    (hgen : generate s₂ req dS dE now = .ok (s₃, resp)) :
    worklogView s₂ wl = .ok ⟨r, a.amount, t + a.amount, "UNREMITTED"⟩ ∧
    (∃ wl' ∈ s₃.worklogs, wl'.id = wl.id ∧
      wl'.totalRemittedAmount = wl.totalRemittedAmount + a.amount) ∧
    (∀ sg ∈ s.segments, sg.settlementStatus = SettlementStatus.REMITTED →
      sg ∈ s₃.segments) ∧
    (∀ a0 ∈ s.adjustments, a0.settlementStatus = SettlementStatus.REMITTED →
      a0 ∈ s₃.adjustments) := by
  have hW2 : s₂.worklogs = s.worklogs := by rw [hs₂]
  have hS2 : s₂.segments = s.segments := by rw [hs₂]
  have hA2s : s₂.adjustments = s.adjustments ++ [a] := by rw [hs₂]
  have hN2 : s₂.nextId = s.nextId := by rw [hs₂]
  obtain ⟨rs, us, hsb, hr, hu, ht⟩ := worklogView_eq s wl ⟨r, 0, t, lbl⟩ hv
  have hr9 : r = rs + (adjBuckets (adjsOf s wl.id)).1 := hr
  have hu9 : (0 : Int) = us + (adjBuckets (adjsOf s wl.id)).2 := hu
  have ht9 : t = rs + (adjBuckets (adjsOf s wl.id)).1 +
      (us + (adjBuckets (adjsOf s wl.id)).2) := ht
  have hwl₂ : wl ∈ s₂.worklogs := by
    rw [hW2]
    exact hwl
  have hWF₂ : WF s₂ := by
    refine ⟨?_, ?_, ?_, ?_, ?_, ?_, ?_⟩
    · rw [hW2]
      exact hWF.wlIds
    · rw [hS2]
      exact hWF.segIds
    · rw [hA2s, List.map_append, List.nodup_append]
      refine ⟨hWF.adjIds, List.nodup_singleton _, ?_⟩
      intro x hx1 hx2
      rw [List.map_singleton, List.mem_singleton] at hx2
      subst hx2
      exact haid hx1
    · rw [hs₂]
      exact hWF.remIds
    · intro r0 hr0
      rw [hs₂] at hr0 ⊢
      exact hWF.remLt r0 hr0
    · intro sg hsg j hj
      rw [hS2] at hsg
      rw [hN2]
      exact hWF.segLink sg hsg j hj
    · intro a0 ha0 j hj
      rw [hA2s] at ha0
      rw [hN2]
      rcases List.mem_append.mp ha0 with h1 | h1
      · exact hWF.adjLink a0 h1 j hj
      · rw [List.mem_singleton] at h1
        subst h1
        rw [harem] at hj
        cases hj
  have hadjs₂ : adjsOf s₂ wl.id = adjsOf s wl.id ++ [a] := by
    unfold adjsOf
    rw [hA2s, List.filter_append]
    congr 1
    rw [List.filter_cons_of_pos (by simp [haw])]
    rfl
  have hsinglA : adjBuckets [a] = (0, a.amount) := by
    simp [adjBuckets, hastat]
  have hA21 : (adjBuckets (adjsOf s₂ wl.id)).1 =
      (adjBuckets (adjsOf s wl.id)).1 := by
    rw [hadjs₂, (adjBuckets_append (adjsOf s wl.id) [a]).1, hsinglA]
    simp
  have hA22 : (adjBuckets (adjsOf s₂ wl.id)).2 =
      (adjBuckets (adjsOf s wl.id)).2 + a.amount := by
    rw [hadjs₂, (adjBuckets_append (adjsOf s wl.id) [a]).2, hsinglA]
  have hsb₂ : segBuckets wl.hourlyRate (segsOf s₂ wl.id) = .ok (rs, us) := by
    unfold segsOf
    rw [hS2]
    exact hsb
  obtain ⟨hwlmaps, -, -, -, -, -⟩ :=
    generate_components s₂ req dS dE now s₃ resp pS pE P hper hP hgen
  rw [hdry, hst] at hwlmaps
  have hmemA : (a, wl) ∈ adjPairs s₂ := by
    unfold adjPairs
    refine List.mem_filterMap.mpr ⟨a, ?_, ?_⟩
    · refine (mem_selAdjs s₂ a).mpr ⟨?_, hastat⟩
      rw [hA2s]
      exact List.mem_append_right _ (List.mem_singleton.mpr rfl)
    · rw [haw, findWorkLog_self s₂ hWF₂.wlIds wl hwl₂]
      rfl
  refine ⟨?_, ?_, ?_, ?_⟩
  · refine (worklogView_of_buckets s₂ wl rs us hsb₂).trans ?_
    refine congrArg Except.ok ?_
    rw [hA21, hA22]
    have e3 : rs + (adjBuckets (adjsOf s wl.id)).1 +
        (us + ((adjBuckets (adjsOf s wl.id)).2 + a.amount)) = t + a.amount := by
      omega
    rw [e3]
    have e2 : us + ((adjBuckets (adjsOf s wl.id)).2 + a.amount) = a.amount := by
      omega
    rw [e2, ← hr9, if_pos (Or.inl hapos)]
  · refine ⟨wlUpdF P (adjPairs s₂) false RemittanceStatus.COMPLETED
      (workers s₂) s₂.nextId wl, ?_, ?_, ?_⟩
    · rw [hwlmaps]
      exact List.mem_map_of_mem _ hwl₂
    · exact (wlUpdF_fields P (adjPairs s₂) false RemittanceStatus.COMPLETED
        (workers s₂) s₂.nextId wl).1
    · rw [wlUpdF_total P (adjPairs s₂) (workers s₂) s₂.nextId wl
        (huW_of_WF s₂ hWF₂ P hP wl hwl₂) (huA_of_WF s₂ hWF₂ wl hwl₂)
        (firstDedup_nodup _)]
      have hwmem : wl.workerId ∈ workers s₂ :=
        workers_mem_of_adjPair s₂ (a, wl) hmemA
      have hns : ¬ skipOf P (adjPairs s₂) wl.workerId := by
        have hge : 0 < grossOf P (adjPairs s₂) wl.workerId := by
          unfold grossOf
          have h1 : 0 ≤ ((wSegs P wl.workerId).map
              (fun t0 => if 0 < t0.2.2 then t0.2.2 else 0)).sum := by
            refine List.sum_nonneg ?_
            intro x hx
            obtain ⟨t0, ht0, hx0⟩ := List.mem_map.mp hx
            rw [← hx0]
            by_cases hp : 0 < t0.2.2
            · rw [if_pos hp]
              omega
            · rw [if_neg hp]
          have h2 : 0 < ((wAdjs (adjPairs s₂) wl.workerId).map
              (fun p0 => if 0 < p0.1.amount then p0.1.amount else 0)).sum := by
            refine list_sum_pos_of_mem _ ?_ a.amount ?_ hapos
            · intro x hx
              obtain ⟨p0, hp0, hx0⟩ := List.mem_map.mp hx
              rw [← hx0]
              by_cases hp : 0 < p0.1.amount
              · rw [if_pos hp]
                omega
              · rw [if_neg hp]
            · have hmemW : (a, wl) ∈ wAdjs (adjPairs s₂) wl.workerId := by
                unfold wAdjs
                exact List.mem_filter.mpr ⟨hmemA, by simp⟩
              have h3 : (if 0 < (a, wl).1.amount then (a, wl).1.amount else 0) ∈
                  (wAdjs (adjPairs s₂) wl.workerId).map
                    (fun p0 => if 0 < p0.1.amount then p0.1.amount else 0) :=
                List.mem_map.mpr ⟨(a, wl), hmemW, rfl⟩
              rw [if_pos hapos] at h3
              exact h3
          omega
        rintro ⟨hg0, -⟩
        omega
      rw [if_pos ⟨hwmem, hns⟩]
      have hseg := segContrib_eq s₂ hWF₂ P hP wl hwl₂
      have hadj := adjContrib_eq s₂ hWF₂ wl hwl₂
      rw [hseg, hadj, hadjs₂, List.filter_append, List.map_append, List.sum_append]
      have hfa : ([a].filter (fun x =>
          x.settlementStatus = SettlementStatus.UNREMITTED)) = [a] := by
        rw [List.filter_cons_of_pos (by simp [hastat])]
        rfl
      rw [hfa]
      have hsum1 := segBuckets_ok_unremitted wl (segsOf s₂ wl.id) rs us hsb₂
      rw [hsum1, adjBuckets_unremitted]
      have hsing : ([a].map (fun x => x.amount)).sum = a.amount := by
        simp
      rw [hsing]
      omega
  · intro sg hmem hrm2
    refine remitted_seg_step s₂ req dS dE now s₃ resp hWF₂ hgen sg ?_ hrm2
    rw [hS2]
    exact hmem
  · intro a0 ha0 hrm2
    refine remitted_adj_step s₂ req dS dE now s₃ resp hWF₂ hgen a0 ?_ hrm2
    rw [hA2s]
    exact List.mem_append_left _ ha0

/-- `exStateAfter` is well-formed. -/
theorem exStateAfter_WF : WF exStateAfter := by
  refine ⟨by decide, by decide, by decide, by decide, ?_, ?_, ?_⟩
  · intro r hr
    rw [show exStateAfter.remittances =
        [⟨0, 7, 3000, 2500, .COMPLETED, none, 100, 200, some 42⟩] from rfl,
      List.mem_singleton] at hr
    subst hr
    decide
  · intro sg hsg j hj
    rw [show exStateAfter.segments =
        [⟨1, 1, 0, 5400, .ACTIVE, .REMITTED, some 0⟩] from rfl,
      List.mem_singleton] at hsg
    subst hsg
    have h0 : j = 0 := by
      have := Option.some.inj hj
      omega
    rw [h0]
    decide
  · intro a ha j hj
    rw [show exStateAfter.adjustments =
        [⟨1, 1, -500, "quality", .DEDUCTION, .REMITTED, some 0⟩] from rfl,
      List.mem_singleton] at ha
    subst ha
    have h0 : j = 0 := by
      have := Option.some.inj hj
      omega
    rw [h0]
    decide

/-- C6 witness: the amended retroactive-adjustment property at the settled
concrete state `exStateAfter`. -/
theorem C6_retroactive_adjustment_witness :
    worklogView c6Mid ⟨1, 1, 7, 2000, 2500, some 0⟩ =
      .ok ⟨2500, 800, 2500 + 800, "UNREMITTED"⟩ ∧
    (∃ wl' ∈ c6After.worklogs, wl'.id = 1 ∧
      wl'.totalRemittedAmount = 2500 + 800) ∧
    (∀ sg ∈ exStateAfter.segments,
      sg.settlementStatus = SettlementStatus.REMITTED → sg ∈ c6After.segments) ∧
    (∀ a0 ∈ exStateAfter.adjustments,
      a0.settlementStatus = SettlementStatus.REMITTED → a0 ∈ c6After.adjustments) :=
  C6_retroactive_adjustment exStateAfter exStateAfter_WF
    ⟨1, 1, 7, 2000, 2500, some 0⟩ (by decide) 2500 2500 "REMITTED" rfl
    ⟨2, 1, 800, "bonus", .BONUS, .UNREMITTED, none⟩ rfl rfl (by decide)
    (by decide) rfl c6Mid rfl exReqReal 100 200 43 c6After c6Resp 100 200 []
    rfl rfl rfl rfl rfl

/-- `find?` by id commutes with an id-preserving map. -/
theorem find_map_id (l : List WorkLog) (W : WorkLog → WorkLog)
    (hW : ∀ wl, (W wl).id = wl.id) (wid : Nat) :
    (l.map W).find? (fun x => x.id = wid) =
      (l.find? (fun x => x.id = wid)).map W := by
  induction l with
  | nil => rfl
  | cons x l ih =>
    rw [List.map_cons]
    by_cases hx : x.id = wid
    · rw [List.find?_cons_of_pos _ (by simp [hW, hx]),
        List.find?_cons_of_pos _ (by simp [hx])]
      rfl
    · rw [List.find?_cons_of_neg _ (by simp [hW, hx]),
        List.find?_cons_of_neg _ (by simp [hx])]
      exact ih

/-- Worklog lookup in a state whose worklogs are an id-preserving map. -/
theorem findWorkLog_map (s s₁ : State) (W : WorkLog → WorkLog)
    (hW : ∀ wl, (W wl).id = wl.id) (h : s₁.worklogs = s.worklogs.map W)
    (wid : Nat) : findWorkLog s₁ wid = (findWorkLog s wid).map W := by
  unfold findWorkLog
  rw [h]
  exact find_map_id s.worklogs W hW wid

theorem filterMap_then_filter (l : List α) (f : α → Option β) (p : β → Bool) :
    (l.filterMap f).filter p = l.filterMap (fun x => match f x with
      | some b => if p b then some b else none
      | none => none) := by
  induction l with
  | nil => rfl
  | cons x l ih =>
    rw [List.filterMap_cons, List.filterMap_cons]
    cases hx : f x with
    | none =>
      simp only [hx]
      exact ih
    | some b =>
      simp only [hx]
      by_cases hb : p b
      · rw [List.filter_cons_of_pos hb, ih]
        simp [hb]
      · rw [List.filter_cons_of_neg hb, ih]
        simp [hb]

/-- A segment that is unselected, or whose worklog does not resolve, matches
no priced pair. -/
theorem not_in_P_of_not_sel (s : State) (hWF : WF s)
    (P : List (TimeSegment × WorkLog × Int)) (hP : pricedSegPairs s = .ok P)
    (sg₀ : TimeSegment) (hmem : sg₀ ∈ s.segments)
    (hno : ∀ wl₀, (sg₀.status = TimeSegmentStatus.ACTIVE ∧
        sg₀.settlementStatus = SettlementStatus.UNREMITTED) →
      findWorkLog s sg₀.worklogId = some wl₀ → False) :
    ∀ t ∈ P, t.1.id ≠ sg₀.id := by
  intro t ht hid
  obtain ⟨hpair, -⟩ := priceList_mem (segPairs s) P hP t ht
  obtain ⟨hsel, hres⟩ := mem_segPairs_elim s (t.1, t.2.1) hpair
  obtain ⟨hmem1, hact1, hun1⟩ := (mem_selSegs s t.1).mp hsel
  have heq : t.1 = sg₀ := List.inj_on_of_nodup_map hWF.segIds hmem1 hmem hid
  rw [heq] at hact1 hun1 hres
  exact hno t.2.1 ⟨hact1, hun1⟩ hres

/-- An adjustment that is unselected, or whose worklog does not resolve,
matches no resolved pair. -/
theorem not_in_A_of_not_sel (s : State) (hWF : WF s)
    (a₀ : Adjustment) (hmem : a₀ ∈ s.adjustments)
    (hno : ∀ wl₀, a₀.settlementStatus = SettlementStatus.UNREMITTED →
      findWorkLog s a₀.worklogId = some wl₀ → False) :
    ∀ p ∈ adjPairs s, p.1.id ≠ a₀.id := by
  intro p hp hid
  obtain ⟨hsel, hres⟩ := mem_adjPairs_elim s p hp
  obtain ⟨hmem1, hun1⟩ := (mem_selAdjs s p.1).mp hsel
  have heq : p.1 = a₀ := List.inj_on_of_nodup_map hWF.adjIds hmem1 hmem hid
  rw [heq] at hun1 hres
  exact hno p.2 hun1 hres

/-- The segment pairs selected by a second run: the pairs of a run-1-skipped
worker survive verbatim (their worklog updated in place), everything else is
settled or out of scope. -/
theorem wSegs_second (s : State) (hWF : WF s)
    (P : List (TimeSegment × WorkLog × Int)) (hP : pricedSegPairs s = .ok P)
    (s₁ : State)
    (hwl₁ : s₁.worklogs = s.worklogs.map
      (wlUpdF P (adjPairs s) false RemittanceStatus.COMPLETED (workers s) s.nextId))
    (hsg₁ : s₁.segments = s.segments.map
      (segUpdF P (adjPairs s) false RemittanceStatus.COMPLETED (workers s) s.nextId))
    (P₁ : List (TimeSegment × WorkLog × Int)) (hP₁ : pricedSegPairs s₁ = .ok P₁)
    (w : Nat) :
    wSegs P₁ w = if skipOf P (adjPairs s) w
      then (wSegs P w).map (fun t => (t.1,
        wlUpdF P (adjPairs s) false RemittanceStatus.COMPLETED
          (workers s) s.nextId t.2.1, t.2.2))
      else [] := by
  have hWid : ∀ wl, (wlUpdF P (adjPairs s) false RemittanceStatus.COMPLETED
      (workers s) s.nextId wl).id = wl.id :=
    fun wl => (wlUpdF_fields P (adjPairs s) false RemittanceStatus.COMPLETED
      (workers s) s.nextId wl).1
  have hWwk : ∀ wl, (wlUpdF P (adjPairs s) false RemittanceStatus.COMPLETED
      (workers s) s.nextId wl).workerId = wl.workerId :=
    fun wl => (wlUpdF_fields P (adjPairs s) false RemittanceStatus.COMPLETED
      (workers s) s.nextId wl).2.2.1
  have hWrt : ∀ wl, (wlUpdF P (adjPairs s) false RemittanceStatus.COMPLETED
      (workers s) s.nextId wl).hourlyRate = wl.hourlyRate := by
    intro wl
    have h4 := wlUpdF_fields P (adjPairs s) false RemittanceStatus.COMPLETED
      (workers s) s.nextId wl
    exact h4.2.2.2
  have hfind : ∀ wid, findWorkLog s₁ wid = (findWorkLog s wid).map
      (wlUpdF P (adjPairs s) false RemittanceStatus.COMPLETED (workers s) s.nextId) :=
    findWorkLog_map s s₁ _ hWid hwl₁
  have hP₁eq : P₁ = (segPairs s₁).map (fun q => (q.1, q.2, pairAmt q)) := by
    unfold pricedSegPairs at hP₁
    exact priceList_ok_eq _ _ hP₁
  have hPeq : P = (segPairs s).map (fun q => (q.1, q.2, pairAmt q)) := by
    have hP9 := hP
    unfold pricedSegPairs at hP9
    exact priceList_ok_eq _ _ hP9
  unfold wSegs
  by_cases hsk : skipOf P (adjPairs s) w
  · rw [if_pos hsk]
    generalize hm : (fun t : TimeSegment × WorkLog × Int => (t.1,
      wlUpdF P (adjPairs s) false RemittanceStatus.COMPLETED
        (workers s) s.nextId t.2.1, t.2.2)) = m0
    rw [hPeq, segPairs_eq_filterMap s, List.map_filterMap, filterMap_then_filter,
      List.map_filterMap]
    rw [hP₁eq, segPairs_eq_filterMap s₁, hsg₁, List.filterMap_map,
      List.map_filterMap, filterMap_then_filter]
    refine List.filterMap_congr ?_
    intro sg₀ hsg₀
    simp only [Function.comp_def]
    by_cases hsel : sg₀.status = TimeSegmentStatus.ACTIVE ∧
        sg₀.settlementStatus = SettlementStatus.UNREMITTED
    · cases hfind₀ : findWorkLog s sg₀.worklogId with
      | none =>
        have hna : ∀ t ∈ P, t.1.id ≠ sg₀.id :=
          not_in_P_of_not_sel s hWF P hP sg₀ hsg₀ (fun wl₀ _ hres => by
            rw [hfind₀] at hres
            cases hres)
        have hU : segUpdF P (adjPairs s) false RemittanceStatus.COMPLETED
            (workers s) s.nextId sg₀ = sg₀ :=
          segUpdF_not_selected P (adjPairs s) false RemittanceStatus.COMPLETED
            (workers s) s.nextId sg₀ hna
        rw [hU, if_pos hsel, if_pos hsel, hfind sg₀.worklogId, hfind₀]
        simp
      | some wl₀ =>
        have hpair : (sg₀, wl₀) ∈ segPairs s := by
          unfold segPairs
          refine List.mem_filterMap.mpr ⟨sg₀, ?_, ?_⟩
          · exact (mem_selSegs s sg₀).mpr ⟨hsg₀, hsel.1, hsel.2⟩
          · rw [hfind₀]
            rfl
        obtain ⟨amt, htP, hcalc⟩ :=
          priceList_complete (segPairs s)
            P (by
              have hP9 := hP
              unfold pricedSegPairs at hP9
              exact hP9) (sg₀, wl₀) hpair
        have hu := P_uid s hWF P hP (sg₀, wl₀, amt) htP
        have hUv := segUpdF_selected P (adjPairs s) (workers s) s.nextId
          (sg₀, wl₀, amt) htP hu (firstDedup_nodup _)
        dsimp only at hUv
        by_cases hskw : skipOf P (adjPairs s) wl₀.workerId
        · rw [ridOfF_skip P (adjPairs s) (workers s) s.nextId wl₀.workerId hskw]
            at hUv
          rw [hUv, if_pos hsel, if_pos hsel, hfind sg₀.worklogId, hfind₀]
          have hamt : pairAmt (sg₀, wlUpdF P (adjPairs s) false
              RemittanceStatus.COMPLETED (workers s) s.nextId wl₀) =
              pairAmt (sg₀, wl₀) := by
            unfold pairAmt
            dsimp only
            rw [hWrt wl₀]
          simp only [Option.map_some']
          dsimp only
          rw [hamt, hWwk wl₀]
          by_cases hww : wl₀.workerId = w
          · rw [← hm]
            simp [hww]
          · simp [hww]
        · have hwmem : wl₀.workerId ∈ workers s :=
            workers_mem_of_segPair s (sg₀, wl₀) hpair
          obtain ⟨rid, hrid⟩ := ridOfF_isSome P (adjPairs s) (workers s)
            s.nextId wl₀.workerId hwmem hskw
          rw [hrid] at hUv
          dsimp only at hUv
          have hww : ¬ wl₀.workerId = w := by
            intro hcon
            rw [hcon] at hskw
            exact hskw hsk
          rw [hUv, if_neg (by simp [remitSeg]), if_pos hsel]
          simp [hww]
    · have hna : ∀ t ∈ P, t.1.id ≠ sg₀.id :=
        not_in_P_of_not_sel s hWF P hP sg₀ hsg₀ (fun wl₀ hsel9 _ => hsel hsel9)
      have hU : segUpdF P (adjPairs s) false RemittanceStatus.COMPLETED
          (workers s) s.nextId sg₀ = sg₀ :=
        segUpdF_not_selected P (adjPairs s) false RemittanceStatus.COMPLETED
          (workers s) s.nextId sg₀ hna
      rw [hU, if_neg hsel, if_neg hsel]
      rfl
  · rw [if_neg hsk]
    rw [hP₁eq, segPairs_eq_filterMap s₁, hsg₁, List.filterMap_map,
      List.map_filterMap, filterMap_then_filter]
    rw [List.filterMap_eq_nil_iff]
    intro sg₀ hsg₀
    simp only [Function.comp_def]
    by_cases hsel : sg₀.status = TimeSegmentStatus.ACTIVE ∧
        sg₀.settlementStatus = SettlementStatus.UNREMITTED
    · cases hfind₀ : findWorkLog s sg₀.worklogId with
      | none =>
        have hna : ∀ t ∈ P, t.1.id ≠ sg₀.id :=
          not_in_P_of_not_sel s hWF P hP sg₀ hsg₀ (fun wl₀ _ hres => by
            rw [hfind₀] at hres
            cases hres)
        have hU : segUpdF P (adjPairs s) false RemittanceStatus.COMPLETED
            (workers s) s.nextId sg₀ = sg₀ :=
          segUpdF_not_selected P (adjPairs s) false RemittanceStatus.COMPLETED
            (workers s) s.nextId sg₀ hna
        rw [hU, if_pos hsel, hfind sg₀.worklogId, hfind₀]
        rfl
      | some wl₀ =>
        have hpair : (sg₀, wl₀) ∈ segPairs s := by
          unfold segPairs
          refine List.mem_filterMap.mpr ⟨sg₀, ?_, ?_⟩
          · exact (mem_selSegs s sg₀).mpr ⟨hsg₀, hsel.1, hsel.2⟩
          · rw [hfind₀]
            rfl
        obtain ⟨amt, htP, hcalc⟩ :=
          priceList_complete (segPairs s)
            P (by
              have hP9 := hP
              unfold pricedSegPairs at hP9
              exact hP9) (sg₀, wl₀) hpair
        have hu := P_uid s hWF P hP (sg₀, wl₀, amt) htP
        have hUv := segUpdF_selected P (adjPairs s) (workers s) s.nextId
          (sg₀, wl₀, amt) htP hu (firstDedup_nodup _)
        dsimp only at hUv
        by_cases hskw : skipOf P (adjPairs s) wl₀.workerId
        · have hww : ¬ wl₀.workerId = w := by
            intro hcon
            rw [hcon] at hskw
            exact hsk hskw
          rw [ridOfF_skip P (adjPairs s) (workers s) s.nextId wl₀.workerId hskw]
            at hUv
          rw [hUv, if_pos hsel, hfind sg₀.worklogId, hfind₀]
          simp only [Option.map_some']
          dsimp only
          rw [hWwk wl₀]
          simp [hww]
        · have hwmem : wl₀.workerId ∈ workers s :=
            workers_mem_of_segPair s (sg₀, wl₀) hpair
          obtain ⟨rid, hrid⟩ := ridOfF_isSome P (adjPairs s) (workers s)
            s.nextId wl₀.workerId hwmem hskw
          rw [hrid] at hUv
          dsimp only at hUv
          rw [hUv, if_neg (by simp [remitSeg])]
          rfl
    · have hna : ∀ t ∈ P, t.1.id ≠ sg₀.id :=
        not_in_P_of_not_sel s hWF P hP sg₀ hsg₀ (fun wl₀ hsel9 _ => hsel hsel9)
      have hU : segUpdF P (adjPairs s) false RemittanceStatus.COMPLETED
          (workers s) s.nextId sg₀ = sg₀ :=
        segUpdF_not_selected P (adjPairs s) false RemittanceStatus.COMPLETED
          (workers s) s.nextId sg₀ hna
      rw [hU, if_neg hsel]
      rfl

/-- The adjustment pairs selected by a second run: the pairs of a
run-1-skipped worker survive verbatim, everything else is settled. -/
theorem wAdjs_second (s : State) (hWF : WF s)
    (P : List (TimeSegment × WorkLog × Int)) (hP : pricedSegPairs s = .ok P)
    (s₁ : State)
    (hwl₁ : s₁.worklogs = s.worklogs.map
      (wlUpdF P (adjPairs s) false RemittanceStatus.COMPLETED (workers s) s.nextId))
    (had₁ : s₁.adjustments = s.adjustments.map
      (adjUpdF P (adjPairs s) false RemittanceStatus.COMPLETED (workers s) s.nextId))
    (w : Nat) :
    wAdjs (adjPairs s₁) w = if skipOf P (adjPairs s) w
      then (wAdjs (adjPairs s) w).map (fun p => (p.1,
        wlUpdF P (adjPairs s) false RemittanceStatus.COMPLETED
          (workers s) s.nextId p.2))
      else [] := by
  have hWid : ∀ wl, (wlUpdF P (adjPairs s) false RemittanceStatus.COMPLETED
      (workers s) s.nextId wl).id = wl.id :=
    fun wl => (wlUpdF_fields P (adjPairs s) false RemittanceStatus.COMPLETED
      (workers s) s.nextId wl).1
  have hWwk : ∀ wl, (wlUpdF P (adjPairs s) false RemittanceStatus.COMPLETED
      (workers s) s.nextId wl).workerId = wl.workerId :=
    fun wl => (wlUpdF_fields P (adjPairs s) false RemittanceStatus.COMPLETED
      (workers s) s.nextId wl).2.2.1
  have hfind : ∀ wid, findWorkLog s₁ wid = (findWorkLog s wid).map
      (wlUpdF P (adjPairs s) false RemittanceStatus.COMPLETED (workers s) s.nextId) :=
    findWorkLog_map s s₁ _ hWid hwl₁
  unfold wAdjs
  by_cases hsk : skipOf P (adjPairs s) w
  · rw [if_pos hsk]
    generalize hm : (fun p : Adjustment × WorkLog => (p.1,
      wlUpdF P (adjPairs s) false RemittanceStatus.COMPLETED
        (workers s) s.nextId p.2)) = m0
    rw [adjPairs_eq_filterMap s, filterMap_then_filter, List.map_filterMap]
    rw [adjPairs_eq_filterMap s₁, had₁, List.filterMap_map, filterMap_then_filter]
    refine List.filterMap_congr ?_
    intro a₀ ha₀
    simp only [Function.comp_def]
    by_cases hsel : a₀.settlementStatus = SettlementStatus.UNREMITTED
    · cases hfind₀ : findWorkLog s a₀.worklogId with
      | none =>
        have hna : ∀ p ∈ adjPairs s, p.1.id ≠ a₀.id :=
          not_in_A_of_not_sel s hWF a₀ ha₀ (fun wl₀ _ hres => by
            rw [hfind₀] at hres
            cases hres)
        have hV : adjUpdF P (adjPairs s) false RemittanceStatus.COMPLETED
            (workers s) s.nextId a₀ = a₀ :=
          adjUpdF_not_selected P (adjPairs s) false RemittanceStatus.COMPLETED
            (workers s) s.nextId a₀ hna
        rw [hV, if_pos hsel, if_pos hsel, hfind a₀.worklogId, hfind₀]
        simp
      | some wl₀ =>
        have hpairA : (a₀, wl₀) ∈ adjPairs s := by
          unfold adjPairs
          refine List.mem_filterMap.mpr ⟨a₀, ?_, ?_⟩
          · exact (mem_selAdjs s a₀).mpr ⟨ha₀, hsel⟩
          · rw [hfind₀]
            rfl
        have hu := A_uid s hWF (a₀, wl₀) hpairA
        have hVv := adjUpdF_selected P (adjPairs s) (workers s) s.nextId
          (a₀, wl₀) hpairA hu (firstDedup_nodup _)
        dsimp only at hVv
        by_cases hskw : skipOf P (adjPairs s) wl₀.workerId
        · rw [ridOfF_skip P (adjPairs s) (workers s) s.nextId wl₀.workerId hskw]
            at hVv
          rw [hVv, if_pos hsel, if_pos hsel, hfind a₀.worklogId, hfind₀]
          simp only [Option.map_some']
          dsimp only
          rw [hWwk wl₀]
          by_cases hww : wl₀.workerId = w
          · rw [← hm]
            simp [hww]
          · simp [hww]
        · have hwmem : wl₀.workerId ∈ workers s :=
            workers_mem_of_adjPair s (a₀, wl₀) hpairA
          obtain ⟨rid, hrid⟩ := ridOfF_isSome P (adjPairs s) (workers s)
            s.nextId wl₀.workerId hwmem hskw
          rw [hrid] at hVv
          dsimp only at hVv
          have hww : ¬ wl₀.workerId = w := by
            intro hcon
            rw [hcon] at hskw
            exact hskw hsk
          rw [hVv, if_neg (by simp [remitAdj]), if_pos hsel]
          simp [hww]
    · have hna : ∀ p ∈ adjPairs s, p.1.id ≠ a₀.id :=
        not_in_A_of_not_sel s hWF a₀ ha₀ (fun wl₀ hsel9 _ => hsel hsel9)
      have hV : adjUpdF P (adjPairs s) false RemittanceStatus.COMPLETED
          (workers s) s.nextId a₀ = a₀ :=
        adjUpdF_not_selected P (adjPairs s) false RemittanceStatus.COMPLETED
          (workers s) s.nextId a₀ hna
      rw [hV, if_neg hsel, if_neg hsel]
      rfl
  · rw [if_neg hsk]
    rw [adjPairs_eq_filterMap s₁, had₁, List.filterMap_map, filterMap_then_filter]
    rw [List.filterMap_eq_nil_iff]
    intro a₀ ha₀
    simp only [Function.comp_def]
    by_cases hsel : a₀.settlementStatus = SettlementStatus.UNREMITTED
    · cases hfind₀ : findWorkLog s a₀.worklogId with
      | none =>
        have hna : ∀ p ∈ adjPairs s, p.1.id ≠ a₀.id :=
          not_in_A_of_not_sel s hWF a₀ ha₀ (fun wl₀ _ hres => by
            rw [hfind₀] at hres
            cases hres)
        have hV : adjUpdF P (adjPairs s) false RemittanceStatus.COMPLETED
            (workers s) s.nextId a₀ = a₀ :=
          adjUpdF_not_selected P (adjPairs s) false RemittanceStatus.COMPLETED
            (workers s) s.nextId a₀ hna
        rw [hV, if_pos hsel, hfind a₀.worklogId, hfind₀]
        rfl
      | some wl₀ =>
        have hpairA : (a₀, wl₀) ∈ adjPairs s := by
          unfold adjPairs
          refine List.mem_filterMap.mpr ⟨a₀, ?_, ?_⟩
          · exact (mem_selAdjs s a₀).mpr ⟨ha₀, hsel⟩
          · rw [hfind₀]
            rfl
        have hu := A_uid s hWF (a₀, wl₀) hpairA
        have hVv := adjUpdF_selected P (adjPairs s) (workers s) s.nextId
          (a₀, wl₀) hpairA hu (firstDedup_nodup _)
        dsimp only at hVv
        by_cases hskw : skipOf P (adjPairs s) wl₀.workerId
        · have hww : ¬ wl₀.workerId = w := by
            intro hcon
            rw [hcon] at hskw
            exact hsk hskw
          rw [ridOfF_skip P (adjPairs s) (workers s) s.nextId wl₀.workerId hskw]
            at hVv
          rw [hVv, if_pos hsel, hfind a₀.worklogId, hfind₀]
          simp only [Option.map_some']
          dsimp only
          rw [hWwk wl₀]
          simp [hww]
        · have hwmem : wl₀.workerId ∈ workers s :=
            workers_mem_of_adjPair s (a₀, wl₀) hpairA
          obtain ⟨rid, hrid⟩ := ridOfF_isSome P (adjPairs s) (workers s)
            s.nextId wl₀.workerId hwmem hskw
          rw [hrid] at hVv
          dsimp only at hVv
          rw [hVv, if_neg (by simp [remitAdj])]
    · have hna : ∀ p ∈ adjPairs s, p.1.id ≠ a₀.id :=
        not_in_A_of_not_sel s hWF a₀ ha₀ (fun wl₀ hsel9 _ => hsel hsel9)
      have hV : adjUpdF P (adjPairs s) false RemittanceStatus.COMPLETED
          (workers s) s.nextId a₀ = a₀ :=
        adjUpdF_not_selected P (adjPairs s) false RemittanceStatus.COMPLETED
          (workers s) s.nextId a₀ hna
      rw [hV, if_neg hsel]

/-- After a real COMPLETED run, every worker is skipped by the next run:
its selected totals are those of a run-1-skipped worker (zero) or empty. -/
theorem second_run_skip (s : State) (hWF : WF s)
    (P : List (TimeSegment × WorkLog × Int)) (hP : pricedSegPairs s = .ok P)
    (s₁ : State)
    (hwl₁ : s₁.worklogs = s.worklogs.map
      (wlUpdF P (adjPairs s) false RemittanceStatus.COMPLETED (workers s) s.nextId))
    (hsg₁ : s₁.segments = s.segments.map
      (segUpdF P (adjPairs s) false RemittanceStatus.COMPLETED (workers s) s.nextId))
    (had₁ : s₁.adjustments = s.adjustments.map
      (adjUpdF P (adjPairs s) false RemittanceStatus.COMPLETED (workers s) s.nextId))
    (P₁ : List (TimeSegment × WorkLog × Int)) (hP₁ : pricedSegPairs s₁ = .ok P₁)
    (w : Nat) : skipOf P₁ (adjPairs s₁) w := by
  have hwS := wSegs_second s hWF P hP s₁ hwl₁ hsg₁ P₁ hP₁ w
  have hwA := wAdjs_second s hWF P hP s₁ hwl₁ had₁ w
  show grossOf P₁ (adjPairs s₁) w = 0 ∧ netOf P₁ (adjPairs s₁) w = 0
  by_cases hsk : skipOf P (adjPairs s) w
  · rw [if_pos hsk] at hwS hwA
    obtain ⟨hg0, hn0⟩ := hsk
    constructor
    · unfold grossOf
      rw [hwS, hwA, List.map_map, List.map_map]
      have e1 : ((fun t : TimeSegment × WorkLog × Int =>
          if 0 < t.2.2 then t.2.2 else 0) ∘ (fun t : TimeSegment × WorkLog × Int =>
            (t.1, wlUpdF P (adjPairs s) false RemittanceStatus.COMPLETED
              (workers s) s.nextId t.2.1, t.2.2))) =
          (fun t : TimeSegment × WorkLog × Int =>
            if 0 < t.2.2 then t.2.2 else 0) :=
        funext fun t => rfl
      have e2 : ((fun p : Adjustment × WorkLog =>
          if 0 < p.1.amount then p.1.amount else 0) ∘ (fun p : Adjustment × WorkLog =>
            (p.1, wlUpdF P (adjPairs s) false RemittanceStatus.COMPLETED
              (workers s) s.nextId p.2))) =
          (fun p : Adjustment × WorkLog =>
            if 0 < p.1.amount then p.1.amount else 0) :=
        funext fun p => rfl
      rw [e1, e2]
      unfold grossOf at hg0
      exact hg0
    · unfold netOf
      rw [hwS, hwA, List.map_map, List.map_map]
      have e1 : ((fun t : TimeSegment × WorkLog × Int => t.2.2) ∘
          (fun t : TimeSegment × WorkLog × Int =>
            (t.1, wlUpdF P (adjPairs s) false RemittanceStatus.COMPLETED
              (workers s) s.nextId t.2.1, t.2.2))) =
          (fun t : TimeSegment × WorkLog × Int => t.2.2) :=
        funext fun t => rfl
      have e2 : ((fun p : Adjustment × WorkLog => p.1.amount) ∘
          (fun p : Adjustment × WorkLog =>
            (p.1, wlUpdF P (adjPairs s) false RemittanceStatus.COMPLETED
              (workers s) s.nextId p.2))) =
          (fun p : Adjustment × WorkLog => p.1.amount) :=
        funext fun p => rfl
      rw [e1, e2]
      unfold netOf at hn0
      exact hn0
  · rw [if_neg hsk] at hwS hwA
    constructor
    · unfold grossOf
      rw [hwS, hwA]
      rfl
    · unfold netOf
      rw [hwS, hwA]
      rfl

theorem grossTotF_all_skip (P : List (TimeSegment × WorkLog × Int))
    (A : List (Adjustment × WorkLog)) (ws : List Nat)
    (h : ∀ w ∈ ws, skipOf P A w) : grossTotF P A ws = 0 := by
  induction ws with
  | nil => rfl
  | cons w ws ih =>
    rw [grossTotF, if_pos (h w (List.mem_cons_self _ _)),
      ih (fun w0 hw0 => h w0 (List.mem_cons_of_mem _ hw0))]
    omega

theorem netTotF_all_skip (P : List (TimeSegment × WorkLog × Int))
    (A : List (Adjustment × WorkLog)) (ws : List Nat)
    (h : ∀ w ∈ ws, skipOf P A w) : netTotF P A ws = 0 := by
  induction ws with
  | nil => rfl
  | cons w ws ih =>
    rw [netTotF, if_pos (h w (List.mem_cons_self _ _)),
      ih (fun w0 hw0 => h w0 (List.mem_cons_of_mem _ hw0))]
    omega

theorem createdF_all_skip (P : List (TimeSegment × WorkLog × Int))
    (A : List (Adjustment × WorkLog)) (dry : Bool) (status : RemittanceStatus)
    (pS pE : Int) (ws : List Nat) (n k : Nat)
    (h : ∀ w ∈ ws, skipOf P A w) :
    createdF P A dry status pS pE ws n k = [] := by
  induction ws generalizing n k with
  | nil => rfl
  | cons w ws ih =>
    rw [createdF, if_pos (h w (List.mem_cons_self _ _))]
    exact ih n k (fun w0 hw0 => h w0 (List.mem_cons_of_mem _ hw0))

theorem remsF_all_skip (P : List (TimeSegment × WorkLog × Int))
    (A : List (Adjustment × WorkLog)) (dry : Bool) (status : RemittanceStatus)
    (failureReason : Option String) (pS pE now : Int) (ws : List Nat) (n : Nat)
    (h : ∀ w ∈ ws, skipOf P A w) :
    remsF P A dry status failureReason pS pE now ws n = [] := by
  induction ws generalizing n with
  | nil => rfl
  | cons w ws ih =>
    rw [remsF, if_pos (h w (List.mem_cons_self _ _))]
    exact ih n (fun w0 hw0 => h w0 (List.mem_cons_of_mem _ hw0))

/-- C2: after a real run with no payout-status override (outcome COMPLETED),
an immediately repeated `generate` — any period, any mode — creates zero
remittances, returns zero totals, and appends no remittance row. -/
theorem C2_idempotent_rerun (s : State) (hWF : WF s)
    (req₁ : GenerateRequest) (dS₁ dE₁ now₁ : Int) (s₁ : State)
    (resp₁ : GenerateResponse)
    (hdry₁ : req₁.dryRun = false) (hps₁ : req₁.payoutStatus = none)
    (h₁ : generate s req₁ dS₁ dE₁ now₁ = .ok (s₁, resp₁))
    (req₂ : GenerateRequest) (dS₂ dE₂ now₂ : Int) (s₂ : State)
    (resp₂ : GenerateResponse)
    (h₂ : generate s₁ req₂ dS₂ dE₂ now₂ = .ok (s₂, resp₂)) :
    resp₂.remittancesCreated = 0 ∧ resp₂.totalGrossAmount = 0 ∧
    resp₂.totalNetAmount = 0 ∧ resp₂.remittances = [] ∧
    s₂.remittances = s₁.remittances := by
  obtain ⟨pS₁, pE₁, P, hper₁, hP₁⟩ := generate_ok_inv s req₁ dS₁ dE₁ now₁ s₁ resp₁ h₁
  obtain ⟨hwl₁, hsg₁, had₁, -, -, -⟩ :=
    generate_components s req₁ dS₁ dE₁ now₁ s₁ resp₁ pS₁ pE₁ P hper₁ hP₁ h₁
  have hst₁ : statusOf req₁ = RemittanceStatus.COMPLETED := by
    unfold statusOf
    rw [hps₁]
    rfl
  rw [hdry₁, hst₁] at hwl₁ hsg₁ had₁
  obtain ⟨pS₂, pE₂, P₁, hper₂, hP₂⟩ :=
    generate_ok_inv s₁ req₂ dS₂ dE₂ now₂ s₂ resp₂ h₂
  obtain ⟨-, -, -, hrm₂, -, hresp₂⟩ :=
    generate_components s₁ req₂ dS₂ dE₂ now₂ s₂ resp₂ pS₂ pE₂ P₁ hper₂ hP₂ h₂
  have hallskip : ∀ w ∈ workers s₁, skipOf P₁ (adjPairs s₁) w :=
    fun w _ => second_run_skip s hWF P hP₁ s₁ hwl₁ hsg₁ had₁ P₁ hP₂ w
  subst hresp₂
  rw [createdF_all_skip P₁ (adjPairs s₁) req₂.dryRun (statusOf req₂)
      pS₂ pE₂ (workers s₁) s₁.nextId 0 hallskip,
    grossTotF_all_skip P₁ (adjPairs s₁) (workers s₁) hallskip,
    netTotF_all_skip P₁ (adjPairs s₁) (workers s₁) hallskip]
  refine ⟨rfl, rfl, rfl, rfl, ?_⟩
  rw [hrm₂, remsF_all_skip P₁ (adjPairs s₁) req₂.dryRun (statusOf req₂)
    (failureReasonOf (statusOf req₂)) pS₂ pE₂ now₂ (workers s₁) s₁.nextId hallskip,
    List.append_nil]

/-- C2 witness: re-running on the already settled concrete state. -/
theorem C2_idempotent_rerun_witness :
    (⟨0, 0, 0, [], false, 100, 200⟩ : GenerateResponse).remittancesCreated = 0 ∧
    (⟨0, 0, 0, [], false, 100, 200⟩ : GenerateResponse).totalGrossAmount = 0 ∧
    (⟨0, 0, 0, [], false, 100, 200⟩ : GenerateResponse).totalNetAmount = 0 ∧
    (⟨0, 0, 0, [], false, 100, 200⟩ : GenerateResponse).remittances = [] ∧
    exStateAfter.remittances = exStateAfter.remittances :=
  C2_idempotent_rerun exState exState_WF exReqReal 100 200 42 exStateAfter
    exRespReal rfl rfl rfl exReqReal 100 200 99 exStateAfter
    ⟨0, 0, 0, [], false, 100, 200⟩ rfl

/-- C5 counterexample: a FAILED run persists a remittance with a nonzero net
amount while linking no unit to it, so the linked-unit sum (0) differs from
the net amount — the invariant does not hold "regardless of the status R was
created with". -/
theorem C5_counterexample :
    generate exState exReqFailed 100 200 42 =
      .ok (exStateFailedAfter, exRespFailed) ∧
    (∃ r ∈ exStateFailedAfter.remittances, r.id = 0 ∧ r.netAmount = 2500) ∧
    linkedSum exStateFailedAfter 0 = 0 :=
  ⟨rfl, by decide, rfl⟩

/-- Any later `generate` step leaves the linked sum of an existing remittance
unchanged: its units are settled (never re-selected, so never touched) and
all fresh links go to remittances with strictly larger ids. -/
theorem linked_sum_step (s₂ : State) (hWF₂ : WF s₂) (rid : Nat)
    (hlt : rid < s₂.nextId) (req : GenerateRequest) (dS dE now : Int)
    (s₃ : State) (resp : GenerateResponse)
    (hgen : generate s₂ req dS dE now = .ok (s₃, resp)) :
    linkedSum s₃ rid = linkedSum s₂ rid := by
  obtain ⟨pS, pE, P₂, hper, hP₂⟩ := generate_ok_inv s₂ req dS dE now s₃ resp hgen
  obtain ⟨hwl, hsg, had, -, -, -⟩ :=
    generate_components s₂ req dS dE now s₃ resp pS pE P₂ hper hP₂ hgen
  have hWid : ∀ wl, (wlUpdF P₂ (adjPairs s₂) req.dryRun (statusOf req)
      (workers s₂) s₂.nextId wl).id = wl.id :=
    fun wl => (wlUpdF_fields P₂ (adjPairs s₂) req.dryRun (statusOf req)
      (workers s₂) s₂.nextId wl).1
  have hWrt : ∀ wl, (wlUpdF P₂ (adjPairs s₂) req.dryRun (statusOf req)
      (workers s₂) s₂.nextId wl).hourlyRate = wl.hourlyRate := by
    intro wl
    exact (wlUpdF_fields P₂ (adjPairs s₂) req.dryRun (statusOf req)
      (workers s₂) s₂.nextId wl).2.2.2
  have hfw : ∀ wid, findWorkLog s₃ wid = (findWorkLog s₂ wid).map
      (wlUpdF P₂ (adjPairs s₂) req.dryRun (statusOf req) (workers s₂) s₂.nextId) :=
    findWorkLog_map s₂ s₃ _ hWid hwl
  have hseg : linkedSegSum s₃ rid = linkedSegSum s₂ rid := by
    unfold linkedSegSum
    rw [hsg, sum_map_filter, List.map_map, sum_map_filter]
    apply congrArg List.sum
    apply List.map_congr_left
    intro sg hsgmem
    simp only [Function.comp_def]
    by_cases hq : sg.settlementStatus = SettlementStatus.REMITTED ∧
        sg.remittanceId = some rid
    · have hna : ∀ t ∈ P₂, t.1.id ≠ sg.id :=
        not_in_P_of_not_sel s₂ hWF₂ P₂ hP₂ sg hsgmem (fun wl₀ hsel _ => by
          rw [hq.1] at hsel
          exact absurd hsel.2 (by simp))
      have hU : segUpdF P₂ (adjPairs s₂) req.dryRun (statusOf req)
          (workers s₂) s₂.nextId sg = sg :=
        segUpdF_not_selected P₂ (adjPairs s₂) req.dryRun (statusOf req)
          (workers s₂) s₂.nextId sg hna
      have hqq : decide (sg.settlementStatus = SettlementStatus.REMITTED ∧
          sg.remittanceId = some rid) = true := by
        simp [hq.1, hq.2]
      rw [hU, if_pos hqq, if_pos hqq, hfw sg.worklogId]
      cases hfind : findWorkLog s₂ sg.worklogId with
      | none => rfl
      | some wl =>
        simp only [Option.map_some']
        unfold pairAmt
        dsimp only
        rw [hWrt wl]
    · rcases segUpdF_evol P₂ (adjPairs s₂) req.dryRun (statusOf req)
          (workers s₂) s₂.nextId sg with hU | ⟨hrm2, j, hj1, hj2, hlink2⟩
      · have hqq : ¬ (decide (sg.settlementStatus = SettlementStatus.REMITTED ∧
            sg.remittanceId = some rid) = true) := by
          simp only [decide_eq_true_eq]
          exact hq
        rw [hU, if_neg hqq, if_neg hqq]
      · have hqq1 : ¬ (decide ((segUpdF P₂ (adjPairs s₂) req.dryRun (statusOf req)
            (workers s₂) s₂.nextId sg).settlementStatus =
              SettlementStatus.REMITTED ∧
            (segUpdF P₂ (adjPairs s₂) req.dryRun (statusOf req)
              (workers s₂) s₂.nextId sg).remittanceId = some rid) = true) := by
          simp only [decide_eq_true_eq]
          rintro ⟨-, hcon⟩
          rw [hlink2] at hcon
          have := Option.some.inj hcon
          omega
        have hqq2 : ¬ (decide (sg.settlementStatus = SettlementStatus.REMITTED ∧
            sg.remittanceId = some rid) = true) := by
          simp only [decide_eq_true_eq]
          exact hq
        rw [if_neg hqq1, if_neg hqq2]
  have hadjq : linkedAdjSum s₃ rid = linkedAdjSum s₂ rid := by
    unfold linkedAdjSum
    rw [had, sum_map_filter, List.map_map, sum_map_filter]
    apply congrArg List.sum
    apply List.map_congr_left
    intro a hamem
    simp only [Function.comp_def]
    by_cases hq : a.settlementStatus = SettlementStatus.REMITTED ∧
        a.remittanceId = some rid
    · have hna : ∀ p ∈ adjPairs s₂, p.1.id ≠ a.id :=
        not_in_A_of_not_sel s₂ hWF₂ a hamem (fun wl₀ hsel _ => by
          rw [hq.1] at hsel
          exact absurd hsel (by simp))
      have hV : adjUpdF P₂ (adjPairs s₂) req.dryRun (statusOf req)
          (workers s₂) s₂.nextId a = a :=
        adjUpdF_not_selected P₂ (adjPairs s₂) req.dryRun (statusOf req)
          (workers s₂) s₂.nextId a hna
      rw [hV]
    · rcases adjUpdF_evol P₂ (adjPairs s₂) req.dryRun (statusOf req)
          (workers s₂) s₂.nextId a with hV | ⟨hrm2, j, hj1, hj2, hlink2⟩
      · rw [hV]
      · have hqq1 : ¬ (decide ((adjUpdF P₂ (adjPairs s₂) req.dryRun (statusOf req)
            (workers s₂) s₂.nextId a).settlementStatus =
              SettlementStatus.REMITTED ∧
            (adjUpdF P₂ (adjPairs s₂) req.dryRun (statusOf req)
              (workers s₂) s₂.nextId a).remittanceId = some rid) = true) := by
          simp only [decide_eq_true_eq]
          rintro ⟨-, hcon⟩
          rw [hlink2] at hcon
          have := Option.some.inj hcon
          omega
        have hqq2 : ¬ (decide (a.settlementStatus = SettlementStatus.REMITTED ∧
            a.remittanceId = some rid) = true) := by
          simp only [decide_eq_true_eq]
          exact hq
        rw [if_neg hqq1, if_neg hqq2]
  unfold linkedSum
  rw [hseg, hadjq]

/-- At the moment of creation, the segments linked to worker `w0`'s new
remittance are exactly its selected segments, priced unchanged. -/
theorem linkedSegSum_create (s : State) (hWF : WF s)
    (P : List (TimeSegment × WorkLog × Int)) (hP : pricedSegPairs s = .ok P)
    (s' : State)
    (hwl' : s'.worklogs = s.worklogs.map
      (wlUpdF P (adjPairs s) false RemittanceStatus.COMPLETED (workers s) s.nextId))
    (hsg' : s'.segments = s.segments.map
      (segUpdF P (adjPairs s) false RemittanceStatus.COMPLETED (workers s) s.nextId))
    (w0 : Nat) (rid : Nat)
    (hrid0 : ridOfF P (adjPairs s) (workers s) s.nextId w0 = some rid) :
    linkedSegSum s' rid = ((wSegs P w0).map (fun t => t.2.2)).sum := by
  have hlow : s.nextId ≤ rid :=
    ridOfF_lower P (adjPairs s) (workers s) s.nextId w0 rid hrid0
  have hWid : ∀ wl, (wlUpdF P (adjPairs s) false RemittanceStatus.COMPLETED
      (workers s) s.nextId wl).id = wl.id :=
    fun wl => (wlUpdF_fields P (adjPairs s) false RemittanceStatus.COMPLETED
      (workers s) s.nextId wl).1
  have hWrt : ∀ wl, (wlUpdF P (adjPairs s) false RemittanceStatus.COMPLETED
      (workers s) s.nextId wl).hourlyRate = wl.hourlyRate := by
    intro wl
    exact (wlUpdF_fields P (adjPairs s) false RemittanceStatus.COMPLETED
      (workers s) s.nextId wl).2.2.2
  have hfw : ∀ wid, findWorkLog s' wid = (findWorkLog s wid).map
      (wlUpdF P (adjPairs s) false RemittanceStatus.COMPLETED (workers s) s.nextId) :=
    findWorkLog_map s s' _ hWid hwl'
  have hPeq : P = (segPairs s).map (fun q => (q.1, q.2, pairAmt q)) := by
    have hP9 := hP
    unfold pricedSegPairs at hP9
    exact priceList_ok_eq _ _ hP9
  unfold linkedSegSum wSegs
  rw [hsg']
  generalize hUg : segUpdF P (adjPairs s) false RemittanceStatus.COMPLETED
    (workers s) s.nextId = U0
  rw [sum_map_filter, List.map_map]
  rw [hPeq, segPairs_eq_filterMap s, sum_map_filter, List.map_map,
    sum_map_filterMap]
  apply congrArg List.sum
  apply List.map_congr_left
  intro sg₀ hsg₀
  simp only [Function.comp_def]
  have hnc : ¬ (decide (sg₀.settlementStatus = SettlementStatus.REMITTED ∧
      sg₀.remittanceId = some rid) = true) := by
    simp only [decide_eq_true_eq]
    rintro ⟨-, hcon⟩
    have := hWF.segLink sg₀ hsg₀ rid hcon
    omega
  by_cases hsel : sg₀.status = TimeSegmentStatus.ACTIVE ∧
      sg₀.settlementStatus = SettlementStatus.UNREMITTED
  · cases hfind₀ : findWorkLog s sg₀.worklogId with
    | none =>
      have hna : ∀ t ∈ P, t.1.id ≠ sg₀.id :=
        not_in_P_of_not_sel s hWF P hP sg₀ hsg₀ (fun wl₀ _ hres => by
          rw [hfind₀] at hres
          cases hres)
      have hU : U0 sg₀ = sg₀ := by
        rw [← hUg]
        exact segUpdF_not_selected P (adjPairs s) false RemittanceStatus.COMPLETED
          (workers s) s.nextId sg₀ hna
      rw [hU, if_neg hnc, if_pos hsel]
      rfl
    | some wl₀ =>
      have hpair : (sg₀, wl₀) ∈ segPairs s := by
        unfold segPairs
        refine List.mem_filterMap.mpr ⟨sg₀, ?_, ?_⟩
        · exact (mem_selSegs s sg₀).mpr ⟨hsg₀, hsel.1, hsel.2⟩
        · rw [hfind₀]
          rfl
      obtain ⟨amt, htP, hcalc⟩ :=
        priceList_complete (segPairs s)
          P (by
            have hP9 := hP
            unfold pricedSegPairs at hP9
            exact hP9) (sg₀, wl₀) hpair
      have hu := P_uid s hWF P hP (sg₀, wl₀, amt) htP
      have hUv := segUpdF_selected P (adjPairs s) (workers s) s.nextId
        (sg₀, wl₀, amt) htP hu (firstDedup_nodup _)
      dsimp only at hUv
      rw [hUg] at hUv
      by_cases hskw : skipOf P (adjPairs s) wl₀.workerId
      · have hww : ¬ wl₀.workerId = w0 := by
          intro hcon
          rw [← hcon] at hrid0
          rw [ridOfF_skip P (adjPairs s) (workers s) s.nextId wl₀.workerId hskw]
            at hrid0
          cases hrid0
        rw [ridOfF_skip P (adjPairs s) (workers s) s.nextId wl₀.workerId hskw]
          at hUv
        dsimp only at hUv
        rw [hUv, if_neg hnc, if_pos hsel]
        simp [hww]
      · have hwmem : wl₀.workerId ∈ workers s :=
          workers_mem_of_segPair s (sg₀, wl₀) hpair
        obtain ⟨rid1, hrid1⟩ := ridOfF_isSome P (adjPairs s) (workers s)
          s.nextId wl₀.workerId hwmem hskw
        rw [hrid1] at hUv
        dsimp only at hUv
        by_cases hww : wl₀.workerId = w0
        · have hrideq : rid1 = rid := by
            rw [hww] at hrid1
            rw [hrid1] at hrid0
            exact Option.some.inj hrid0
          subst hrideq
          have hqq : decide ((remitSeg rid1 sg₀).settlementStatus =
              SettlementStatus.REMITTED ∧
              (remitSeg rid1 sg₀).remittanceId = some rid1) = true := by
            simp [remitSeg]
          rw [hUv, if_pos hqq, if_pos hsel]
          have hfw9 : findWorkLog s' (remitSeg rid1 sg₀).worklogId =
              (findWorkLog s sg₀.worklogId).map
                (wlUpdF P (adjPairs s) false RemittanceStatus.COMPLETED
                  (workers s) s.nextId) := hfw sg₀.worklogId
          rw [hfw9, hfind₀]
          have hamt1 : pairAmt (remitSeg rid1 sg₀,
              wlUpdF P (adjPairs s) false RemittanceStatus.COMPLETED
                (workers s) s.nextId wl₀) = pairAmt (sg₀, wl₀) := by
            unfold pairAmt
            dsimp only
            rw [hWrt wl₀]
            rfl
          simp [hww, hamt1]
        · have hqq : ¬ (decide ((remitSeg rid1 sg₀).settlementStatus =
              SettlementStatus.REMITTED ∧
              (remitSeg rid1 sg₀).remittanceId = some rid) = true) := by
            simp only [decide_eq_true_eq]
            rintro ⟨-, hcon⟩
            have h9 : rid1 = rid := by
              have h8 : (remitSeg rid1 sg₀).remittanceId = some rid1 := rfl
              rw [h8] at hcon
              exact Option.some.inj hcon
            rw [h9] at hrid1
            exact hww (ridOfF_inj P (adjPairs s) (workers s) s.nextId
              wl₀.workerId w0 rid hrid1 hrid0)
          rw [hUv, if_neg hqq, if_pos hsel]
          simp [hww]
  · have hna : ∀ t ∈ P, t.1.id ≠ sg₀.id :=
      not_in_P_of_not_sel s hWF P hP sg₀ hsg₀ (fun wl₀ hsel9 _ => hsel hsel9)
    have hU : U0 sg₀ = sg₀ := by
      rw [← hUg]
      exact segUpdF_not_selected P (adjPairs s) false RemittanceStatus.COMPLETED
        (workers s) s.nextId sg₀ hna
    rw [hU, if_neg hnc, if_neg hsel]
    rfl

/-- At the moment of creation, the adjustments linked to worker `w0`'s new
remittance are exactly its selected adjustments. -/
theorem linkedAdjSum_create (s : State) (hWF : WF s)
    (P : List (TimeSegment × WorkLog × Int)) (hP : pricedSegPairs s = .ok P)
    (s' : State)
    (had' : s'.adjustments = s.adjustments.map
      (adjUpdF P (adjPairs s) false RemittanceStatus.COMPLETED (workers s) s.nextId))
    (w0 : Nat) (rid : Nat)
    (hrid0 : ridOfF P (adjPairs s) (workers s) s.nextId w0 = some rid) :
    linkedAdjSum s' rid =
      ((wAdjs (adjPairs s) w0).map (fun p => p.1.amount)).sum := by
  have hlow : s.nextId ≤ rid :=
    ridOfF_lower P (adjPairs s) (workers s) s.nextId w0 rid hrid0
  unfold linkedAdjSum wAdjs
  rw [had']
  generalize hVg : adjUpdF P (adjPairs s) false RemittanceStatus.COMPLETED
    (workers s) s.nextId = V0
  rw [sum_map_filter, List.map_map]
  rw [adjPairs_eq_filterMap s, sum_map_filter, sum_map_filterMap]
  apply congrArg List.sum
  apply List.map_congr_left
  intro a₀ ha₀
  simp only [Function.comp_def]
  have hnc : ¬ (decide (a₀.settlementStatus = SettlementStatus.REMITTED ∧
      a₀.remittanceId = some rid) = true) := by
    simp only [decide_eq_true_eq]
    rintro ⟨-, hcon⟩
    have := hWF.adjLink a₀ ha₀ rid hcon
    omega
  by_cases hsel : a₀.settlementStatus = SettlementStatus.UNREMITTED
  · cases hfind₀ : findWorkLog s a₀.worklogId with
    | none =>
      have hna : ∀ p ∈ adjPairs s, p.1.id ≠ a₀.id :=
        not_in_A_of_not_sel s hWF a₀ ha₀ (fun wl₀ _ hres => by
          rw [hfind₀] at hres
          cases hres)
      have hV : V0 a₀ = a₀ := by
        rw [← hVg]
        exact adjUpdF_not_selected P (adjPairs s) false RemittanceStatus.COMPLETED
          (workers s) s.nextId a₀ hna
      rw [hV, if_neg hnc, if_pos hsel]
      rfl
    | some wl₀ =>
      have hpairA : (a₀, wl₀) ∈ adjPairs s := by
        unfold adjPairs
        refine List.mem_filterMap.mpr ⟨a₀, ?_, ?_⟩
        · exact (mem_selAdjs s a₀).mpr ⟨ha₀, hsel⟩
        · rw [hfind₀]
          rfl
      have hu := A_uid s hWF (a₀, wl₀) hpairA
      have hVv := adjUpdF_selected P (adjPairs s) (workers s) s.nextId
        (a₀, wl₀) hpairA hu (firstDedup_nodup _)
      dsimp only at hVv
      rw [hVg] at hVv
      by_cases hskw : skipOf P (adjPairs s) wl₀.workerId
      · have hww : ¬ wl₀.workerId = w0 := by
          intro hcon
          rw [← hcon] at hrid0
          rw [ridOfF_skip P (adjPairs s) (workers s) s.nextId wl₀.workerId hskw]
            at hrid0
          cases hrid0
        rw [ridOfF_skip P (adjPairs s) (workers s) s.nextId wl₀.workerId hskw]
          at hVv
        dsimp only at hVv
        rw [hVv, if_neg hnc, if_pos hsel]
        simp [hww]
      · have hwmem : wl₀.workerId ∈ workers s :=
          workers_mem_of_adjPair s (a₀, wl₀) hpairA
        obtain ⟨rid1, hrid1⟩ := ridOfF_isSome P (adjPairs s) (workers s)
          s.nextId wl₀.workerId hwmem hskw
        rw [hrid1] at hVv
        dsimp only at hVv
        by_cases hww : wl₀.workerId = w0
        · have hrideq : rid1 = rid := by
            rw [hww] at hrid1
            rw [hrid1] at hrid0
            exact Option.some.inj hrid0
          subst hrideq
          have hqq : decide ((remitAdj rid1 a₀).settlementStatus =
              SettlementStatus.REMITTED ∧
              (remitAdj rid1 a₀).remittanceId = some rid1) = true := by
            simp [remitAdj]
          rw [hVv, if_pos hqq, if_pos hsel]
          simp [hww, remitAdj]
        · have hqq : ¬ (decide ((remitAdj rid1 a₀).settlementStatus =
              SettlementStatus.REMITTED ∧
              (remitAdj rid1 a₀).remittanceId = some rid) = true) := by
            simp only [decide_eq_true_eq]
            rintro ⟨-, hcon⟩
            have h9 : rid1 = rid := by
              have h8 : (remitAdj rid1 a₀).remittanceId = some rid1 := rfl
              rw [h8] at hcon
              exact Option.some.inj hcon
            rw [h9] at hrid1
            exact hww (ridOfF_inj P (adjPairs s) (workers s) s.nextId
              wl₀.workerId w0 rid hrid1 hrid0)
          rw [hVv, if_neg hqq, if_pos hsel]
          simp [hww]
  · have hna : ∀ p ∈ adjPairs s, p.1.id ≠ a₀.id :=
      not_in_A_of_not_sel s hWF a₀ ha₀ (fun wl₀ hsel9 _ => hsel hsel9)
    have hV : V0 a₀ = a₀ := by
      rw [← hVg]
      exact adjUpdF_not_selected P (adjPairs s) false RemittanceStatus.COMPLETED
        (workers s) s.nextId a₀ hna
    rw [hV, if_neg hnc, if_neg hsel]
    rfl

/-- Every remittance persisted by a real COMPLETED run satisfies the
linked-sum invariant at creation, with an id below the new counter. -/
theorem linked_sum_create (s : State) (hWF : WF s) (req : GenerateRequest)
    (dS dE now : Int) (s' : State) (resp : GenerateResponse) (pS pE : Int)
    (P : List (TimeSegment × WorkLog × Int))
    (hdry : req.dryRun = false) (hst : statusOf req = RemittanceStatus.COMPLETED)
    (hper : resolvePeriod req.periodStart req.periodEnd dS dE = .ok (pS, pE))
    (hP : pricedSegPairs s = .ok P)
    (hgen : generate s req dS dE now = .ok (s', resp)) :
    ∀ r ∈ s'.remittances, r ∉ s.remittances →
      linkedSum s' r.id = r.netAmount ∧ r.id < s'.nextId := by
  obtain ⟨hwl, hsg, had, hrm, hni, -⟩ :=
    generate_components s req dS dE now s' resp pS pE P hper hP hgen
  rw [hdry, hst] at hwl hsg had hrm
  rw [hdry] at hni
  intro r hr hnew
  rw [hrm] at hr
  rcases List.mem_append.mp hr with hold | hnewr
  · exact absurd hold hnew
  · have hbound := remsF_id_lt P (adjPairs s) false RemittanceStatus.COMPLETED
      (failureReasonOf RemittanceStatus.COMPLETED) pS pE now (workers s)
      s.nextId r hnewr
    obtain ⟨w0, hw0mem, hns, hrid0, hreq⟩ :=
      remsF_char P (adjPairs s) RemittanceStatus.COMPLETED
        (failureReasonOf RemittanceStatus.COMPLETED) pS pE now (workers s)
        s.nextId (firstDedup_nodup _) r hnewr
    refine ⟨?_, ?_⟩
    · have h1 := linkedSegSum_create s hWF P hP s' hwl hsg w0 r.id hrid0
      have h2 := linkedAdjSum_create s hWF P hP s' had w0 r.id hrid0
      unfold linkedSum
      rw [h1, h2]
      have hnet : r.netAmount = netOf P (adjPairs s) w0 := by
        rw [hreq]
        rfl
      rw [hnet]
      rfl
    · rw [hni]
      exact hbound.2

/-- C5 (amended): for every remittance created by a real COMPLETED run, in
every later reachable state the priced amounts of the units settled by it
sum exactly to its net amount (integer cents, so the §4.2 rounding tolerance
is exact equality); remittances created with a non-COMPLETED status link no
units and do not satisfy this. -/
theorem C5_linked_net (s : State) (hWF : WF s) (req : GenerateRequest)
    (dS dE now : Int) (s' : State) (resp : GenerateResponse) (pS pE : Int)
    (P : List (TimeSegment × WorkLog × Int))
    (hdry : req.dryRun = false) (hst : statusOf req = RemittanceStatus.COMPLETED)
    (hper : resolvePeriod req.periodStart req.periodEnd dS dE = .ok (pS, pE))
    (hP : pricedSegPairs s = .ok P)
    (hgen : generate s req dS dE now = .ok (s', resp)) :
    ∀ r ∈ s'.remittances, r ∉ s.remittances →
      ∀ s₂, Reachable s' s₂ → linkedSum s₂ r.id = r.netAmount := by
  intro r hr hnew s₂ hreach
  obtain ⟨hbase, hlt'⟩ := linked_sum_create s hWF req dS dE now s' resp pS pE P
    hdry hst hper hP hgen r hr hnew
  have hWF' := WF_generate s req dS dE now s' resp hWF hgen
  induction hreach with
  | refl => exact hbase
  | step req₂ dS₂ dE₂ now₂ resp₂ hreach₂ hgen₂ ih =>
    have hWFa := WF_reachable s' _ hWF' hreach₂
    have hlta := lt_of_lt_of_le hlt' (nextId_mono_reachable s' _ hreach₂)
    rw [linked_sum_step _ hWFa r.id hlta req₂ dS₂ dE₂ now₂ _ resp₂ hgen₂]
    exact ih

/-- C5 witness: the linked-sum invariant for the remittance created by the
concrete COMPLETED run on `exState`, read back at the reached state itself. -/
theorem C5_linked_net_witness : linkedSum exStateAfter 0 = 2500 :=
  C5_linked_net exState exState_WF exReqReal 100 200 42 exStateAfter exRespReal
    100 200 exP rfl rfl rfl rfl rfl
    ⟨0, 7, 3000, 2500, .COMPLETED, none, 100, 200, some 42⟩ (by decide)
    (by decide) exStateAfter (Reachable.refl _)

end WorklogSettlement
